import Mathlib

/-!
# godas: accounts, e-mail verification, bearer tokens and per-owner stacks

A shallow embedding of the service and repository layers of the godas API
(`src/service`, `src/repository`, `src/secure`, `src/model`), of the user
controller and of the authentication middleware (`src/controller`,
`src/middleware`).

* The document store is an in-memory value (`World`): three collections, each a
  list of documents in natural order. `FindOne` is the first match, `Find` is
  the filter, `UpdateByID`/`UpdateOne` with `$set` of a whole struct overwrites
  every field of the first match, `DeleteOne` removes the first match. The
  store always answers; transport failures are outside the model.
* Every repository call and every mail sent is appended to `World.calls`, so
  that "no update was issued" or "the store was never read" can be stated.
* Everything a function takes from its environment (clock readings, generated
  ids, random draws, the outcome of the SMTP dialogue, environment variables,
  the JWT library, the body parser of the web framework) is an explicit
  argument. `JwtCodec.lib` is a model of the JWT library on abstract
  serialisation and HMAC primitives, used where a claim is about tokens.
* Go strings are `String`; the validator counts runes, as `String.length` does.
-/

namespace Godas

/-! ## Errors and outcomes -/

/-- The error values of `service/service_error.go`, the two sentinel errors of
the repository package, and the errors of the libraries. -/
inductive Error where
  | ErrBadRequest
  | ErrDuplicate
  | ErrNotFound
  | ErrUnauthorized
  /-- Modelled from the spec: the declaration of `repository.ErrNoData` is
  missing from the sources; it is the repository's "zero matched document"
  error that the services translate into `ErrNotFound`. -/
  | ErrNoData
  /-- Modelled from the spec: the declaration of `repository.ErrDuplicateData`
  is missing from the sources; it is the repository's "unique index violation"
  error that the services translate into `ErrDuplicate`. -/
  | ErrDuplicateData
  /-- Any error of a library (mongo write exception, SMTP, JWT), passed upward
  unchanged. -/
  | other (msg : String)
  deriving DecidableEq, Repr

/-- What a service call does: it returns a value, returns an error, or the
goroutine panics (a run-time fault such as an index out of range). -/
inductive Outcome (α : Type) where
  | ok (value : α)
  | err (e : Error)
  | panic (msg : String)
  deriving DecidableEq, Repr

/-! ## Time -/

/-- A `time.Time` instant, as nanoseconds since the Unix epoch. -/
structure Time where
  unixNano : Int
  deriving DecidableEq, Repr

/-- A `time.Duration`: a number of nanoseconds. -/
abbrev Duration := Int

def Second : Duration := 1000000000

def Minute : Duration := 60 * Second

def Hour : Duration := 60 * Minute

/-- The method `Time.Add`. -/
def Time.Add (t : Time) (d : Duration) : Time := ⟨t.unixNano + d⟩

/-- The method `Time.Unix`: whole seconds since the epoch (rounded down). -/
def Time.Unix (t : Time) : Int := t.unixNano / Second

/-! ## Domain model (`model/domain`) -/

inductive UserRole where
  | UserRoleClient
  | UserRoleAdmin
  deriving DecidableEq, Repr

structure User where
  ID : String
  Name : String
  Role : UserRole
  Email : String
  Password : String
  Verified : Bool
  deriving DecidableEq, Repr

/-- Modelled from the spec: the declaration of `domain.Item` is missing from
the sources (`model/domain/item.go`); its two fields are the ones the stack
service reads and writes, `Index` (a `uint64`) and `Name`. -/
structure Item where
  Index : Nat
  Name : String
  deriving DecidableEq, Repr

structure Stack where
  ID : String
  Items : List Item
  Owner : String
  deriving DecidableEq, Repr

structure EmailVerificationSend where
  FromName : String
  FromEmail : String
  FromPassword : String
  ToEmail : String
  Title : String
  Host : String
  Port : String
  deriving DecidableEq, Repr

structure EmailVerification where
  Email : String
  Code : String
  Expiration : Int
  Cooldown : Int
  deriving DecidableEq, Repr

/-! ## Web model (`model/web`) -/

/-- The struct `jwt.RegisteredClaims`; a numeric date is a number of whole
seconds, and `none` is the nil pointer. -/
structure RegisteredClaims where
  Issuer : String
  Subject : String
  Audience : List String
  ExpiresAt : Option Int
  NotBefore : Option Int
  IssuedAt : Option Int
  ID : String
  deriving DecidableEq, Repr

structure JwtClaims where
  UserID : String
  Role : UserRole
  Registered : RegisteredClaims
  deriving DecidableEq, Repr

structure AuthRequest where
  Email : String
  Password : String
  deriving DecidableEq, Repr

structure AuthResponse where
  ID : String
  Role : UserRole
  deriving DecidableEq, Repr

structure EmailVerificationCreateRequest where
  Email : String
  Code : String
  deriving DecidableEq, Repr

structure EmailVerificationRecreateRequest where
  Email : String
  deriving DecidableEq, Repr

structure ItemRequest where
  Name : String
  deriving DecidableEq, Repr

structure ItemResponse where
  Index : Nat
  Name : String
  deriving DecidableEq, Repr

structure StackResponse where
  ID : String
  Owner : String
  Items : List Item
  deriving DecidableEq, Repr

structure UserCreateRequest where
  Name : String
  Email : String
  Password : String
  deriving DecidableEq, Repr

structure UserUpdateRequest where
  Name : String
  deriving DecidableEq, Repr

structure UserResponse where
  ID : String
  Name : String
  deriving DecidableEq, Repr

/-! ## The validator (`github.com/go-playground/validator/v10`) -/

/-- The validator instance. The `email` tag is a regular expression of the
library; it is a parameter here. -/
structure Validate where
  isEmail : String → Bool

/-- Tag `required` on a string: the value is not the zero value. -/
def required (s : String) : Bool := s != ""

/-- Tag `min=n` on a string: at least `n` runes. -/
def minRunes (n : Nat) (s : String) : Bool := decide (n ≤ s.length)

/-- Tag `max=n` on a string: at most `n` runes. -/
def maxRunes (n : Nat) (s : String) : Bool := decide (s.length ≤ n)

/-- `validate.Struct` on `web.ItemRequest`: `required,min=1,max=128`. -/
def Validate.StructItemRequest (_v : Validate) (r : ItemRequest) : Bool :=
  required r.Name && minRunes 1 r.Name && maxRunes 128 r.Name

/-- `validate.Struct` on `web.UserCreateRequest`. -/
def Validate.StructUserCreateRequest (v : Validate) (r : UserCreateRequest) : Bool :=
  (required r.Name && minRunes 1 r.Name && maxRunes 128 r.Name)
    && (required r.Email && v.isEmail r.Email)
    && (required r.Password && minRunes 8 r.Password)

/-- `validate.Struct` on `web.UserUpdateRequest`: `min=1,max=128`. -/
def Validate.StructUserUpdateRequest (_v : Validate) (r : UserUpdateRequest) : Bool :=
  minRunes 1 r.Name && maxRunes 128 r.Name

/-- `validate.Struct` on `web.EmailVerificationCreateRequest`. -/
def Validate.StructEmailVerificationCreateRequest (v : Validate)
    (r : EmailVerificationCreateRequest) : Bool :=
  (required r.Email && v.isEmail r.Email)
    && (required r.Code && minRunes 6 r.Code && maxRunes 6 r.Code)

/-- `validate.Struct` on `web.EmailVerificationRecreateRequest`. -/
def Validate.StructEmailVerificationRecreateRequest (v : Validate)
    (r : EmailVerificationRecreateRequest) : Bool :=
  required r.Email && v.isEmail r.Email

/-! ## The world: document store and call log -/

/-- One call issued to a repository or to the mail transport. -/
inductive Call where
  | UserInsert (user : User)
  | UserFindById (id : String)
  | UserFindByEmail (email : String)
  | UserFindAll
  | UserUpdate (user : User)
  | UserDelete (id : String)
  | StackInsert (stack : Stack)
  | StackFindById (id : String)
  | StackFindByOwner (owner : String)
  | StackFindAll
  | StackUpdate (stack : Stack)
  | EmailVerificationInsert (emailVerification : EmailVerification)
  | EmailVerificationFindByEmail (email : String)
  | EmailVerificationUpdate (emailVerification : EmailVerification)
  | EmailVerificationDelete (email : String)
  | SendMail (sender : String) (recipient : String) (code : String)
  deriving DecidableEq, Repr

/-- The three collections of the database and the log of calls, oldest first. -/
structure World where
  users : List User
  stackDocs : List Stack
  emailVerifications : List EmailVerification
  calls : List Call
  deriving DecidableEq, Repr

/-- The invariants the database itself maintains: `_id` is the primary key of
the users and of the stacks, and the users and the pending verifications each
carry a unique index on `email`. -/
def World.WellFormed (w : World) : Prop :=
  (w.users.map User.ID).Nodup ∧ (w.users.map User.Email).Nodup
    ∧ (w.stackDocs.map Stack.ID).Nodup
    ∧ (w.emailVerifications.map EmailVerification.Email).Nodup

/-- Append a call to the log. -/
def World.record (w : World) (c : Call) : World := { w with calls := w.calls ++ [c] }

/-- Overwrite the first element satisfying `p` (the document an update
matches) with `new`. -/
def replaceFirst {α : Type} (p : α → Bool) (new : α) : List α → List α
  | [] => []
  | x :: xs => if p x then new :: xs else x :: replaceFirst p new xs

/-- Remove the first element satisfying `p` (the document a `DeleteOne`
matches). -/
def deleteFirst {α : Type} (p : α → Bool) : List α → List α
  | [] => []
  | x :: xs => if p x then xs else x :: deleteFirst p xs

/-- Go indexing `xs[i]` with its bounds check: `none` is the run-time panic. -/
def index {α : Type} (xs : List α) (i : Int) : Option α :=
  if i < 0 then none else xs[i.toNat]?

/-! ## `repository/stack_repository.go` -/

/-- `StackRepositoryImpl.Insert`; `generated` is the id the snowflake node
hands out. `_id` is the primary key: a second document with the same `_id` is
a duplicate-key write error (code 11000). -/
def StackRepository.Insert (generated : String) (stack : Stack) (w : World) :
    Except Error Stack × World :=
  let stack := { stack with ID := generated }
  let w := w.record (.StackInsert stack)
  if w.stackDocs.any (fun s => s.ID == stack.ID) then (.error .ErrDuplicateData, w)
  else (.ok stack, { w with stackDocs := w.stackDocs ++ [stack] })

/-- `StackRepositoryImpl.FindById`. -/
def StackRepository.FindById (id : String) (w : World) : Except Error Stack × World :=
  let w := w.record (.StackFindById id)
  match w.stackDocs.find? (fun s => s.ID == id) with
  | none => (.error .ErrNoData, w)
  | some stack => (.ok stack, w)

/-- `StackRepositoryImpl.FindByOwner`. -/
def StackRepository.FindByOwner (owner : String) (w : World) :
    Except Error (List Stack) × World :=
  let w := w.record (.StackFindByOwner owner)
  (.ok (w.stackDocs.filter (fun s => s.Owner == owner)), w)

/-- `StackRepositoryImpl.FindAll`. -/
def StackRepository.FindAll (w : World) : Except Error (List Stack) × World :=
  let w := w.record .StackFindAll
  (.ok w.stackDocs, w)

/-- `StackRepositoryImpl.Update`: `UpdateByID` with `$set` of the whole struct;
no matched document is `ErrNoData`. -/
def StackRepository.Update (stack : Stack) (w : World) : Except Error Stack × World :=
  let w := w.record (.StackUpdate stack)
  if w.stackDocs.any (fun s => s.ID == stack.ID) then
    (.ok stack, { w with stackDocs := replaceFirst (fun s => s.ID == stack.ID) stack w.stackDocs })
  else (.error .ErrNoData, w)

/-! ## `repository/user_repository.go` -/

/-- `UserRepositoryImpl.Insert`; `generated` is the id the snowflake node hands
out. The collection has the primary key `_id` and a unique index on `email`;
violating either is a duplicate-key write error (code 11000). -/
def UserRepository.Insert (generated : String) (user : User) (w : World) :
    Except Error User × World :=
  let user := { user with ID := generated }
  let w := w.record (.UserInsert user)
  if w.users.any (fun u => u.ID == user.ID || u.Email == user.Email) then
    (.error .ErrDuplicateData, w)
  else (.ok user, { w with users := w.users ++ [user] })

/-- `UserRepositoryImpl.FindById`. -/
def UserRepository.FindById (id : String) (w : World) : Except Error User × World :=
  let w := w.record (.UserFindById id)
  match w.users.find? (fun u => u.ID == id) with
  | none => (.error .ErrNoData, w)
  | some user => (.ok user, w)

/-- `UserRepositoryImpl.FindByEmail`. -/
def UserRepository.FindByEmail (email : String) (w : World) : Except Error User × World :=
  let w := w.record (.UserFindByEmail email)
  match w.users.find? (fun u => u.Email == email) with
  | none => (.error .ErrNoData, w)
  | some user => (.ok user, w)

/-- `UserRepositoryImpl.FindAll`. -/
def UserRepository.FindAll (w : World) : Except Error (List User) × World :=
  let w := w.record .UserFindAll
  (.ok w.users, w)

/-- `UserRepositoryImpl.Update`: `UpdateByID` with `$set` of the whole struct,
so every field of the matched document is overwritten. No matched document is
`ErrNoData`; an e-mail that another document already holds violates the unique
index and the write error is returned as it is. -/
def UserRepository.Update (user : User) (w : World) : Except Error User × World :=
  let w := w.record (.UserUpdate user)
  if w.users.any (fun u => u.ID == user.ID) then
    if w.users.any (fun u => u.ID != user.ID && u.Email == user.Email) then
      (.error (.other "E11000 duplicate key error"), w)
    else
      (.ok user, { w with users := replaceFirst (fun u => u.ID == user.ID) user w.users })
  else (.error .ErrNoData, w)

/-- The users a `UserRepositoryImpl.Update` of `user` leaves (see `UserRepository.Update`). -/
def usersAfterUpdate (user : User) (users : List User) : List User :=
  if users.any (fun u => u.ID == user.ID) then
    if users.any (fun u => u.ID != user.ID && u.Email == user.Email) then users
    else replaceFirst (fun u => u.ID == user.ID) user users
  else users

/-- `UserRepositoryImpl.Delete`. -/
def UserRepository.Delete (user : User) (w : World) : Option Error × World :=
  let w := w.record (.UserDelete user.ID)
  if w.users.any (fun u => u.ID == user.ID) then
    (none, { w with users := deleteFirst (fun u => u.ID == user.ID) w.users })
  else (some .ErrNoData, w)

/-! ## `repository/email_verification_repository.go` -/

/-- `EmailVerificationRepositoryImpl.Insert`: the collection has a unique index
on `email`. -/
def EmailVerificationRepository.Insert (emailVerification : EmailVerification) (w : World) :
    Option Error × World :=
  let w := w.record (.EmailVerificationInsert emailVerification)
  if w.emailVerifications.any (fun r => r.Email == emailVerification.Email) then
    (some .ErrDuplicateData, w)
  else (none, { w with emailVerifications := w.emailVerifications ++ [emailVerification] })

/-- `EmailVerificationRepositoryImpl.FindByEmail`. -/
def EmailVerificationRepository.FindByEmail (email : String) (w : World) :
    Except Error EmailVerification × World :=
  let w := w.record (.EmailVerificationFindByEmail email)
  match w.emailVerifications.find? (fun r => r.Email == email) with
  | none => (.error .ErrNoData, w)
  | some emailVerification => (.ok emailVerification, w)

/-- `EmailVerificationRepositoryImpl.Update`: `UpdateOne` filtered by e-mail
with `$set` of the whole struct. -/
def EmailVerificationRepository.Update (emailVerification : EmailVerification) (w : World) :
    Except Error EmailVerification × World :=
  let w := w.record (.EmailVerificationUpdate emailVerification)
  if w.emailVerifications.any (fun r => r.Email == emailVerification.Email) then
    let docs := replaceFirst (fun r => r.Email == emailVerification.Email) emailVerification
      w.emailVerifications
    (.ok emailVerification, { w with emailVerifications := docs })
  else (.error .ErrNoData, w)

/-- `EmailVerificationRepositoryImpl.Delete`. -/
def EmailVerificationRepository.Delete (email : String) (w : World) : Option Error × World :=
  let w := w.record (.EmailVerificationDelete email)
  if w.emailVerifications.any (fun r => r.Email == email) then
    let docs := deleteFirst (fun r => r.Email == email) w.emailVerifications
    (none, { w with emailVerifications := docs })
  else (some .ErrNoData, w)

/-! ## `service/stack_service.go` -/

/-- `StackServiceImpl.Push`. -/
def StackService.Push (v : Validate) (id : String) (request : ItemRequest) (w : World) :
    Outcome ItemResponse × World :=
  if !(v.StructItemRequest request) then (.err .ErrBadRequest, w) else
  match StackRepository.FindById id w with
  | (.error e, w) => if e = .ErrNoData then (.err .ErrNotFound, w) else (.err e, w)
  | (.ok stack, w) =>
    -- `len` is a non-negative `int`, so the conversion to `uint64` keeps the value
    let item : Item := { Index := stack.Items.length, Name := request.Name }
    let stack := { stack with Items := stack.Items ++ [item] }
    match StackRepository.Update stack w with
    | (.error e, w) => if e = .ErrNoData then (.err .ErrNotFound, w) else (.err e, w)
    | (.ok _, w) => (.ok { Index := item.Index, Name := item.Name }, w)

/-- `StackServiceImpl.PushFromOwner`. -/
def StackService.PushFromOwner (v : Validate) (id : String) (owner : String)
    (request : ItemRequest) (w : World) : Outcome ItemResponse × World :=
  if !(v.StructItemRequest request) then (.err .ErrBadRequest, w) else
  match StackRepository.FindByOwner owner w with
  | (.error e, w) => if e = .ErrNoData then (.err .ErrNotFound, w) else (.err e, w)
  | (.ok stackList, w) =>
    if stackList.length < 1 then (.err .ErrNotFound, w) else
    match stackList.find? (fun s => s.ID == id) with
    | none => (.err .ErrNotFound, w)
    | some stack =>
      let item : Item := { Index := stack.Items.length, Name := request.Name }
      let stack := { stack with Items := stack.Items ++ [item] }
      match StackRepository.Update stack w with
      | (.error e, w) => if e = .ErrNoData then (.err .ErrNotFound, w) else (.err e, w)
      | (.ok _, w) => (.ok { Index := item.Index, Name := item.Name }, w)

/-- `StackServiceImpl.Pop`. -/
def StackService.Pop (id : String) (w : World) : Outcome ItemResponse × World :=
  match StackRepository.FindById id w with
  | (.error e, w) => if e = .ErrNoData then (.err .ErrNotFound, w) else (.err e, w)
  | (.ok stack, w) =>
    let pos : Int := (stack.Items.length : Int) - 1
    match index stack.Items pos with
    | none => (.panic "index out of range", w)
    | some item =>
      let stack := { stack with Items := stack.Items.take pos.toNat }
      match StackRepository.Update stack w with
      | (.error e, w) => if e = .ErrNoData then (.err .ErrNotFound, w) else (.err e, w)
      | (.ok _, w) => (.ok { Index := item.Index, Name := item.Name }, w)

/-- `StackServiceImpl.PopFromOwner`. -/
def StackService.PopFromOwner (id : String) (owner : String) (w : World) :
    Outcome ItemResponse × World :=
  match StackRepository.FindByOwner owner w with
  | (.error e, w) => if e = .ErrNoData then (.err .ErrNotFound, w) else (.err e, w)
  | (.ok stackList, w) =>
    if stackList.length < 1 then (.err .ErrNotFound, w) else
    match stackList.find? (fun s => s.ID == id) with
    | none => (.err .ErrNotFound, w)
    | some stack =>
      let pos : Int := (stack.Items.length : Int) - 1
      match index stack.Items pos with
      | none => (.panic "index out of range", w)
      | some item =>
        let stack := { stack with Items := stack.Items.take pos.toNat }
        match StackRepository.Update stack w with
        | (.error e, w) => if e = .ErrNoData then (.err .ErrNotFound, w) else (.err e, w)
        | (.ok _, w) => (.ok { Index := item.Index, Name := item.Name }, w)

/-- `StackServiceImpl.Create`; `generated` is the id the snowflake node hands
out to the repository. -/
def StackService.Create (generated : String) (id : String) (w : World) :
    Outcome StackResponse × World :=
  match UserRepository.FindById id w with
  | (.error e, w) => if e = .ErrNoData then (.err .ErrNotFound, w) else (.err e, w)
  | (.ok user, w) =>
    match StackRepository.Insert generated { ID := "", Items := [], Owner := user.ID } w with
    | (.error e, w) => if e = .ErrDuplicateData then (.err .ErrDuplicate, w) else (.err e, w)
    | (.ok stack, w) => (.ok { ID := stack.ID, Owner := stack.Owner, Items := stack.Items }, w)

/-- The conversion every finder applies to a stored stack. -/
def Stack.toResponse (stack : Stack) : StackResponse :=
  { ID := stack.ID, Owner := stack.Owner, Items := stack.Items }

/-- `StackServiceImpl.FindById`. -/
def StackService.FindById (id : String) (w : World) : Outcome StackResponse × World :=
  match StackRepository.FindById id w with
  | (.error e, w) => if e = .ErrNoData then (.err .ErrNotFound, w) else (.err e, w)
  | (.ok stack, w) => (.ok stack.toResponse, w)

/-- `StackServiceImpl.FindByIdFromOwner`. -/
def StackService.FindByIdFromOwner (id : String) (owner : String) (w : World) :
    Outcome StackResponse × World :=
  match StackRepository.FindByOwner owner w with
  | (.error e, w) => if e = .ErrNoData then (.err .ErrNotFound, w) else (.err e, w)
  | (.ok stackList, w) =>
    if stackList.length < 1 then (.err .ErrNotFound, w) else
    match stackList.find? (fun s => s.ID == id) with
    | some stack => (.ok stack.toResponse, w)
    | none => (.err .ErrNotFound, w)

/-- `StackServiceImpl.FindAll`. -/
def StackService.FindAll (w : World) : Outcome (List StackResponse) × World :=
  match StackRepository.FindAll w with
  | (.error e, w) => (.err e, w)
  | (.ok stackList, w) => (.ok (stackList.map Stack.toResponse), w)

/-- `StackServiceImpl.FindAllFromOwner`. -/
def StackService.FindAllFromOwner (owner : String) (w : World) :
    Outcome (List StackResponse) × World :=
  match StackRepository.FindByOwner owner w with
  | (.error e, w) => if e = .ErrNoData then (.err .ErrNotFound, w) else (.err e, w)
  | (.ok stackList, w) => (.ok (stackList.map Stack.toResponse), w)

/-! ## `secure/jwt.go` -/

/-- The signing methods a token header can name. -/
inductive SigningMethod where
  | HS256
  | HS384
  | HS512
  | unknown (alg : String)
  deriving DecidableEq, Repr

/-- The parsed token (`jwt.Token`) as the key function and the caller see it. -/
structure JwtToken where
  Method : SigningMethod
  Claims : JwtClaims
  Valid : Bool
  deriving DecidableEq, Repr

/-- The library `github.com/golang-jwt/jwt/v4`, a parameter of the provider.
`SignedString m c k` is `jwt.NewWithClaims(m, c).SignedString(k)`; with an HMAC
method and a byte-slice key it cannot fail. `ParseWithClaims s keyFunc now` is
the parser run at the instant `now`. -/
structure JwtLib where
  SignedString : SigningMethod → JwtClaims → String → String
  ParseWithClaims : String → (JwtToken → Except Error String) → Time → Except Error JwtToken

/-- The constant `DefaultJWTExpiration`. -/
def DefaultJWTExpiration : Duration := Hour * 24 * 30

structure JWTProvider where
  expiration : Duration
  issuer : String
  signatureKey : String
  deriving DecidableEq, Repr

/-- `NewJWTProvider`. -/
def NewJWTProvider (expiration : Duration) (issuer : String) (signatureKey : String) :
    JWTProvider :=
  { expiration := expiration, issuer := issuer, signatureKey := signatureKey }

/-- `jwt.NewNumericDate`: the instant truncated to whole seconds. -/
def NewNumericDate (t : Time) : Option Int := some t.Unix

/-- The claims `JWTProvider.Token` signs: the registered claims are overwritten
by a struct literal that sets four fields and leaves the others zero. -/
def JWTProvider.signedClaims (provider : JWTProvider) (now : Time) (claims : JwtClaims) :
    JwtClaims :=
  { claims with
    Registered :=
      { Subject := claims.UserID
        IssuedAt := NewNumericDate now
        ExpiresAt := NewNumericDate (now.Add provider.expiration)
        Issuer := provider.issuer
        Audience := []
        NotBefore := none
        ID := "" } }

/-- `JWTProvider.Token`; `now` is the reading of `time.Now()`. -/
def JWTProvider.Token (lib : JwtLib) (provider : JWTProvider) (now : Time)
    (claims : JwtClaims) : Except Error String :=
  .ok (lib.SignedString .HS256 (provider.signedClaims now claims) provider.signatureKey)

/-- The key function `JWTProvider.Validate` hands to the parser. -/
def JWTProvider.keyFunc (provider : JWTProvider) (token : JwtToken) : Except Error String :=
  if token.Method ≠ .HS256 then .error (.other "invalid signing method")
  else .ok provider.signatureKey

/-- `JWTProvider.Validate`. -/
def JWTProvider.Validate (lib : JwtLib) (provider : JWTProvider) (now : Time)
    (tokenString : String) : Except Error JwtClaims :=
  match lib.ParseWithClaims tokenString provider.keyFunc now with
  | .error e => .error e
  | .ok parsedToken =>
    if !parsedToken.Valid then .error (.other "invalid claims")
    else .ok parsedToken.Claims

/-! ## `service/auth_service.go` -/

/-- The zero value of `jwt.RegisteredClaims`. -/
def RegisteredClaims.zero : RegisteredClaims :=
  { Issuer := "", Subject := "", Audience := [], ExpiresAt := none, NotBefore := none,
    IssuedAt := none, ID := "" }

/-- `AuthServiceImpl.Signin`. -/
def AuthService.Signin (lib : JwtLib) (provider : JWTProvider) (now : Time)
    (request : AuthRequest) (w : World) : Outcome String × World :=
  match UserRepository.FindByEmail request.Email w with
  | (.error e, w) => if e = .ErrNoData then (.err .ErrNotFound, w) else (.err e, w)
  | (.ok user, w) =>
    if user.Password != request.Password || !user.Verified then (.err .ErrUnauthorized, w)
    else
      match provider.Token lib now
          { UserID := user.ID, Role := user.Role, Registered := RegisteredClaims.zero } with
      | .error e => (.err e, w)
      | .ok token => (.ok token, w)

/-- `AuthServiceImpl.Validate`. -/
def AuthService.Validate (lib : JwtLib) (provider : JWTProvider) (now : Time)
    (tokenString : String) (w : World) : Outcome AuthResponse × World :=
  match provider.Validate lib now tokenString with
  | .error e => (.err e, w)
  | .ok claims =>
    match UserRepository.FindById claims.UserID w with
    | (.error e, w) => if e = .ErrNoData then (.err .ErrNotFound, w) else (.err e, w)
    | (.ok user, w) =>
      if !user.Verified then (.err .ErrUnauthorized, w)
      else (.ok { ID := claims.UserID, Role := claims.Role }, w)

/-! ## `service/email_verification_service.go` -/

/-- What one service call takes from its environment. -/
structure Env where
  /-- The function `os.Getenv`. -/
  getenv : String → String
  /-- The raw output of the random source at its successive draws. -/
  raw : Nat → Nat
  /-- What `smtp.SendMail` returns: `none` when the mail was handed over. -/
  sendMail : Option Error
  /-- The successive readings of `time.Now()`. -/
  now : Nat → Time
  /-- The id the snowflake node generates. -/
  generated : String

def codeSelection : List Char := "ABCDEFGHIJKLMNOPQRSTUVWXYZ0123456789".toList

def codeSelectionLength : Nat := codeSelection.length

/-- `rand.Intn(n)`: a value in `[0, n)` taken from the raw output. -/
def Intn (raw : Nat) (n : Nat) : Nat := raw % n

/-- The loop of `GenerateCode`: fill `k` more positions, starting at position
`i`; `none` is an index out of range. -/
def GenerateCode.fill (raw : Nat → Nat) : Nat → Nat → Option (List Char)
  | 0, _ => some []
  | k + 1, i =>
    match index codeSelection (Intn (raw i) codeSelectionLength) with
    | none => none
    | some c =>
      match GenerateCode.fill raw k (i + 1) with
      | none => none
      | some rest => some (c :: rest)

/-- `EmailVerificationServiceImpl.GenerateCode`: six symbols. -/
def GenerateCode (raw : Nat → Nat) : Option (List Char) := GenerateCode.fill raw 6 0

/-- `EmailVerificationServiceImpl.Create`. The mail that goes out is recorded
by its sender, its recipient and the code in its body. -/
def EmailVerificationService.Create (env : Env) (email : EmailVerificationSend) (w : World) :
    Outcome EmailVerification × World :=
  match GenerateCode env.raw with
  | none => (.panic "index out of range", w)
  | some code =>
    let w := w.record (.SendMail email.FromEmail email.ToEmail (String.mk code))
    match env.sendMail with
    | some e => (.err e, w)
    | none =>
      let emailVerification : EmailVerification :=
        { Email := email.ToEmail
          Code := String.mk code
          Expiration := ((env.now 0).Add (Minute * 10)).Unix
          Cooldown := ((env.now 1).Add Minute).Unix }
      match EmailVerificationRepository.Insert emailVerification w with
      | (some e, w) => if e = .ErrDuplicateData then (.err .ErrDuplicate, w) else (.err e, w)
      | (none, w) => (.ok emailVerification, w)

/-- `EmailVerificationServiceImpl.Recreate`. -/
def EmailVerificationService.Recreate (env : Env) (email : EmailVerificationSend) (w : World) :
    Outcome EmailVerification × World :=
  match EmailVerificationRepository.FindByEmail email.ToEmail w with
  | (.error e, w) => if e = .ErrNoData then (.err .ErrNotFound, w) else (.err e, w)
  | (.ok emailVerification, w) =>
    if (env.now 0).Unix < emailVerification.Cooldown then (.err .ErrUnauthorized, w) else
    let emailVerification :=
      { emailVerification with
        Expiration := ((env.now 1).Add (Minute * 10)).Unix
        Cooldown := ((env.now 2).Add (Minute * 1)).Unix }
    match GenerateCode env.raw with
    | none => (.panic "index out of range", w)
    | some code =>
      let emailVerification := { emailVerification with Code := String.mk code }
      let w := w.record (.SendMail email.FromEmail email.ToEmail (String.mk code))
      match env.sendMail with
      | some e => (.err e, w)
      | none =>
        match EmailVerificationRepository.Update emailVerification w with
        | (.error e, w) =>
          if e = .ErrDuplicateData then (.err .ErrDuplicate, w)
          else if e = .ErrNoData then (.err .ErrNotFound, w)
          else (.err e, w)
        | (.ok res, w) => (.ok res, w)

/-- `EmailVerificationServiceImpl.Verification`; `now` is the reading of
`time.Now()`. The returned `Option` is the Go `error`: `none` is `nil`. -/
def EmailVerificationService.Verification (v : Validate) (now : Time)
    (request : EmailVerificationCreateRequest) (w : World) : Option Error × World :=
  if !(v.StructEmailVerificationCreateRequest request) then (some .ErrBadRequest, w) else
  match EmailVerificationRepository.FindByEmail request.Email w with
  | (.error e, w) => if e = .ErrNoData then (some .ErrNotFound, w) else (some e, w)
  | (.ok emailVerification, w) =>
    if now.Unix ≥ emailVerification.Expiration then (some .ErrUnauthorized, w) else
    if request.Code != emailVerification.Code then (some .ErrUnauthorized, w) else
    match EmailVerificationRepository.Delete request.Email w with
    | (some e, w) => if e = .ErrNoData then (some .ErrNotFound, w) else (some e, w)
    | (none, w) => (none, w)

/-! ## `service/user_service.go` -/

/-- The mail settings both `Create` and `Resend` read from the process
environment. -/
def verificationMail (env : Env) (toEmail : String) : EmailVerificationSend :=
  { FromName := env.getenv "APP_NAME"
    FromEmail := env.getenv "EMAIL"
    FromPassword := env.getenv "EMAIL_PASSWORD"
    ToEmail := toEmail
    Title := "Email Verification"
    Host := env.getenv "EMAIL_HOST"
    Port := env.getenv "EMAIL_PORT" }

/-- `UserServiceImpl.Create`. The goroutine that creates the verification
record and the insert of the user touch different collections, so the stored
documents do not depend on how the two interleave; the embedding runs the
goroutine first and takes, on every path, the state in which it has finished. -/
def UserService.Create (v : Validate) (env : Env) (request : UserCreateRequest) (w : World) :
    Outcome UserResponse × World :=
  if !(v.StructUserCreateRequest request) then (.err .ErrBadRequest, w) else
  let user : User :=
    { ID := ""
      Name := request.Name
      Role := .UserRoleClient
      Email := request.Email
      Password := request.Password
      Verified := false }
  match EmailVerificationService.Create env (verificationMail env user.Email) w with
  | (.panic msg, w) => (.panic msg, w)
  | (sent, w) =>
    match UserRepository.Insert env.generated user w with
    | (.error e, w) => if e = .ErrDuplicateData then (.err .ErrDuplicate, w) else (.err e, w)
    | (.ok user, w) =>
      match sent with
      | .err e => (.err e, w)
      | .panic msg => (.panic msg, w)
      | .ok _ => (.ok { ID := user.ID, Name := user.Name }, w)

/-- `UserServiceImpl.FindById`. -/
def UserService.FindById (id : String) (w : World) : Outcome UserResponse × World :=
  match UserRepository.FindById id w with
  | (.error e, w) => if e = .ErrNoData then (.err .ErrNotFound, w) else (.err e, w)
  | (.ok user, w) => (.ok { ID := user.ID, Name := user.Name }, w)

/-- `UserServiceImpl.FindAll`. -/
def UserService.FindAll (w : World) : Outcome (List UserResponse) × World :=
  match UserRepository.FindAll w with
  | (.error e, w) => (.err e, w)
  | (.ok users, w) => (.ok (users.map fun user => { ID := user.ID, Name := user.Name }), w)

/-- `UserServiceImpl.Update`. The struct handed to the repository carries the
id and the name; its other fields are the zero values. -/
def UserService.Update (v : Validate) (id : String) (request : UserUpdateRequest) (w : World) :
    Outcome UserResponse × World :=
  if !(v.StructUserUpdateRequest request) then (.err .ErrBadRequest, w) else
  let user : User :=
    { ID := id
      Name := request.Name
      Role := .UserRoleClient
      Email := ""
      Password := ""
      Verified := false }
  match UserRepository.Update user w with
  | (.error e, w) => if e = .ErrNoData then (.err .ErrNotFound, w) else (.err e, w)
  | (.ok user, w) => (.ok { ID := user.ID, Name := user.Name }, w)

/-- `UserServiceImpl.Delete`. -/
def UserService.Delete (id : String) (w : World) : Option Error × World :=
  match UserRepository.Delete
      { ID := id, Name := "", Role := .UserRoleClient, Email := "", Password := "",
        Verified := false } w with
  | (some e, w) => if e = .ErrNoData then (some .ErrNotFound, w) else (some e, w)
  | (none, w) => (none, w)

/-- `UserServiceImpl.Resend`. -/
def UserService.Resend (v : Validate) (env : Env) (request : EmailVerificationRecreateRequest)
    (w : World) : Outcome Unit × World :=
  if !(v.StructEmailVerificationRecreateRequest request) then (.err .ErrBadRequest, w) else
  match EmailVerificationService.Recreate env (verificationMail env request.Email) w with
  | (.err e, w) => (.err e, w)
  | (.panic msg, w) => (.panic msg, w)
  | (.ok _, w) => (.ok (), w)

/-- `UserServiceImpl.Verify`; `now` is the reading of `time.Now()` inside
`Verification`. -/
def UserService.Verify (v : Validate) (now : Time) (request : EmailVerificationCreateRequest)
    (w : World) : Outcome UserResponse × World :=
  if !(v.StructEmailVerificationCreateRequest request) then (.err .ErrBadRequest, w) else
  match EmailVerificationService.Verification v now request w with
  | (some e, w) => (.err e, w)
  | (none, w) =>
    match UserRepository.FindByEmail request.Email w with
    | (.error e, w) => if e = .ErrNoData then (.err .ErrNotFound, w) else (.err e, w)
    | (.ok user, w) =>
      let user := { user with Verified := true }
      match UserRepository.Update user w with
      | (.error e, w) => if e = .ErrNoData then (.err .ErrNotFound, w) else (.err e, w)
      | (.ok _, w) => (.ok { ID := user.ID, Name := user.Name }, w)

/-! ## The service layer as a transition system -/

/-- The parts of the application that are fixed at start-up (`app.New`). -/
structure System where
  validate : Validate
  lib : JwtLib
  provider : JWTProvider

/-- One call of a service method, with everything it takes from its
environment. -/
inductive Op where
  | UserCreate (env : Env) (request : UserCreateRequest)
  | UserFindById (id : String)
  | UserFindAll
  | UserUpdate (id : String) (request : UserUpdateRequest)
  | UserDelete (id : String)
  | UserResend (env : Env) (request : EmailVerificationRecreateRequest)
  | UserVerify (now : Time) (request : EmailVerificationCreateRequest)
  | AuthSignin (now : Time) (request : AuthRequest)
  | AuthValidate (now : Time) (tokenString : String)
  | StackCreate (generated : String) (id : String)
  | StackFindById (id : String)
  | StackFindByIdFromOwner (id : String) (owner : String)
  | StackFindAll
  | StackFindAllFromOwner (owner : String)
  | StackPush (id : String) (request : ItemRequest)
  | StackPushFromOwner (id : String) (owner : String) (request : ItemRequest)
  | StackPop (id : String)
  | StackPopFromOwner (id : String) (owner : String)

/-- Forget the value a call returned. -/
def Outcome.void {α : Type} : Outcome α → Outcome Unit
  | .ok _ => .ok ()
  | .err e => .err e
  | .panic msg => .panic msg

/-- A Go `error` as an outcome. -/
def Outcome.ofError : Option Error → Outcome Unit
  | none => .ok ()
  | some e => .err e

/-- Run one call: whether it succeeded, and the world it leaves. -/
def Op.step (sys : System) (op : Op) (w : World) : Outcome Unit × World :=
  match op with
  | .UserCreate env request =>
    ((UserService.Create sys.validate env request w).1.void,
      (UserService.Create sys.validate env request w).2)
  | .UserFindById id => ((UserService.FindById id w).1.void, (UserService.FindById id w).2)
  | .UserFindAll => ((UserService.FindAll w).1.void, (UserService.FindAll w).2)
  | .UserUpdate id request =>
    ((UserService.Update sys.validate id request w).1.void,
      (UserService.Update sys.validate id request w).2)
  | .UserDelete id => (Outcome.ofError (UserService.Delete id w).1, (UserService.Delete id w).2)
  | .UserResend env request => UserService.Resend sys.validate env request w
  | .UserVerify now request =>
    ((UserService.Verify sys.validate now request w).1.void,
      (UserService.Verify sys.validate now request w).2)
  | .AuthSignin now request =>
    ((AuthService.Signin sys.lib sys.provider now request w).1.void,
      (AuthService.Signin sys.lib sys.provider now request w).2)
  | .AuthValidate now tokenString =>
    ((AuthService.Validate sys.lib sys.provider now tokenString w).1.void,
      (AuthService.Validate sys.lib sys.provider now tokenString w).2)
  | .StackCreate generated id =>
    ((StackService.Create generated id w).1.void, (StackService.Create generated id w).2)
  | .StackFindById id => ((StackService.FindById id w).1.void, (StackService.FindById id w).2)
  | .StackFindByIdFromOwner id owner =>
    ((StackService.FindByIdFromOwner id owner w).1.void,
      (StackService.FindByIdFromOwner id owner w).2)
  | .StackFindAll => ((StackService.FindAll w).1.void, (StackService.FindAll w).2)
  | .StackFindAllFromOwner owner =>
    ((StackService.FindAllFromOwner owner w).1.void, (StackService.FindAllFromOwner owner w).2)
  | .StackPush id request =>
    ((StackService.Push sys.validate id request w).1.void,
      (StackService.Push sys.validate id request w).2)
  | .StackPushFromOwner id owner request =>
    ((StackService.PushFromOwner sys.validate id owner request w).1.void,
      (StackService.PushFromOwner sys.validate id owner request w).2)
  | .StackPop id => ((StackService.Pop id w).1.void, (StackService.Pop id w).2)
  | .StackPopFromOwner id owner =>
    ((StackService.PopFromOwner id owner w).1.void, (StackService.PopFromOwner id owner w).2)

/-- Run a sequence of calls, one after the other. -/
def run (sys : System) : List Op → World → World
  | [], w => w
  | op :: ops, w => run sys ops (op.step sys w).2

/-- The call is `UserService.Verify` for the e-mail `email`. -/
def Op.isVerifyOf (email : String) : Op → Bool
  | .UserVerify _ request => request.Email == email
  | _ => false

/-- The call is a signup (`UserService.Create`) or a resend
(`UserService.Resend`) for the e-mail `email`. -/
def Op.isSignupOrResendOf (email : String) : Op → Bool
  | .UserCreate _ request => request.Email == email
  | .UserResend _ request => request.Email == email
  | _ => false

/-- No call of the sequence, run from `w`, is a `UserService.Verify` for
`email` that succeeds. -/
def noVerifyOf (sys : System) (email : String) : List Op → World → Bool
  | [], _ => true
  | op :: ops, w =>
    !(op.isVerifyOf email && (op.step sys w).1 == .ok ())
      && noVerifyOf sys email ops (op.step sys w).2

/-- The empty database. -/
def World.empty : World := { users := [], stackDocs := [], emailVerifications := [], calls := [] }

/-! ## Sequences of pushes and pops on one stack -/

/-- The collection in which every stack with the id `id` has the item list
`items`, and which is otherwise `docs`. -/
def withItems (id : String) (items : List Item) (docs : List Stack) : List Stack :=
  docs.map (fun t => if t.ID = id then { t with Items := items } else t)

/-- Consecutive `PushFromOwner` calls on one stack, one for each request: the
outcomes in call order, and the world after the last call. -/
def pushAll (v : Validate) (id owner : String) :
    List ItemRequest → World → List (Outcome ItemResponse) × World
  | [], w => ([], w)
  | request :: rest, w =>
    ((StackService.PushFromOwner v id owner request w).1
        :: (pushAll v id owner rest (StackService.PushFromOwner v id owner request w).2).1,
      (pushAll v id owner rest (StackService.PushFromOwner v id owner request w).2).2)

/-- Consecutive `PopFromOwner` calls on one stack, `n` of them: the outcomes
in call order, and the world after the last call. -/
def popTimes (id owner : String) : Nat → World → List (Outcome ItemResponse) × World
  | 0, w => ([], w)
  | n + 1, w =>
    ((StackService.PopFromOwner id owner w).1
        :: (popTimes id owner n (StackService.PopFromOwner id owner w).2).1,
      (popTimes id owner n (StackService.PopFromOwner id owner w).2).2)

/-- The items that pushing `names` appends to a list of length `k`. -/
def pushedItems (k : Nat) (names : List String) : List Item :=
  (List.enumFrom k names).map (fun p => { Index := p.1, Name := p.2 })

/-- What a push or a pop answers for an item. -/
def Item.toResponse (item : Item) : ItemResponse := { Index := item.Index, Name := item.Name }

/-! ## Sample data -/

/-- A validator whose `email` tag accepts the three sample addresses. -/
def sampleValidate : Validate :=
  { isEmail := fun s => s == "ann@x.com" || s == "bob@x.com" || s == "cid@x.com" }

/-- A store with two users, two stacks and one pending verification. -/
def sampleWorld : World :=
  { users :=
      [{ ID := "u1", Name := "Ann", Role := .UserRoleClient, Email := "ann@x.com",
         Password := "password1", Verified := true },
       { ID := "u2", Name := "Bob", Role := .UserRoleAdmin, Email := "bob@x.com",
         Password := "password2", Verified := false }]
    stackDocs :=
      [{ ID := "s1", Items := [{ Index := 0, Name := "a" }, { Index := 1, Name := "b" }],
         Owner := "u1" },
       { ID := "s2", Items := [], Owner := "u2" }]
    emailVerifications :=
      [{ Email := "bob@x.com", Code := "ABC123", Expiration := 1600, Cooldown := 1060 }]
    calls := [] }

/-- The claims inside the sample token. -/
def sampleClaims : JwtClaims :=
  { UserID := "u1", Role := .UserRoleClient,
    Registered := { Issuer := "godas", Subject := "u1", Audience := [],
                    ExpiresAt := some 2593000, NotBefore := none, IssuedAt := some 1000,
                    ID := "" } }

/-- A stand-in for the JWT library that knows one token, `good`. -/
def sampleLib : JwtLib :=
  { SignedString := fun _ claims key => claims.UserID ++ "." ++ key
    ParseWithClaims := fun tokenString keyFunc _ =>
      if tokenString == "good" then
        match keyFunc { Method := .HS256, Claims := sampleClaims, Valid := true } with
        | .error e => .error e
        | .ok _ => .ok { Method := .HS256, Claims := sampleClaims, Valid := true }
      else .error (.other "token is malformed") }

def sampleProvider : JWTProvider := NewJWTProvider DefaultJWTExpiration "godas" "secret"

def sampleSystem : System :=
  { validate := sampleValidate, lib := sampleLib, provider := sampleProvider }

/-- An environment in which the mail goes out, the clock stands at second 1000
and the next generated id is `u3`. -/
def sampleEnv : Env :=
  { getenv := fun _ => "godas"
    raw := fun i => 7 * i + 30
    sendMail := none
    now := fun _ => ⟨1000 * Second⟩
    generated := "u3" }

/-- The signup of `cid@x.com`. -/
def sampleSignup : UserCreateRequest :=
  { Name := "Cid", Email := "cid@x.com", Password := "password3" }

/-- The mail settings for a resend to `bob@x.com`. -/
def sampleMail : EmailVerificationSend := verificationMail sampleEnv "bob@x.com"

/-- An environment in which the clock reads second 1100, then 1101, then 1102. -/
def sampleEnvLater : Env :=
  { getenv := fun _ => "godas"
    raw := fun i => 7 * i + 30
    sendMail := none
    now := fun k => ⟨(1100 + (k : Int)) * Second⟩
    generated := "u3" }

/-- An environment in which the clock reads second 1100 and the random source
draws `A B C 1 2 3`, the code already stored for `bob@x.com`. -/
def sampleEnvSameCode : Env :=
  { getenv := fun _ => "godas"
    raw := fun i => [0, 1, 2, 27, 28, 29].getD i 0
    sendMail := none
    now := fun _ => ⟨1100 * Second⟩
    generated := "u3" }

/-- A store with one account: a verified admin. -/
def sampleAccounts : World :=
  { users :=
      [{ ID := "u9", Name := "Zoe", Role := .UserRoleAdmin, Email := "zoe@x.com",
         Password := "password9", Verified := true }]
    stackDocs := []
    emailVerifications := []
    calls := [] }

/-! ## The JWT library on abstract primitives -/

/-- The three segments of a compact token, decoded. -/
structure JwtParts where
  Method : SigningMethod
  Claims : JwtClaims
  Signature : String
  deriving DecidableEq, Repr

/-- The primitives under the JWT library, left abstract: the compact
serialisation of a token, its inverse (`none` for a malformed string), and the
HMAC of the signing input (header and claims) under a key. -/
structure JwtCodec where
  encode : JwtParts → String
  decode : String → Option JwtParts
  hmac : SigningMethod → String → JwtClaims → String

/-- Modelled from the spec: the method `Valid` of the registered claims, which
belongs to the JWT library and not to the sources. A token is expired when the
current time is not before `exp`; the library also refuses a token used before
`iat` or `nbf`. An absent date is not checked. -/
def RegisteredClaims.Valid (c : RegisteredClaims) (now : Time) : Bool :=
  (match c.ExpiresAt with
    | none => true
    | some exp => decide (now.unixNano < exp * Second))
  && (match c.IssuedAt with
    | none => true
    | some iat => decide (iat * Second ≤ now.unixNano))
  && (match c.NotBefore with
    | none => true
    | some nbf => decide (nbf * Second ≤ now.unixNano))

/-- Modelled from the spec: the JWT library, which is not part of the sources.
Signing serialises the claims with the HMAC of the signing input. Parsing fails
when the token is malformed, when the key function refuses the token, when the
signature is not the HMAC of the signed content under the key the key function
returns, or when the claims are not valid at the current time. -/
def JwtCodec.lib (cd : JwtCodec) : JwtLib :=
  { SignedString := fun method claims key =>
      cd.encode { Method := method, Claims := claims, Signature := cd.hmac method key claims }
    ParseWithClaims := fun tokenString keyFunc now =>
      match cd.decode tokenString with
      | none => .error (.other "token is malformed")
      | some parts =>
        match keyFunc { Method := parts.Method, Claims := parts.Claims, Valid := false } with
        | .error e => .error e
        | .ok key =>
          if parts.Signature != cd.hmac parts.Method key parts.Claims then
            .error (.other "signature is invalid")
          else if !(parts.Claims.Registered.Valid now) then
            .error (.other "token has invalid claims")
          else .ok { Method := parts.Method, Claims := parts.Claims, Valid := true } }

/-- The provider `app.New` builds. -/
def App.JWTProvider (getenv : String → String) : JWTProvider :=
  NewJWTProvider DefaultJWTExpiration (getenv "APP_NAME") (getenv "JWT_SIGNATURE_KEY")

/-- A codec that serialises a token as subject and signature, and can read back
the one token `Token` issues for `u1` at second 1000. -/
def sampleCodec : JwtCodec :=
  { encode := fun parts => parts.Claims.UserID ++ "." ++ parts.Signature
    decode := fun s =>
      if s == "u1.u1:secret" then
        some { Method := .HS256, Claims := sampleClaims, Signature := "u1:secret" }
      else if s == "u1.forged" then
        some { Method := .HS256, Claims := sampleClaims, Signature := "forged" }
      else none
    hmac := fun _ key claims => claims.UserID ++ ":" ++ key }

/-- Every stored item has a name of 1 to 128 characters. -/
def namesValid (docs : List Stack) : Prop :=
  ∀ s ∈ docs, ∀ i ∈ s.Items, 1 ≤ i.Name.length ∧ i.Name.length ≤ 128

/-! ## The HTTP layer (`model/web/payload.go`, `controller`, `middleware`) -/

def StatusOK : Nat := 200

def StatusBadRequest : Nat := 400

def StatusUnauthorized : Nat := 401

def StatusNotFound : Nat := 404

def StatusConflict : Nat := 409

def StatusInternalServerError : Nat := 500

/-- The function `http.StatusText`, on the codes the application uses. -/
def StatusText (code : Nat) : String :=
  if code = 200 then "OK"
  else if code = 400 then "Bad Request"
  else if code = 401 then "Unauthorized"
  else if code = 404 then "Not Found"
  else if code = 409 then "Conflict"
  else if code = 500 then "Internal Server Error"
  else ""

/-- What the field `Data` of a payload holds. -/
inductive Data where
  | null
  | user (response : UserResponse)
  | users (responses : List UserResponse)
  | token (tokenString : String)
  | stack (response : StackResponse)
  | stackList (responses : List StackResponse)
  | item (response : ItemResponse)
  deriving DecidableEq, Repr

structure Payload where
  Code : Nat
  Status : String
  Success : Bool
  Data : Data
  deriving DecidableEq, Repr

/-- `web.NewFailPayload`. -/
def NewFailPayload (statusCode : Nat) : Payload :=
  { Code := statusCode, Status := StatusText statusCode, Success := false, Data := .null }

/-- What a handler sends: `ctx.Status(status).JSON(body)`. -/
structure Response where
  status : Nat
  body : Payload
  deriving DecidableEq, Repr

/-- The answer every refusal has: `ctx.Status(code).JSON(web.NewFailPayload(code))`. -/
def failWith (statusCode : Nat) : Response :=
  { status := statusCode, body := NewFailPayload statusCode }

/-- The part of a `fiber.Ctx` the handlers read: the path, the request headers,
the route parameters, the body, and the value stored under the key `response`
of the user context when it is a `web.AuthResponse`. -/
structure Ctx where
  path : String
  headers : String → Option String
  params : String → String
  body : String
  userContext : Option AuthResponse

/-- The method `BodyParser` of the web framework, a parameter: the request the
body decodes to, or `none` when decoding fails. -/
structure Fiber where
  parseUserCreateRequest : Ctx → Option UserCreateRequest
  parseUserUpdateRequest : Ctx → Option UserUpdateRequest

/-- A handler: given the request and the world, a response (or a panic) and
the world it leaves. -/
abbrev Handler := Ctx → World → Outcome Response × World

/-- `strings.HasPrefix`. -/
def HasPrefix (s : String) (pre : String) : Bool := pre.toList.isPrefixOf s.toList

/-- `strings.TrimPrefix`. -/
def TrimPrefix (s : String) (pre : String) : String :=
  if HasPrefix s pre then String.mk (s.toList.drop pre.length) else s

/-! ### `controller/user_controller.go` -/

/-- The end of `UserControllerImpl.Create`: the response for what the service
returned. -/
def UserController.Create.respond : Outcome UserResponse × World → Outcome Response × World
  | (.panic msg, w) => (.panic msg, w)
  | (.err e, w) =>
    let statusCode :=
      if e = .ErrBadRequest then StatusBadRequest
      else if e = .ErrDuplicate then StatusConflict
      else StatusInternalServerError
    (.ok (failWith statusCode), w)
  | (.ok response, w) =>
    (.ok { status := StatusOK
           body := { Code := StatusOK, Status := StatusText StatusOK, Success := true,
                     Data := .user response } }, w)

/-- `UserControllerImpl.Create`. -/
def UserController.Create (fiber : Fiber) (v : Validate) (env : Env) : Handler :=
  fun ctx w =>
  match ctx.userContext with
  | none => (.ok (failWith StatusBadRequest), w)
  | some authResponse =>
    if authResponse.Role ≠ .UserRoleAdmin then (.ok (failWith StatusUnauthorized), w) else
    match fiber.parseUserCreateRequest ctx with
    | none => (.ok (failWith StatusBadRequest), w)
    | some userCreateRequest =>
      UserController.Create.respond (UserService.Create v env userCreateRequest w)

/-- The end of `UserControllerImpl.Update`: the response for what the service
returned. -/
def UserController.Update.respond : Outcome UserResponse × World → Outcome Response × World
  | (.panic msg, w) => (.panic msg, w)
  | (.err e, w) =>
    let statusCode := if e = .ErrNotFound then StatusNotFound else StatusInternalServerError
    (.ok (failWith statusCode), w)
  | (.ok user, w) =>
    (.ok { status := StatusOK
           body := { Code := StatusOK, Status := StatusText StatusOK, Success := true,
                     Data := .user user } }, w)

/-- `UserControllerImpl.Update` from the body parser on, for the resolved `id`. -/
def UserController.Update.serve (fiber : Fiber) (v : Validate) (id : String) : Handler :=
  fun ctx w =>
  match fiber.parseUserUpdateRequest ctx with
  | none => (.ok (failWith StatusBadRequest), w)
  | some request => UserController.Update.respond (UserService.Update v id request w)

/-- `UserControllerImpl.Update`. -/
def UserController.Update (fiber : Fiber) (v : Validate) : Handler :=
  fun ctx w =>
  match ctx.userContext with
  | none => (.ok (failWith StatusBadRequest), w)
  | some authResponse =>
    let id := ctx.params "id"
    if id == "" then (.ok (failWith StatusBadRequest), w)
    else if id == "me" then UserController.Update.serve fiber v authResponse.ID ctx w
    else if authResponse.Role ≠ .UserRoleAdmin then (.ok (failWith StatusUnauthorized), w)
    else UserController.Update.serve fiber v id ctx w

/-- `UserControllerImpl.Delete` from the service call on, for the resolved `id`. -/
def UserController.Delete.serve (id : String) : Handler :=
  fun _ w =>
  match UserService.Delete id w with
  | (some e, w) =>
    let statusCode := if e = .ErrNotFound then StatusNotFound else StatusInternalServerError
    (.ok (failWith statusCode), w)
  | (none, w) =>
    (.ok { status := StatusOK
           body := { Code := StatusOK, Status := StatusText StatusOK, Success := true,
                     Data := .null } }, w)

/-- `UserControllerImpl.Delete`. -/
def UserController.Delete : Handler :=
  fun ctx w =>
  match ctx.userContext with
  | none => (.ok (failWith StatusBadRequest), w)
  | some authResponse =>
    let id := ctx.params "id"
    if id == "" then (.ok (failWith StatusBadRequest), w)
    else if id == "me" then UserController.Delete.serve authResponse.ID ctx w
    else if authResponse.Role ≠ .UserRoleAdmin then (.ok (failWith StatusUnauthorized), w)
    else UserController.Delete.serve id ctx w

/-! ### `middleware/auth_middleware.go` -/

/-- The loop of `AuthMiddleware.Use` over the prefixes. -/
def AuthMiddleware.accept (path : String) (prefixs : List String) : Bool :=
  prefixs.foldl (fun accept pre => if HasPrefix path pre then true else accept) false

/-- The handler `AuthMiddleware.Use` returns; `next` is the rest of the handler
chain (`ctx.Next()`), `now` the clock reading inside the token validation. -/
def AuthMiddleware.Use (lib : JwtLib) (provider : JWTProvider) (now : Time)
    (prefixs : List String) (next : Handler) : Handler :=
  fun ctx w =>
  let path := ctx.path
  if !(AuthMiddleware.accept path prefixs) then next ctx w else
  match ctx.headers "Authorization" with
  | none => (.ok (failWith StatusUnauthorized), w)
  | some authorization =>
    if HasPrefix authorization "Bearer " then
      let authorization := TrimPrefix authorization "Bearer "
      match AuthService.Validate lib provider now authorization w with
      | (.panic msg, w) => (.panic msg, w)
      | (.err e, w) =>
        let statusCode :=
          if e = .ErrNotFound ∨ e = .ErrUnauthorized then StatusUnauthorized
          else StatusBadRequest
        (.ok (failWith statusCode), w)
      | (.ok response, w) => next { ctx with userContext := some response } w
    else (.ok (failWith StatusUnauthorized), w)

/-- The prefixes `SetupRouter` gates. -/
def gatedPrefixs : List String := ["/users", "/stacks"]

/-- A body parser that reads the body as the new name. -/
def sampleFiber : Fiber :=
  { parseUserCreateRequest := fun _ => none
    parseUserUpdateRequest := fun ctx => some { Name := ctx.body } }

/-- A request of the client `u1` on the path id `id`, carrying the header
`Authorization: Bearer good`. -/
def sampleCtx (id : String) : Ctx :=
  { path := "/users/" ++ id
    headers := fun key => if key == "Authorization" then some "Bearer good" else none
    params := fun key => if key == "id" then id else ""
    body := "Anna"
    userContext := some { ID := "u1", Role := .UserRoleClient } }

/-- A handler that answers 200 with the id of the caller it was handed. -/
def sampleNext : Handler :=
  fun ctx w =>
    (.ok { status := StatusOK
           body := { Code := StatusOK, Status := StatusText StatusOK, Success := true,
                     Data := match ctx.userContext with
                       | none => .null
                       | some caller => .token caller.ID } }, w)

/-- An uppercase ASCII letter `A`-`Z` or a digit `0`-`9`. -/
def isCodeSymbol (c : Char) : Bool :=
  (decide ('A' ≤ c) && decide (c ≤ 'Z')) || (decide ('0' ≤ c) && decide (c ≤ '9'))

/-- An environment in which the mail transport refuses the message. -/
def sampleEnvDown : Env :=
  { getenv := fun _ => "godas"
    raw := fun i => 7 * i + 30
    sendMail := some (.other "dial tcp: connection refused")
    now := fun _ => ⟨1000 * Second⟩
    generated := "u3" }

/-- The sample store after `u1` has been promoted to admin. -/
def samplePromoted : World :=
  { sampleWorld with
    users :=
      [{ ID := "u1", Name := "Ann", Role := .UserRoleAdmin, Email := "ann@x.com",
         Password := "password1", Verified := true },
       { ID := "u2", Name := "Bob", Role := .UserRoleAdmin, Email := "bob@x.com",
         Password := "password2", Verified := false }] }

/-- Every stored item carries its position in the list as its index. -/
def indexed (docs : List Stack) : Prop :=
  ∀ s ∈ docs, s.Items.map Item.Index = List.range s.Items.length

/-! ## Histories of one stack -/

/-- One call by the owner on a stack: a push of a name, or a pop. -/
inductive StackCall where
  | push (name : String)
  | pop
  deriving DecidableEq, Repr

/-- The calls `calls` issued one after another on the stack `id` of `owner`,
each a `PushFromOwner` or a `PopFromOwner`: the outcomes in call order, and the
world after the last call. -/
def history (v : Validate) (id owner : String) :
    List StackCall → World → List (Outcome ItemResponse) × World
  | [], w => ([], w)
  | .push name :: rest, w =>
    ((StackService.PushFromOwner v id owner ⟨name⟩ w).1
        :: (history v id owner rest (StackService.PushFromOwner v id owner ⟨name⟩ w).2).1,
      (history v id owner rest (StackService.PushFromOwner v id owner ⟨name⟩ w).2).2)
  | .pop :: rest, w =>
    ((StackService.PopFromOwner id owner w).1
        :: (history v id owner rest (StackService.PopFromOwner id owner w).2).1,
      (history v id owner rest (StackService.PopFromOwner id owner w).2).2)

/-- The indexes the successful pushes of a history were assigned, in call
order. -/
def pushIndexes : List StackCall → List (Outcome ItemResponse) → List Nat
  | .push _ :: calls, .ok response :: outcomes => response.Index :: pushIndexes calls outcomes
  | _ :: calls, _ :: outcomes => pushIndexes calls outcomes
  | _, _ => []

/-- The number of items after `calls` on a list of `k` items: a push adds one,
a pop takes one away, and a pop of the empty list takes nothing. -/
def depth : Nat → List StackCall → Nat
  | k, [] => k
  | k, .push _ :: rest => depth (k + 1) rest
  | k, .pop :: rest => depth (k - 1) rest

/-! ## Two calls on one stack, interleaved

`PushFromOwner` and `PopFromOwner` each issue two repository calls: the lookup
`FindByOwner`, and later `Update` with the whole document as mutated in memory.
Each repository call is one atomic operation of the database; other requests
may run between the two. -/

/-- What a push or a pop holds in memory between its lookup and its update: the
mutated stack and the item it will answer with. -/
structure Pending where
  stack : Stack
  item : Item
  deriving DecidableEq, Repr

/-- `StackServiceImpl.PushFromOwner` up to the call of `Update`. -/
def StackService.PushFromOwner.read (v : Validate) (id : String) (owner : String)
    (request : ItemRequest) (w : World) : Outcome Pending × World :=
  if !(v.StructItemRequest request) then (.err .ErrBadRequest, w) else
  match StackRepository.FindByOwner owner w with
  | (.error e, w) => if e = .ErrNoData then (.err .ErrNotFound, w) else (.err e, w)
  | (.ok stackList, w) =>
    if stackList.length < 1 then (.err .ErrNotFound, w) else
    match stackList.find? (fun s => s.ID == id) with
    | none => (.err .ErrNotFound, w)
    | some stack =>
      let item : Item := { Index := stack.Items.length, Name := request.Name }
      let stack := { stack with Items := stack.Items ++ [item] }
      (.ok { stack := stack, item := item }, w)

/-- `StackServiceImpl.PopFromOwner` up to the call of `Update`. -/
def StackService.PopFromOwner.read (id : String) (owner : String) (w : World) :
    Outcome Pending × World :=
  match StackRepository.FindByOwner owner w with
  | (.error e, w) => if e = .ErrNoData then (.err .ErrNotFound, w) else (.err e, w)
  | (.ok stackList, w) =>
    if stackList.length < 1 then (.err .ErrNotFound, w) else
    match stackList.find? (fun s => s.ID == id) with
    | none => (.err .ErrNotFound, w)
    | some stack =>
      let pos : Int := (stack.Items.length : Int) - 1
      match index stack.Items pos with
      | none => (.panic "index out of range", w)
      | some item =>
        let stack := { stack with Items := stack.Items.take pos.toNat }
        (.ok { stack := stack, item := item }, w)

/-- The rest of `PushFromOwner` and of `PopFromOwner`, from the call of
`Update` on; a call that has already returned does nothing more. -/
def StackService.finish (pending : Outcome Pending) (w : World) :
    Outcome ItemResponse × World :=
  match pending with
  | .panic msg => (.panic msg, w)
  | .err e => (.err e, w)
  | .ok p =>
    match StackRepository.Update p.stack w with
    | (.error e, w) => if e = .ErrNoData then (.err .ErrNotFound, w) else (.err e, w)
    | (.ok _, w) => (.ok { Index := p.item.Index, Name := p.item.Name }, w)

/-- Two calls whose lookups both run before either update; the update of `a`
runs first. The outcomes of `a` and of `b`, and the world after both. -/
def raced (a b : World → Outcome Pending × World) (w : World) :
    (Outcome ItemResponse × Outcome ItemResponse) × World :=
  let readA := a w
  let readB := b readA.2
  let doneA := StackService.finish readA.1 readB.2
  let doneB := StackService.finish readB.1 doneA.2
  ((doneA.1, doneB.1), doneB.2)

/-! # Theorems -/

/-! ## Lists of documents -/

theorem mem_replaceFirst {α : Type} (p : α → Bool) (new x : α) (l : List α)
    (h : x ∈ replaceFirst p new l) : x = new ∨ x ∈ l := by
  induction l with
  | nil => simp [replaceFirst] at h
  | cons a l ih =>
    unfold replaceFirst at h
    split at h
    · rcases List.mem_cons.1 h with h | h
      · exact Or.inl h
      · exact Or.inr (List.mem_cons_of_mem _ h)
    · rcases List.mem_cons.1 h with h | h
      · exact Or.inr (h ▸ List.mem_cons_self _ _)
      · rcases ih h with h | h
        · exact Or.inl h
        · exact Or.inr (List.mem_cons_of_mem _ h)

theorem mem_deleteFirst {α : Type} (p : α → Bool) (x : α) (l : List α)
    (h : x ∈ deleteFirst p l) : x ∈ l := by
  induction l with
  | nil => simp [deleteFirst] at h
  | cons a l ih =>
    unfold deleteFirst at h
    split at h
    · exact List.mem_cons_of_mem _ h
    · rcases List.mem_cons.1 h with h | h
      · exact h ▸ List.mem_cons_self _ _
      · exact List.mem_cons_of_mem _ (ih h)

/-- With unique keys, overwriting the first document whose key is `k` is the
same as mapping over the collection. -/
theorem replaceFirst_eq_map {α : Type} (key : α → String) (k : String) (new : α)
    (l : List α) (hnodup : (l.map key).Nodup) :
    replaceFirst (fun x => key x == k) new l = l.map (fun x => if key x = k then new else x) := by
  induction l with
  | nil => rfl
  | cons a l ih =>
    have hn : key a ∉ l.map key ∧ (l.map key).Nodup := List.nodup_cons.1 hnodup
    unfold replaceFirst
    by_cases ha : key a = k
    · have hrest : ∀ x ∈ l, key x ≠ k := by
        intro x hx hxk
        exact hn.1 (List.mem_map.2 ⟨x, hx, hxk.trans ha.symm⟩)
      have : l.map (fun x => if key x = k then new else x) = l := by
        conv_rhs => rw [← List.map_id l]
        apply List.map_congr_left
        intro x hx
        simp [hrest x hx]
      simp [ha, this]
    · simp [ha, ih hn.2]

/-- With unique keys, a document is determined by its key. -/
theorem eq_of_key_eq {α : Type} (key : α → String) (l : List α) (hnodup : (l.map key).Nodup)
    (a b : α) (ha : a ∈ l) (hb : b ∈ l) (h : key a = key b) : a = b :=
  List.inj_on_of_nodup_map hnodup ha hb h

/-- With unique keys, the first document with the key of `a` is `a`. -/
theorem find_key {α : Type} (key : α → String) (l : List α) (hnodup : (l.map key).Nodup)
    (a : α) (ha : a ∈ l) : l.find? (fun x => key x == key a) = some a := by
  induction l with
  | nil => cases ha
  | cons b l ih =>
    have hn : key b ∉ l.map key ∧ (l.map key).Nodup := List.nodup_cons.1 hnodup
    by_cases hb : key b = key a
    · have : b = a := eq_of_key_eq key (b :: l) hnodup b a (List.mem_cons_self _ _) ha hb
      simp [List.find?, this]
    · rcases List.mem_cons.1 ha with h | h
      · exact absurd (h ▸ rfl) hb
      · have hb2 : (key b == key a) = false := by simpa using hb
        simp only [List.find?, hb2]
        exact ih hn.2 h

theorem find_none_of_forall {α : Type} (p : α → Bool) (l : List α)
    (h : ∀ x ∈ l, p x = false) : l.find? p = none := by
  rw [List.find?_eq_none]
  intro x hx
  simp [h x hx]

/-! ## Stacks -/

/-- With unique ids, looking up the id of a stack of `owner` among the stacks of
`owner` finds that stack. -/
theorem owned_find (docs : List Stack) (hnodup : (docs.map Stack.ID).Nodup) (s : Stack)
    (hs : s ∈ docs) (owner : String) (ho : s.Owner = owner) :
    (docs.filter (fun t => t.Owner == owner)).find? (fun t => t.ID == s.ID) = some s := by
  apply find_key Stack.ID
  · exact hnodup.sublist ((List.filter_sublist docs).map Stack.ID)
  · exact List.mem_filter.2 ⟨hs, by simp [ho]⟩

theorem not_owned_find (docs : List Stack) (id owner : String)
    (h : ∀ s ∈ docs, s.Owner = owner → s.ID ≠ id) :
    (docs.filter (fun t => t.Owner == owner)).find? (fun t => t.ID == id) = none := by
  apply find_none_of_forall
  intro x hx
  have hx2 := List.mem_filter.1 hx
  have : x.ID ≠ id := h x hx2.1 (by simpa using hx2.2)
  simpa using this

theorem name_valid (v : Validate) (request : ItemRequest)
    (h1 : 1 ≤ request.Name.length) (h2 : request.Name.length ≤ 128) :
    v.StructItemRequest request = true := by
  have hne : request.Name ≠ "" := by
    intro h
    rw [h] at h1
    exact absurd h1 (by decide)
  simp [Validate.StructItemRequest, required, minRunes, maxRunes, h1, h2, hne]

theorem map_owned (docs : List Stack) (hnodup : (docs.map Stack.ID).Nodup) (s : Stack)
    (hs : s ∈ docs) (items : List Item) :
    docs.map (fun t => if t.ID = s.ID then { s with Items := items } else t)
      = docs.map (fun t => if t.ID = s.ID then { t with Items := items } else t) := by
  apply List.map_congr_left
  intro t ht
  by_cases h : t.ID = s.ID
  · have : t = s := eq_of_key_eq Stack.ID docs hnodup t s ht hs h
    simp [this]
  · simp [h]

theorem push_owned (v : Validate) (id owner : String) (request : ItemRequest) (w : World)
    (s : Stack) (hvalid : v.StructItemRequest request = true)
    (hnodup : (w.stackDocs.map Stack.ID).Nodup)
    (hs : s ∈ w.stackDocs) (hid : s.ID = id) (ho : s.Owner = owner) :
    StackService.PushFromOwner v id owner request w =
      (.ok { Index := s.Items.length, Name := request.Name },
        { w with
          stackDocs := w.stackDocs.map (fun t =>
            if t.ID = id then
              { t with Items := s.Items ++ [{ Index := s.Items.length, Name := request.Name }] }
            else t)
          calls := w.calls ++ [.StackFindByOwner owner,
            .StackUpdate
              { s with Items := s.Items ++ [{ Index := s.Items.length, Name := request.Name }] }] }) := by
  subst hid
  have hfind := owned_find w.stackDocs hnodup s hs owner ho
  have hmem : s ∈ w.stackDocs.filter (fun t => t.Owner == owner) :=
    List.mem_filter.2 ⟨hs, by simp [ho]⟩
  have hlen : ¬ (w.stackDocs.filter (fun t => t.Owner == owner)).length < 1 := by
    have := List.length_pos_of_mem hmem
    omega
  have hany : w.stackDocs.any (fun t => t.ID == s.ID) = true :=
    List.any_eq_true.2 ⟨s, hs, by simp⟩
  simp only [StackService.PushFromOwner, hvalid, StackRepository.FindByOwner, World.record,
    hlen, hfind, StackRepository.Update, hany, Bool.not_true, Bool.false_eq_true, if_false,
    if_true]
  rw [replaceFirst_eq_map Stack.ID s.ID _ w.stackDocs hnodup, map_owned w.stackDocs hnodup s hs]
  simp

theorem toNat_pred_length {α : Type} (L : List α) :
    ((L.length : Int) - 1).toNat = L.length - 1 := by
  omega

theorem index_last {α : Type} (L : List α) (h : L ≠ []) :
    index L ((L.length : Int) - 1) = some (L.getLast h) := by
  have hpos : 0 < L.length := List.length_pos.2 h
  have hnot : ¬ ((L.length : Int) - 1 < 0) := by omega
  simp only [index, hnot, if_false, toNat_pred_length]
  rw [List.getLast_eq_getElem]
  exact List.getElem?_eq_getElem _

theorem index_nil {α : Type} : index ([] : List α) (((([] : List α).length : Nat) : Int) - 1) = none := by
  simp [index]

theorem take_pred_length {α : Type} (L : List α) :
    L.take ((L.length : Int) - 1).toNat = L.dropLast := by
  rw [toNat_pred_length, List.dropLast_eq_take]

theorem pop_owned (id owner : String) (w : World) (s : Stack)
    (hnodup : (w.stackDocs.map Stack.ID).Nodup)
    (hs : s ∈ w.stackDocs) (hid : s.ID = id) (ho : s.Owner = owner) (hne : s.Items ≠ []) :
    StackService.PopFromOwner id owner w =
      (.ok { Index := (s.Items.getLast hne).Index, Name := (s.Items.getLast hne).Name },
        { w with
          stackDocs := w.stackDocs.map (fun t =>
            if t.ID = id then { t with Items := s.Items.dropLast } else t)
          calls := w.calls ++ [.StackFindByOwner owner,
            .StackUpdate { s with Items := s.Items.dropLast }] }) := by
  subst hid
  have hfind := owned_find w.stackDocs hnodup s hs owner ho
  have hmem : s ∈ w.stackDocs.filter (fun t => t.Owner == owner) :=
    List.mem_filter.2 ⟨hs, by simp [ho]⟩
  have hlen : ¬ (w.stackDocs.filter (fun t => t.Owner == owner)).length < 1 := by
    have := List.length_pos_of_mem hmem
    omega
  have hany : w.stackDocs.any (fun t => t.ID == s.ID) = true :=
    List.any_eq_true.2 ⟨s, hs, by simp⟩
  simp only [StackService.PopFromOwner, StackRepository.FindByOwner, World.record,
    hlen, hfind, StackRepository.Update, hany, index_last s.Items hne, take_pred_length,
    if_false, if_true]
  rw [replaceFirst_eq_map Stack.ID s.ID _ w.stackDocs hnodup, map_owned w.stackDocs hnodup s hs]
  simp

theorem push_not_owned (v : Validate) (id owner : String) (request : ItemRequest) (w : World)
    (hvalid : v.StructItemRequest request = true)
    (h : ∀ s ∈ w.stackDocs, s.Owner = owner → s.ID ≠ id) :
    StackService.PushFromOwner v id owner request w =
      (.err .ErrNotFound, { w with calls := w.calls ++ [.StackFindByOwner owner] }) := by
  have hfind := not_owned_find w.stackDocs id owner h
  simp only [StackService.PushFromOwner, hvalid, StackRepository.FindByOwner, World.record,
    hfind, Bool.not_true, Bool.false_eq_true, if_false]
  split <;> rfl

theorem pop_not_owned (id owner : String) (w : World)
    (h : ∀ s ∈ w.stackDocs, s.Owner = owner → s.ID ≠ id) :
    StackService.PopFromOwner id owner w =
      (.err .ErrNotFound, { w with calls := w.calls ++ [.StackFindByOwner owner] }) := by
  have hfind := not_owned_find w.stackDocs id owner h
  simp only [StackService.PopFromOwner, StackRepository.FindByOwner, World.record, hfind]
  split <;> rfl

theorem withItems_ids (id : String) (items : List Item) (docs : List Stack) :
    (withItems id items docs).map Stack.ID = docs.map Stack.ID := by
  unfold withItems
  rw [List.map_map]
  apply List.map_congr_left
  intro t _
  by_cases h : t.ID = id <;> simp [h]

theorem withItems_withItems (id : String) (a b : List Item) (docs : List Stack) :
    withItems id b (withItems id a docs) = withItems id b docs := by
  unfold withItems
  rw [List.map_map]
  apply List.map_congr_left
  intro t _
  by_cases h : t.ID = id <;> simp [h]

theorem mem_withItems (id : String) (items : List Item) (docs : List Stack) (s : Stack)
    (hs : s ∈ docs) (hid : s.ID = id) : { s with Items := items } ∈ withItems id items docs := by
  unfold withItems
  exact List.mem_map.2 ⟨s, hs, by simp [hid]⟩

theorem withItems_self (id : String) (docs : List Stack) (hnodup : (docs.map Stack.ID).Nodup)
    (s : Stack) (hs : s ∈ docs) (hid : s.ID = id) : withItems id s.Items docs = docs := by
  unfold withItems
  conv_rhs => rw [← List.map_id docs]
  apply List.map_congr_left
  intro t ht
  by_cases h : t.ID = id
  · have : t = s := eq_of_key_eq Stack.ID docs hnodup t s ht hs (h.trans hid.symm)
    subst this
    subst hid
    simp
  · simp [h]

theorem pushAll_spec (v : Validate) (id owner : String) (names : List String) :
    ∀ (w : World) (s : Stack),
      (∀ n ∈ names, 1 ≤ n.length ∧ n.length ≤ 128) →
      (w.stackDocs.map Stack.ID).Nodup → s ∈ w.stackDocs → s.ID = id → s.Owner = owner →
      (pushAll v id owner (names.map ItemRequest.mk) w).1
          = (pushedItems s.Items.length names).map (fun i => Outcome.ok i.toResponse)
        ∧ (pushAll v id owner (names.map ItemRequest.mk) w).2.stackDocs
          = withItems id (s.Items ++ pushedItems s.Items.length names) w.stackDocs := by
  induction names with
  | nil =>
    intro w s _ hnodup hs hid _
    simp [pushAll, pushedItems, withItems_self id w.stackDocs hnodup s hs hid]
  | cons n names ih =>
    intro w s hnames hnodup hs hid ho
    have hn := hnames n (List.mem_cons_self _ _)
    have hpush := push_owned v id owner ⟨n⟩ w s (name_valid v ⟨n⟩ hn.1 hn.2) hnodup hs hid ho
    have hrest : ∀ m ∈ names, 1 ≤ m.length ∧ m.length ≤ 128 :=
      fun m hm => hnames m (List.mem_cons_of_mem _ hm)
    have hdocs : (StackService.PushFromOwner v id owner ⟨n⟩ w).2.stackDocs
        = withItems id (s.Items ++ [{ Index := s.Items.length, Name := n }]) w.stackDocs := by
      rw [hpush]; rfl
    have ih2 := ih (StackService.PushFromOwner v id owner ⟨n⟩ w).2
      { s with Items := s.Items ++ [{ Index := s.Items.length, Name := n }] } hrest
      (by rw [hdocs, withItems_ids]; exact hnodup)
      (by rw [hdocs]; exact mem_withItems id _ w.stackDocs s hs hid) hid ho
    simp only [List.map_cons, pushAll]
    refine ⟨?_, ?_⟩
    · rw [ih2.1, hpush]
      simp [pushedItems, List.enumFrom, Item.toResponse]
    · rw [ih2.2, hdocs, withItems_withItems]
      simp [pushedItems, List.enumFrom]

theorem popTimes_spec (id owner : String) (popped : List Item) :
    ∀ (w : World) (s : Stack) (kept : List Item),
      (w.stackDocs.map Stack.ID).Nodup → s ∈ w.stackDocs → s.ID = id → s.Owner = owner →
      s.Items = kept ++ popped.reverse →
      (popTimes id owner popped.length w).1 = popped.map (fun i => Outcome.ok i.toResponse)
        ∧ (popTimes id owner popped.length w).2.stackDocs = withItems id kept w.stackDocs := by
  induction popped with
  | nil =>
    intro w s kept hnodup hs hid _ hitems
    have : kept = s.Items := by simpa using hitems.symm
    simp [popTimes, this, withItems_self id w.stackDocs hnodup s hs hid]
  | cons x popped ih =>
    intro w s kept hnodup hs hid ho hitems
    have hitems2 : s.Items = (kept ++ popped.reverse) ++ [x] := by
      simpa [List.append_assoc] using hitems
    have hne : s.Items ≠ [] := by rw [hitems2]; simp
    have hlast : s.Items.getLast hne = x := by simp [hitems2]
    have hdrop : s.Items.dropLast = kept ++ popped.reverse := by simp [hitems2]
    have hpop := pop_owned id owner w s hnodup hs hid ho hne
    have hdocs : (StackService.PopFromOwner id owner w).2.stackDocs
        = withItems id (kept ++ popped.reverse) w.stackDocs := by
      rw [hpop, hdrop]; rfl
    have ih2 := ih (StackService.PopFromOwner id owner w).2
      { s with Items := kept ++ popped.reverse } kept
      (by rw [hdocs, withItems_ids]; exact hnodup)
      (by rw [hdocs]; exact mem_withItems id _ w.stackDocs s hs hid) hid ho rfl
    simp only [List.length_cons, popTimes, List.map_cons]
    refine ⟨?_, ?_⟩
    · rw [ih2.1, hpop, hlast]; rfl
    · rw [ih2.2, hdocs, withItems_withItems]

/-! ## C1 to C4: ownership-scoped push and pop -/

/-- C1: when no stack owned by `owner` has the id `id` (the stack does not
exist, belongs to another user, or the owner has no stack), `PushFromOwner`
with a valid name and `PopFromOwner` both return `ErrNotFound`; the only call
they issue is the lookup by owner, so no update is issued and the store is
unchanged. -/
theorem C1_not_owned_not_found (v : Validate) (id owner : String) (request : ItemRequest)
    (w : World) (hname : 1 ≤ request.Name.length ∧ request.Name.length ≤ 128)
    (h : ∀ s ∈ w.stackDocs, s.Owner = owner → s.ID ≠ id) :
    StackService.PushFromOwner v id owner request w
        = (.err .ErrNotFound, { w with calls := w.calls ++ [.StackFindByOwner owner] })
      ∧ StackService.PopFromOwner id owner w
        = (.err .ErrNotFound, { w with calls := w.calls ++ [.StackFindByOwner owner] }) :=
  ⟨push_not_owned v id owner request w (name_valid v request hname.1 hname.2) h,
    pop_not_owned id owner w h⟩

/-- C1 at the sample store: user `u1` pushes to and pops from `s2`, a stack of `u2`. -/
theorem C1_not_owned_not_found_witness :
    StackService.PushFromOwner sampleValidate "s2" "u1" ⟨"c"⟩ sampleWorld
        = (.err .ErrNotFound,
            { sampleWorld with calls := sampleWorld.calls ++ [.StackFindByOwner "u1"] })
      ∧ StackService.PopFromOwner "s2" "u1" sampleWorld
        = (.err .ErrNotFound,
            { sampleWorld with calls := sampleWorld.calls ++ [.StackFindByOwner "u1"] }) :=
  C1_not_owned_not_found sampleValidate "s2" "u1" ⟨"c"⟩ sampleWorld (by decide) (by decide)

/-- C2: on a stack `s` of `owner` with unique ids in the collection and a name
of 1 to 128 characters, `PushFromOwner` answers the index `len(s.Items)` and
the name, the stored items of that stack become the old items followed by that
one item, and its id, its owner and all other stacks stay as they were. -/
theorem C2_push_appends (v : Validate) (id owner : String) (request : ItemRequest) (w : World)
    (s : Stack) (hname : 1 ≤ request.Name.length ∧ request.Name.length ≤ 128)
    (hnodup : (w.stackDocs.map Stack.ID).Nodup)
    (hs : s ∈ w.stackDocs) (hid : s.ID = id) (ho : s.Owner = owner) :
    (StackService.PushFromOwner v id owner request w).1
        = .ok { Index := s.Items.length, Name := request.Name }
      ∧ (StackService.PushFromOwner v id owner request w).2.stackDocs
        = w.stackDocs.map (fun t =>
            if t.ID = id then
              { ID := t.ID
                Items := s.Items ++ [{ Index := s.Items.length, Name := request.Name }]
                Owner := t.Owner }
            else t)
      ∧ (StackService.PushFromOwner v id owner request w).2.users = w.users
      ∧ (StackService.PushFromOwner v id owner request w).2.emailVerifications
        = w.emailVerifications := by
  rw [push_owned v id owner request w s (name_valid v request hname.1 hname.2) hnodup hs hid ho]
  exact ⟨rfl, rfl, rfl, rfl⟩

/-- C2 at the sample store: `u1` pushes `c` onto `s1`, which holds two items. -/
theorem C2_push_appends_witness :
    (StackService.PushFromOwner sampleValidate "s1" "u1" ⟨"c"⟩ sampleWorld).1
        = .ok { Index := 2, Name := "c" }
      ∧ (StackService.PushFromOwner sampleValidate "s1" "u1" ⟨"c"⟩ sampleWorld).2.stackDocs
        = [{ ID := "s1",
             Items := [{ Index := 0, Name := "a" }, { Index := 1, Name := "b" },
               { Index := 2, Name := "c" }],
             Owner := "u1" },
           { ID := "s2", Items := [], Owner := "u2" }] :=
  have h := C2_push_appends sampleValidate "s1" "u1" ⟨"c"⟩ sampleWorld
    { ID := "s1", Items := [{ Index := 0, Name := "a" }, { Index := 1, Name := "b" }],
      Owner := "u1" }
    (by decide) (by decide) (by decide) rfl rfl
  ⟨h.1, h.2.1.trans (by decide)⟩

/-- C3: on a stack `s` of `owner` with a non-empty item list, `PopFromOwner`
answers the index and the name of the last item as they are stored, and the
stored list becomes the old list without its last element (the remaining items
are the stored ones, not renumbered); every other stack stays as it was. -/
theorem C3_pop_removes_last (id owner : String) (w : World) (s : Stack)
    (hnodup : (w.stackDocs.map Stack.ID).Nodup)
    (hs : s ∈ w.stackDocs) (hid : s.ID = id) (ho : s.Owner = owner) (hne : s.Items ≠ []) :
    (StackService.PopFromOwner id owner w).1
        = .ok { Index := (s.Items.getLast hne).Index, Name := (s.Items.getLast hne).Name }
      ∧ (StackService.PopFromOwner id owner w).2.stackDocs
        = w.stackDocs.map (fun t =>
            if t.ID = id then { ID := t.ID, Items := s.Items.dropLast, Owner := t.Owner }
            else t)
      ∧ s.Items.dropLast ++ [s.Items.getLast hne] = s.Items
      ∧ (StackService.PopFromOwner id owner w).2.users = w.users
      ∧ (StackService.PopFromOwner id owner w).2.emailVerifications = w.emailVerifications := by
  rw [pop_owned id owner w s hnodup hs hid ho hne]
  exact ⟨rfl, rfl, List.dropLast_append_getLast hne, rfl, rfl⟩

/-- C3 at the sample store: `u1` pops `s1`; the item left keeps index 0. -/
theorem C3_pop_removes_last_witness :
    (StackService.PopFromOwner "s1" "u1" sampleWorld).1 = .ok { Index := 1, Name := "b" }
      ∧ (StackService.PopFromOwner "s1" "u1" sampleWorld).2.stackDocs
        = [{ ID := "s1", Items := [{ Index := 0, Name := "a" }], Owner := "u1" },
           { ID := "s2", Items := [], Owner := "u2" }] :=
  have h := C3_pop_removes_last "s1" "u1" sampleWorld
    { ID := "s1", Items := [{ Index := 0, Name := "a" }, { Index := 1, Name := "b" }],
      Owner := "u1" }
    (by decide) (by decide) rfl rfl (by decide)
  ⟨h.1, h.2.1.trans (by decide)⟩

/-- C4: on a stack `s` of `owner` with `k` items, pushing the valid names
`n1 .. nN` and then popping `N` times succeeds at every call; the `j`-th push
answers index `k + j - 1`, the pops answer exactly what the pushes answered in
reverse order, and the store of stacks ends as it started. -/
theorem C4_push_then_pop (v : Validate) (id owner : String) (names : List String) (w : World)
    (s : Stack) (hnames : ∀ n ∈ names, 1 ≤ n.length ∧ n.length ≤ 128)
    (hnodup : (w.stackDocs.map Stack.ID).Nodup)
    (hs : s ∈ w.stackDocs) (hid : s.ID = id) (ho : s.Owner = owner) :
    (pushAll v id owner (names.map ItemRequest.mk) w).1
        = (List.enumFrom s.Items.length names).map
            (fun p => Outcome.ok { Index := p.1, Name := p.2 })
      ∧ (popTimes id owner names.length (pushAll v id owner (names.map ItemRequest.mk) w).2).1
        = (pushAll v id owner (names.map ItemRequest.mk) w).1.reverse
      ∧ (popTimes id owner names.length
          (pushAll v id owner (names.map ItemRequest.mk) w).2).2.stackDocs = w.stackDocs := by
  have hpush := pushAll_spec v id owner names w s hnames hnodup hs hid ho
  have hpop := popTimes_spec id owner (pushedItems s.Items.length names).reverse
    (pushAll v id owner (names.map ItemRequest.mk) w).2
    { s with Items := s.Items ++ pushedItems s.Items.length names } s.Items
    (by rw [hpush.2, withItems_ids]; exact hnodup)
    (by rw [hpush.2]; exact mem_withItems id _ w.stackDocs s hs hid) hid ho
    (by simp)
  have hlen : (pushedItems s.Items.length names).reverse.length = names.length := by
    simp [pushedItems]
  rw [hlen] at hpop
  refine ⟨?_, ?_, ?_⟩
  · rw [hpush.1]
    simp [pushedItems, Item.toResponse]
  · rw [hpop.1, hpush.1, List.map_reverse]
  · rw [hpop.2, hpush.2, withItems_withItems, withItems_self id w.stackDocs hnodup s hs hid]

/-- C4 at the sample store: `u1` pushes `c`, `d`, `e` onto `s1` and pops three
times. -/
theorem C4_push_then_pop_witness :
    (pushAll sampleValidate "s1" "u1" [⟨"c"⟩, ⟨"d"⟩, ⟨"e"⟩] sampleWorld).1
        = [.ok { Index := 2, Name := "c" }, .ok { Index := 3, Name := "d" },
           .ok { Index := 4, Name := "e" }]
      ∧ (popTimes "s1" "u1" 3
          (pushAll sampleValidate "s1" "u1" [⟨"c"⟩, ⟨"d"⟩, ⟨"e"⟩] sampleWorld).2).1
        = [.ok { Index := 4, Name := "e" }, .ok { Index := 3, Name := "d" },
           .ok { Index := 2, Name := "c" }]
      ∧ (popTimes "s1" "u1" 3
          (pushAll sampleValidate "s1" "u1" [⟨"c"⟩, ⟨"d"⟩, ⟨"e"⟩] sampleWorld).2).2.stackDocs
        = sampleWorld.stackDocs :=
  have h := C4_push_then_pop sampleValidate "s1" "u1" ["c", "d", "e"] sampleWorld
    { ID := "s1", Items := [{ Index := 0, Name := "a" }, { Index := 1, Name := "b" }],
      Owner := "u1" }
    (by decide) (by decide) (by decide) rfl rfl
  ⟨h.1, h.2.1.trans (by rw [h.1]; rfl), h.2.2⟩

/-! ## C5 and C6: the auth flow -/

theorem find_email_none (users : List User) (email : String)
    (h : users.find? (fun u => u.Email == email) = none) : ∀ u ∈ users, u.Email ≠ email := by
  intro u hu
  have := List.find?_eq_none.1 h u hu
  simpa using this

theorem find_email_some (users : List User) (email : String) (u0 : User)
    (h : users.find? (fun u => u.Email == email) = some u0) :
    u0 ∈ users ∧ u0.Email = email :=
  ⟨List.mem_of_find?_eq_some h, by simpa using List.find?_some h⟩

theorem find_id_none (users : List User) (id : String)
    (h : users.find? (fun u => u.ID == id) = none) : ∀ u ∈ users, u.ID ≠ id := by
  intro u hu
  have := List.find?_eq_none.1 h u hu
  simpa using this

theorem find_id_some (users : List User) (id : String) (u0 : User)
    (h : users.find? (fun u => u.ID == id) = some u0) : u0 ∈ users ∧ u0.ID = id :=
  ⟨List.mem_of_find?_eq_some h, by simpa using List.find?_some h⟩

/-- C5: with unique e-mails in the account store, `Signin` returns
`ErrNotFound` exactly when no user has the e-mail, `ErrUnauthorized` exactly
when the user with that e-mail has another password or is not verified, and
otherwise the token signed over claims that carry that user's id and role. -/
theorem C5_signin_decided (lib : JwtLib) (provider : JWTProvider) (now : Time)
    (request : AuthRequest) (w : World) (hnodup : (w.users.map User.Email).Nodup) :
    ((AuthService.Signin lib provider now request w).1 = .err .ErrNotFound
        ↔ ∀ u ∈ w.users, u.Email ≠ request.Email)
      ∧ ((AuthService.Signin lib provider now request w).1 = .err .ErrUnauthorized
        ↔ ∃ u ∈ w.users, u.Email = request.Email
            ∧ (u.Password ≠ request.Password ∨ u.Verified = false))
      ∧ (∀ u ∈ w.users, u.Email = request.Email → u.Password = request.Password →
          u.Verified = true →
          (AuthService.Signin lib provider now request w).1
              = .ok (lib.SignedString .HS256
                  (provider.signedClaims now
                    { UserID := u.ID, Role := u.Role, Registered := RegisteredClaims.zero })
                  provider.signatureKey)
            ∧ (provider.signedClaims now
                { UserID := u.ID, Role := u.Role, Registered := RegisteredClaims.zero }).UserID
              = u.ID
            ∧ (provider.signedClaims now
                { UserID := u.ID, Role := u.Role, Registered := RegisteredClaims.zero }).Role
              = u.Role) := by
  cases hfind : w.users.find? (fun u => u.Email == request.Email) with
  | none =>
    have hall := find_email_none w.users request.Email hfind
    have hres : (AuthService.Signin lib provider now request w).1 = .err .ErrNotFound := by
      simp [AuthService.Signin, UserRepository.FindByEmail, World.record, hfind]
    refine ⟨⟨fun _ => hall, fun _ => hres⟩, ⟨?_, ?_⟩, ?_⟩
    · intro h
      rw [hres] at h
      cases h
    · rintro ⟨u, hu, he, _⟩
      exact absurd he (hall u hu)
    · intro u hu he
      exact absurd he (hall u hu)
  | some u0 =>
    have h0 := find_email_some w.users request.Email u0 hfind
    have huniq : ∀ u ∈ w.users, u.Email = request.Email → u = u0 := fun u hu he =>
      eq_of_key_eq User.Email w.users hnodup u u0 hu h0.1 (he.trans h0.2.symm)
    by_cases hbad : u0.Password ≠ request.Password ∨ u0.Verified = false
    · have hres : (AuthService.Signin lib provider now request w).1 = .err .ErrUnauthorized := by
        have hcond : (u0.Password != request.Password || !u0.Verified) = true := by
          rcases hbad with h | h
          · simp [h]
          · simp [h]
        simp [AuthService.Signin, UserRepository.FindByEmail, World.record, hfind, hcond]
      refine ⟨⟨?_, ?_⟩, ⟨fun _ => ⟨u0, h0.1, h0.2, hbad⟩, fun _ => hres⟩, ?_⟩
      · intro h
        rw [hres] at h
        cases h
      · intro hall
        exact absurd h0.2 (hall u0 h0.1)
      · intro u hu he hp hv
        rw [huniq u hu he] at hp hv
        rcases hbad with h | h
        · exact absurd hp h
        · rw [h] at hv
          cases hv
    · have hp : u0.Password = request.Password := by
        by_contra h
        exact hbad (Or.inl h)
      have hv : u0.Verified = true := by
        cases hver : u0.Verified
        · exact absurd (Or.inr hver) hbad
        · rfl
      have hres : (AuthService.Signin lib provider now request w).1
          = .ok (lib.SignedString .HS256
              (provider.signedClaims now
                { UserID := u0.ID, Role := u0.Role, Registered := RegisteredClaims.zero })
              provider.signatureKey) := by
        simp [AuthService.Signin, UserRepository.FindByEmail, World.record, hfind, hp, hv,
          JWTProvider.Token]
      refine ⟨⟨?_, ?_⟩, ⟨?_, ?_⟩, ?_⟩
      · intro h
        rw [hres] at h
        cases h
      · intro hall
        exact absurd h0.2 (hall u0 h0.1)
      · intro h
        rw [hres] at h
        cases h
      · rintro ⟨u, hu, he, hb⟩
        rw [huniq u hu he] at hb
        exact absurd hb hbad
      · intro u hu he _ _
        rw [huniq u hu he]
        exact ⟨hres, rfl, rfl⟩

/-- C5 at the sample store: an unknown address, the unverified `u2` with the
right password, and the verified `u1`. -/
theorem C5_signin_decided_witness :
    (AuthService.Signin sampleLib sampleProvider ⟨1000 * Second⟩
        ⟨"eve@x.com", "password1"⟩ sampleWorld).1 = .err .ErrNotFound
      ∧ (AuthService.Signin sampleLib sampleProvider ⟨1000 * Second⟩
        ⟨"bob@x.com", "password2"⟩ sampleWorld).1 = .err .ErrUnauthorized
      ∧ (AuthService.Signin sampleLib sampleProvider ⟨1000 * Second⟩
        ⟨"ann@x.com", "password1"⟩ sampleWorld).1 = .ok "u1.secret" :=
  ⟨(C5_signin_decided sampleLib sampleProvider ⟨1000 * Second⟩ ⟨"eve@x.com", "password1"⟩
      sampleWorld (by decide)).1.2 (by decide),
    (C5_signin_decided sampleLib sampleProvider ⟨1000 * Second⟩ ⟨"bob@x.com", "password2"⟩
      sampleWorld (by decide)).2.1.2 (by decide),
    ((C5_signin_decided sampleLib sampleProvider ⟨1000 * Second⟩ ⟨"ann@x.com", "password1"⟩
      sampleWorld (by decide)).2.2
      { ID := "u1", Name := "Ann", Role := .UserRoleClient, Email := "ann@x.com",
        Password := "password1", Verified := true }
      (by decide) rfl rfl rfl).1.trans (by decide)⟩

/-- C6: with unique ids in the account store, for a token the provider accepts
with claims `claims`, `Validate` returns `ErrNotFound` when no user has the id
of the claims, `ErrUnauthorized` when that user is not verified, and otherwise
the id and the role of the claims; for a token the provider rejects it returns
the provider's error and issues no call to the account store. -/
theorem C6_validate_decided (lib : JwtLib) (provider : JWTProvider) (now : Time)
    (tokenString : String) (w : World) (hnodup : (w.users.map User.ID).Nodup) :
    (∀ claims, provider.Validate lib now tokenString = .ok claims →
        ((∀ u ∈ w.users, u.ID ≠ claims.UserID) →
          (AuthService.Validate lib provider now tokenString w).1 = .err .ErrNotFound)
        ∧ (∀ u ∈ w.users, u.ID = claims.UserID →
          (u.Verified = false →
            (AuthService.Validate lib provider now tokenString w).1 = .err .ErrUnauthorized)
          ∧ (u.Verified = true →
            (AuthService.Validate lib provider now tokenString w).1
              = .ok { ID := claims.UserID, Role := claims.Role })))
      ∧ (∀ e, provider.Validate lib now tokenString = .error e →
          AuthService.Validate lib provider now tokenString w = (.err e, w)) := by
  refine ⟨?_, ?_⟩
  · intro claims hclaims
    refine ⟨?_, ?_⟩
    · intro hall
      have hfind : w.users.find? (fun u => u.ID == claims.UserID) = none :=
        find_none_of_forall _ _ (fun u hu => by simpa using hall u hu)
      simp [AuthService.Validate, hclaims, UserRepository.FindById, World.record, hfind]
    · intro u hu hid
      have hfind : w.users.find? (fun t => t.ID == claims.UserID) = some u := by
        rw [← hid]
        exact find_key User.ID w.users hnodup u hu
      refine ⟨?_, ?_⟩
      · intro hv
        simp [AuthService.Validate, hclaims, UserRepository.FindById, World.record, hfind, hv]
      · intro hv
        simp [AuthService.Validate, hclaims, UserRepository.FindById, World.record, hfind, hv]
  · intro e he
    simp [AuthService.Validate, he]

/-- C6 at the sample store: the token `good` names the verified user `u1`; any
other string is rejected by the provider and the world stays as it is. -/
theorem C6_validate_decided_witness :
    (AuthService.Validate sampleLib sampleProvider ⟨1000 * Second⟩ "good" sampleWorld).1
        = .ok { ID := "u1", Role := .UserRoleClient }
      ∧ AuthService.Validate sampleLib sampleProvider ⟨1000 * Second⟩ "bad" sampleWorld
        = (.err (.other "token is malformed"), sampleWorld) :=
  ⟨(((C6_validate_decided sampleLib sampleProvider ⟨1000 * Second⟩ "good" sampleWorld
      (by decide)).1 sampleClaims rfl).2
      { ID := "u1", Name := "Ann", Role := .UserRoleClient, Email := "ann@x.com",
        Password := "password1", Verified := true }
      (by decide) rfl).2 rfl,
    (C6_validate_decided sampleLib sampleProvider ⟨1000 * Second⟩ "bad" sampleWorld
      (by decide)).2 (.other "token is malformed") rfl⟩

/-! ## Repositories: result and world side by side -/

theorem StackRepository_Insert_eq (generated : String) (stack : Stack) (w : World) :
    StackRepository.Insert generated stack w
      = (if w.stackDocs.any (fun s => s.ID == generated) then .error .ErrDuplicateData
          else .ok { stack with ID := generated },
         { w with
           stackDocs := if w.stackDocs.any (fun s => s.ID == generated) then w.stackDocs
             else w.stackDocs ++ [{ stack with ID := generated }]
           calls := w.calls ++ [.StackInsert { stack with ID := generated }] }) := by
  simp only [StackRepository.Insert, World.record]
  split <;> rfl

theorem StackRepository_FindById_eq (id : String) (w : World) :
    StackRepository.FindById id w
      = (match w.stackDocs.find? (fun s => s.ID == id) with
          | none => .error .ErrNoData
          | some stack => .ok stack,
         { w with calls := w.calls ++ [.StackFindById id] }) := by
  simp only [StackRepository.FindById, World.record]
  split <;> rfl

theorem StackRepository_FindByOwner_eq (owner : String) (w : World) :
    StackRepository.FindByOwner owner w
      = (.ok (w.stackDocs.filter (fun s => s.Owner == owner)),
         { w with calls := w.calls ++ [.StackFindByOwner owner] }) := rfl

theorem StackRepository_FindAll_eq (w : World) :
    StackRepository.FindAll w
      = (.ok w.stackDocs, { w with calls := w.calls ++ [.StackFindAll] }) := rfl

theorem StackRepository_Update_eq (stack : Stack) (w : World) :
    StackRepository.Update stack w
      = (if w.stackDocs.any (fun s => s.ID == stack.ID) then .ok stack else .error .ErrNoData,
         { w with
           stackDocs := if w.stackDocs.any (fun s => s.ID == stack.ID) then
             replaceFirst (fun s => s.ID == stack.ID) stack w.stackDocs else w.stackDocs
           calls := w.calls ++ [.StackUpdate stack] }) := by
  simp only [StackRepository.Update, World.record]
  split <;> rfl

theorem UserRepository_Insert_eq (generated : String) (user : User) (w : World) :
    UserRepository.Insert generated user w
      = (if w.users.any (fun u => u.ID == generated || u.Email == user.Email) then
            .error .ErrDuplicateData
          else .ok { user with ID := generated },
         { w with
           users := if w.users.any (fun u => u.ID == generated || u.Email == user.Email) then
             w.users else w.users ++ [{ user with ID := generated }]
           calls := w.calls ++ [.UserInsert { user with ID := generated }] }) := by
  simp only [UserRepository.Insert, World.record]
  split <;> rfl

theorem UserRepository_FindById_eq (id : String) (w : World) :
    UserRepository.FindById id w
      = (match w.users.find? (fun u => u.ID == id) with
          | none => .error .ErrNoData
          | some user => .ok user,
         { w with calls := w.calls ++ [.UserFindById id] }) := by
  simp only [UserRepository.FindById, World.record]
  split <;> rfl

theorem UserRepository_FindByEmail_eq (email : String) (w : World) :
    UserRepository.FindByEmail email w
      = (match w.users.find? (fun u => u.Email == email) with
          | none => .error .ErrNoData
          | some user => .ok user,
         { w with calls := w.calls ++ [.UserFindByEmail email] }) := by
  simp only [UserRepository.FindByEmail, World.record]
  split <;> rfl

theorem UserRepository_FindAll_eq (w : World) :
    UserRepository.FindAll w = (.ok w.users, { w with calls := w.calls ++ [.UserFindAll] }) :=
  rfl

theorem UserRepository_Update_eq (user : User) (w : World) :
    UserRepository.Update user w
      = (if w.users.any (fun u => u.ID == user.ID) then
            if w.users.any (fun u => u.ID != user.ID && u.Email == user.Email) then
              .error (.other "E11000 duplicate key error")
            else .ok user
          else .error .ErrNoData,
         { w with
           users := usersAfterUpdate user w.users
           calls := w.calls ++ [.UserUpdate user] }) := by
  simp only [UserRepository.Update, World.record, usersAfterUpdate]
  split
  · split <;> rfl
  · rfl

theorem UserRepository_Delete_eq (user : User) (w : World) :
    UserRepository.Delete user w
      = (if w.users.any (fun u => u.ID == user.ID) then none else some .ErrNoData,
         { w with
           users := if w.users.any (fun u => u.ID == user.ID) then
             deleteFirst (fun u => u.ID == user.ID) w.users else w.users
           calls := w.calls ++ [.UserDelete user.ID] }) := by
  simp only [UserRepository.Delete, World.record]
  split <;> rfl

theorem EmailVerificationRepository_Insert_eq (r : EmailVerification) (w : World) :
    EmailVerificationRepository.Insert r w
      = (if w.emailVerifications.any (fun t => t.Email == r.Email) then some .ErrDuplicateData
          else none,
         { w with
           emailVerifications :=
             if w.emailVerifications.any (fun t => t.Email == r.Email) then w.emailVerifications
             else w.emailVerifications ++ [r]
           calls := w.calls ++ [.EmailVerificationInsert r] }) := by
  simp only [EmailVerificationRepository.Insert, World.record]
  split <;> rfl

theorem EmailVerificationRepository_FindByEmail_eq (email : String) (w : World) :
    EmailVerificationRepository.FindByEmail email w
      = (match w.emailVerifications.find? (fun t => t.Email == email) with
          | none => .error .ErrNoData
          | some r => .ok r,
         { w with calls := w.calls ++ [.EmailVerificationFindByEmail email] }) := by
  simp only [EmailVerificationRepository.FindByEmail, World.record]
  split <;> rfl

theorem EmailVerificationRepository_Update_eq (r : EmailVerification) (w : World) :
    EmailVerificationRepository.Update r w
      = (if w.emailVerifications.any (fun t => t.Email == r.Email) then .ok r
          else .error .ErrNoData,
         { w with
           emailVerifications :=
             if w.emailVerifications.any (fun t => t.Email == r.Email) then
               replaceFirst (fun t => t.Email == r.Email) r w.emailVerifications
             else w.emailVerifications
           calls := w.calls ++ [.EmailVerificationUpdate r] }) := by
  simp only [EmailVerificationRepository.Update, World.record]
  split <;> rfl

theorem EmailVerificationRepository_Delete_eq (email : String) (w : World) :
    EmailVerificationRepository.Delete email w
      = (if w.emailVerifications.any (fun t => t.Email == email) then none
          else some .ErrNoData,
         { w with
           emailVerifications :=
             if w.emailVerifications.any (fun t => t.Email == email) then
               deleteFirst (fun t => t.Email == email) w.emailVerifications
             else w.emailVerifications
           calls := w.calls ++ [.EmailVerificationDelete email] }) := by
  simp only [EmailVerificationRepository.Delete, World.record]
  split <;> rfl

/-! ## What each service method does to the accounts and to the pending verifications -/

theorem mem_usersAfterUpdate (user u : User) (users : List User)
    (h : u ∈ usersAfterUpdate user users) : u = user ∨ u ∈ users := by
  unfold usersAfterUpdate at h
  split at h
  · split at h
    · exact Or.inr h
    · exact mem_replaceFirst _ _ _ _ h
  · exact Or.inr h

theorem StackService_Create_frame (generated id : String) (w : World) :
    (StackService.Create generated id w).2.users = w.users
      ∧ (StackService.Create generated id w).2.emailVerifications = w.emailVerifications := by
  simp only [StackService.Create, UserRepository_FindById_eq, StackRepository_Insert_eq]
  repeat' split
  all_goals try simp only [Prod.mk.injEq] at *
  all_goals try casesm* _ ∧ _
  all_goals subst_vars
  all_goals simp

theorem StackService_FindById_frame (id : String) (w : World) :
    (StackService.FindById id w).2.users = w.users
      ∧ (StackService.FindById id w).2.emailVerifications = w.emailVerifications := by
  simp only [StackService.FindById, StackRepository_FindById_eq]
  repeat' split
  all_goals try simp only [Prod.mk.injEq] at *
  all_goals try casesm* _ ∧ _
  all_goals subst_vars
  all_goals simp

theorem StackService_FindByIdFromOwner_frame (id owner : String) (w : World) :
    (StackService.FindByIdFromOwner id owner w).2.users = w.users
      ∧ (StackService.FindByIdFromOwner id owner w).2.emailVerifications
        = w.emailVerifications := by
  simp only [StackService.FindByIdFromOwner, StackRepository_FindByOwner_eq]
  repeat' split
  all_goals simp

theorem StackService_FindAll_frame (w : World) :
    (StackService.FindAll w).2.users = w.users
      ∧ (StackService.FindAll w).2.emailVerifications = w.emailVerifications := by
  simp [StackService.FindAll, StackRepository_FindAll_eq]

theorem StackService_FindAllFromOwner_frame (owner : String) (w : World) :
    (StackService.FindAllFromOwner owner w).2.users = w.users
      ∧ (StackService.FindAllFromOwner owner w).2.emailVerifications
        = w.emailVerifications := by
  simp [StackService.FindAllFromOwner, StackRepository_FindByOwner_eq]

theorem StackService_Push_frame (v : Validate) (id : String) (request : ItemRequest) (w : World) :
    (StackService.Push v id request w).2.users = w.users
      ∧ (StackService.Push v id request w).2.emailVerifications = w.emailVerifications := by
  simp only [StackService.Push, StackRepository_FindById_eq, StackRepository_Update_eq]
  repeat' split
  all_goals try simp only [Prod.mk.injEq] at *
  all_goals try casesm* _ ∧ _
  all_goals subst_vars
  all_goals simp

theorem StackService_PushFromOwner_frame (v : Validate) (id owner : String)
    (request : ItemRequest) (w : World) :
    (StackService.PushFromOwner v id owner request w).2.users = w.users
      ∧ (StackService.PushFromOwner v id owner request w).2.emailVerifications
        = w.emailVerifications := by
  simp only [StackService.PushFromOwner, StackRepository_FindByOwner_eq,
    StackRepository_Update_eq]
  repeat' split
  all_goals try simp only [Prod.mk.injEq] at *
  all_goals try casesm* _ ∧ _
  all_goals subst_vars
  all_goals simp

theorem StackService_Pop_frame (id : String) (w : World) :
    (StackService.Pop id w).2.users = w.users
      ∧ (StackService.Pop id w).2.emailVerifications = w.emailVerifications := by
  simp only [StackService.Pop, StackRepository_FindById_eq, StackRepository_Update_eq]
  repeat' split
  all_goals try simp only [Prod.mk.injEq] at *
  all_goals try casesm* _ ∧ _
  all_goals subst_vars
  all_goals simp

theorem StackService_PopFromOwner_frame (id owner : String) (w : World) :
    (StackService.PopFromOwner id owner w).2.users = w.users
      ∧ (StackService.PopFromOwner id owner w).2.emailVerifications
        = w.emailVerifications := by
  simp only [StackService.PopFromOwner, StackRepository_FindByOwner_eq,
    StackRepository_Update_eq]
  repeat' split
  all_goals try simp only [Prod.mk.injEq] at *
  all_goals try casesm* _ ∧ _
  all_goals subst_vars
  all_goals simp

theorem UserService_FindById_frame (id : String) (w : World) :
    (UserService.FindById id w).2.users = w.users
      ∧ (UserService.FindById id w).2.emailVerifications = w.emailVerifications := by
  simp only [UserService.FindById, UserRepository_FindById_eq]
  repeat' split
  all_goals try simp only [Prod.mk.injEq] at *
  all_goals try casesm* _ ∧ _
  all_goals subst_vars
  all_goals simp

theorem UserService_FindAll_frame (w : World) :
    (UserService.FindAll w).2.users = w.users
      ∧ (UserService.FindAll w).2.emailVerifications = w.emailVerifications := by
  simp [UserService.FindAll, UserRepository_FindAll_eq]

theorem AuthService_Signin_frame (lib : JwtLib) (provider : JWTProvider) (now : Time)
    (request : AuthRequest) (w : World) :
    (AuthService.Signin lib provider now request w).2.users = w.users
      ∧ (AuthService.Signin lib provider now request w).2.emailVerifications
        = w.emailVerifications := by
  simp only [AuthService.Signin, UserRepository_FindByEmail_eq, JWTProvider.Token]
  repeat' split
  all_goals try simp only [Prod.mk.injEq] at *
  all_goals try casesm* _ ∧ _
  all_goals subst_vars
  all_goals simp

theorem AuthService_Validate_frame (lib : JwtLib) (provider : JWTProvider) (now : Time)
    (tokenString : String) (w : World) :
    (AuthService.Validate lib provider now tokenString w).2.users = w.users
      ∧ (AuthService.Validate lib provider now tokenString w).2.emailVerifications
        = w.emailVerifications := by
  simp only [AuthService.Validate, UserRepository_FindById_eq]
  repeat' split
  all_goals try simp only [Prod.mk.injEq] at *
  all_goals try casesm* _ ∧ _
  all_goals subst_vars
  all_goals simp

theorem EmailVerificationService_Create_effect (env : Env) (email : EmailVerificationSend)
    (w : World) :
    (EmailVerificationService.Create env email w).2.users = w.users
      ∧ ∀ r ∈ (EmailVerificationService.Create env email w).2.emailVerifications,
          r ∈ w.emailVerifications ∨ r.Email = email.ToEmail := by
  simp only [EmailVerificationService.Create, EmailVerificationRepository_Insert_eq,
    World.record]
  repeat' split
  all_goals try simp only [Prod.mk.injEq] at *
  all_goals try casesm* _ ∧ _
  all_goals subst_vars
  all_goals refine ⟨?_, fun r hr => ?_⟩
  all_goals try split at hr
  all_goals aesop

theorem EmailVerificationService_Recreate_effect (env : Env) (email : EmailVerificationSend)
    (w : World) :
    (EmailVerificationService.Recreate env email w).2.users = w.users
      ∧ ∀ r ∈ (EmailVerificationService.Recreate env email w).2.emailVerifications,
          r ∈ w.emailVerifications ∨ r.Email = email.ToEmail := by
  have hev : ∀ ev, w.emailVerifications.find? (fun t => t.Email == email.ToEmail) = some ev →
      ev.Email = email.ToEmail := fun ev h => by simpa using List.find?_some h
  simp only [EmailVerificationService.Recreate, EmailVerificationRepository_FindByEmail_eq,
    EmailVerificationRepository_Update_eq, World.record]
  repeat' split
  all_goals try simp only [Prod.mk.injEq] at *
  all_goals try casesm* _ ∧ _
  all_goals subst_vars
  all_goals refine ⟨?_, fun r hr => ?_⟩
  all_goals try split at hr
  all_goals try replace hr := mem_replaceFirst _ _ _ _ hr
  all_goals aesop

theorem EmailVerificationService_Verification_effect (v : Validate) (now : Time)
    (request : EmailVerificationCreateRequest) (w : World) :
    (EmailVerificationService.Verification v now request w).2.users = w.users
      ∧ ∀ r ∈ (EmailVerificationService.Verification v now request w).2.emailVerifications,
          r ∈ w.emailVerifications := by
  simp only [EmailVerificationService.Verification, EmailVerificationRepository_FindByEmail_eq,
    EmailVerificationRepository_Delete_eq, World.record]
  repeat' split
  all_goals try simp only [Prod.mk.injEq] at *
  all_goals try casesm* _ ∧ _
  all_goals subst_vars
  all_goals refine ⟨?_, fun r hr => ?_⟩
  all_goals try split at hr
  all_goals try replace hr := mem_deleteFirst _ _ _ hr
  all_goals aesop

theorem UserService_Create_effect (v : Validate) (env : Env) (request : UserCreateRequest)
    (w : World) :
    (∀ u ∈ (UserService.Create v env request w).2.users, u ∈ w.users ∨ u.Verified = false)
      ∧ ∀ r ∈ (UserService.Create v env request w).2.emailVerifications,
          r ∈ w.emailVerifications ∨ r.Email = request.Email := by
  have eff := EmailVerificationService_Create_effect env (verificationMail env request.Email) w
  rcases h : EmailVerificationService.Create env (verificationMail env request.Email) w
    with ⟨sent, w1⟩
  rw [h] at eff
  simp only [verificationMail] at eff
  simp only [UserService.Create, h, UserRepository_Insert_eq]
  repeat' split
  all_goals try simp only [Prod.mk.injEq] at *
  all_goals try casesm* _ ∧ _
  all_goals subst_vars
  all_goals refine ⟨fun u hu => ?_, fun r hr => ?_⟩
  all_goals try split at hu
  all_goals aesop

/-- A signup that succeeds appends exactly one account: unverified, a client,
with the requested name, e-mail and password. -/
theorem UserService_Create_ok (v : Validate) (env : Env) (request : UserCreateRequest)
    (w : World) (response : UserResponse)
    (h : (UserService.Create v env request w).1 = .ok response) :
    (UserService.Create v env request w).2.users
        = w.users ++ [{ ID := env.generated, Name := request.Name, Role := .UserRoleClient,
                        Email := request.Email, Password := request.Password,
                        Verified := false }]
      ∧ response = { ID := env.generated, Name := request.Name }
      ∧ (∀ u ∈ w.users, u.Email ≠ request.Email)
      ∧ v.StructUserCreateRequest request = true := by
  have eff := EmailVerificationService_Create_effect env (verificationMail env request.Email) w
  rcases hc : EmailVerificationService.Create env (verificationMail env request.Email) w
    with ⟨sent, w1⟩
  rw [hc] at eff
  revert h
  simp only [UserService.Create, hc, UserRepository_Insert_eq]
  repeat' split
  all_goals try simp only [Prod.mk.injEq] at *
  all_goals try casesm* _ ∧ _
  all_goals subst_vars
  all_goals intro h
  all_goals aesop

theorem UserService_Update_effect (v : Validate) (id : String) (request : UserUpdateRequest)
    (w : World) :
    (∀ u ∈ (UserService.Update v id request w).2.users, u ∈ w.users ∨ u.Verified = false)
      ∧ (UserService.Update v id request w).2.emailVerifications = w.emailVerifications := by
  simp only [UserService.Update, UserRepository_Update_eq]
  repeat' split
  all_goals try simp only [Prod.mk.injEq] at *
  all_goals try casesm* _ ∧ _
  all_goals subst_vars
  all_goals refine ⟨fun u hu => ?_, ?_⟩
  all_goals try replace hu := mem_usersAfterUpdate _ _ _ hu
  all_goals aesop

theorem UserService_Delete_effect (id : String) (w : World) :
    (∀ u ∈ (UserService.Delete id w).2.users, u ∈ w.users)
      ∧ (UserService.Delete id w).2.emailVerifications = w.emailVerifications := by
  simp only [UserService.Delete, UserRepository_Delete_eq]
  repeat' split
  all_goals try simp only [Prod.mk.injEq] at *
  all_goals try casesm* _ ∧ _
  all_goals subst_vars
  all_goals refine ⟨fun u hu => ?_, ?_⟩
  all_goals try split at hu
  all_goals try replace hu := mem_deleteFirst _ _ _ hu
  all_goals aesop

theorem UserService_Resend_effect (v : Validate) (env : Env)
    (request : EmailVerificationRecreateRequest) (w : World) :
    (UserService.Resend v env request w).2.users = w.users
      ∧ ∀ r ∈ (UserService.Resend v env request w).2.emailVerifications,
          r ∈ w.emailVerifications ∨ r.Email = request.Email := by
  have eff := EmailVerificationService_Recreate_effect env (verificationMail env request.Email) w
  rcases h : EmailVerificationService.Recreate env (verificationMail env request.Email) w
    with ⟨sent, w1⟩
  rw [h] at eff
  simp only [verificationMail] at eff
  simp only [UserService.Resend, h]
  repeat' split
  all_goals try simp only [Prod.mk.injEq] at *
  all_goals try casesm* _ ∧ _
  all_goals subst_vars
  all_goals aesop

theorem UserRepository_Update_mem (user : User) (w : World) :
    ∀ u ∈ (UserRepository.Update user w).2.users,
      u ∈ w.users ∨ (u = user ∧ (UserRepository.Update user w).1 = .ok user) := by
  intro u hu
  simp only [UserRepository.Update, World.record] at hu ⊢
  split
  · rename_i h1
    rw [if_pos h1] at hu
    split
    · rename_i h2
      rw [if_pos h2] at hu
      exact Or.inl hu
    · rename_i h2
      rw [if_neg h2] at hu
      rcases mem_replaceFirst _ _ _ _ hu with h | h
      · exact Or.inr ⟨h, rfl⟩
      · exact Or.inl h
  · rename_i h1
    rw [if_neg h1] at hu
    exact Or.inl hu

theorem UserRepository_Update_frame (user : User) (w : World) :
    (UserRepository.Update user w).2.emailVerifications = w.emailVerifications := by
  simp [UserRepository_Update_eq]

theorem UserService_Verify_effect (v : Validate) (now : Time)
    (request : EmailVerificationCreateRequest) (w : World) :
    (∀ u ∈ (UserService.Verify v now request w).2.users,
        u ∈ w.users
          ∨ (u.Email = request.Email
              ∧ ∃ response, (UserService.Verify v now request w).1 = .ok response))
      ∧ ∀ r ∈ (UserService.Verify v now request w).2.emailVerifications,
          r ∈ w.emailVerifications := by
  have eff := EmailVerificationService_Verification_effect v now request w
  rcases h : EmailVerificationService.Verification v now request w with ⟨sent, w1⟩
  rw [h] at eff
  simp only [UserService.Verify, h]
  split
  · exact ⟨fun u hu => Or.inl hu, fun r hr => hr⟩
  · cases sent with
    | some e => exact ⟨fun u hu => Or.inl (eff.1 ▸ hu), eff.2⟩
    | none =>
      simp only [UserRepository_FindByEmail_eq]
      cases hfind : w1.users.find? (fun u => u.Email == request.Email) with
      | none =>
        simp only []
        split <;> exact ⟨fun u hu => Or.inl (eff.1 ▸ hu), eff.2⟩
      | some user =>
        have hemail : user.Email = request.Email := by simpa using List.find?_some hfind
        simp only []
        have hm := UserRepository_Update_mem { user with Verified := true }
          { w1 with calls := w1.calls ++ [.UserFindByEmail request.Email] }
        have hf := UserRepository_Update_frame { user with Verified := true }
          { w1 with calls := w1.calls ++ [.UserFindByEmail request.Email] }
        rcases hup : UserRepository.Update { user with Verified := true }
          { w1 with calls := w1.calls ++ [.UserFindByEmail request.Email] } with ⟨res, w2⟩
        rw [hup] at hm hf
        simp only [] at hm hf
        have hevs : ∀ r ∈ w2.emailVerifications, r ∈ w.emailVerifications := by
          rw [hf]
          exact eff.2
        cases res with
        | error e =>
          have hold : ∀ u ∈ w2.users, u ∈ w.users := by
            intro u hu
            rcases hm u hu with h1 | ⟨_, h1⟩
            · exact eff.1 ▸ h1
            · cases h1
          simp only []
          split <;> exact ⟨fun u hu => Or.inl (hold u hu), hevs⟩
        | ok stored =>
          refine ⟨fun u hu => ?_, hevs⟩
          rcases hm u hu with h1 | ⟨h1, _⟩
          · exact Or.inl (eff.1 ▸ h1)
          · exact Or.inr ⟨by rw [h1]; exact hemail, _, rfl⟩

/-! ## C7: an account that was never verified cannot sign in -/

theorem void_eq_ok {α : Type} (o : Outcome α) :
    (o.void == Outcome.ok ()) = true ↔ ∃ a, o = .ok a := by
  cases o with
  | ok a => exact ⟨fun _ => ⟨a, rfl⟩, fun _ => rfl⟩
  | err e =>
    refine ⟨fun h => ?_, fun ⟨a, h⟩ => by cases h⟩
    simp [Outcome.void] at h
  | panic msg =>
    refine ⟨fun h => ?_, fun ⟨a, h⟩ => by cases h⟩
    simp [Outcome.void] at h

/-- Every call other than a successful `Verify` for `email` keeps the users
that hold `email` unverified. -/
theorem step_keeps_unverified (sys : System) (email : String) (op : Op) (w : World)
    (hinv : ∀ u ∈ w.users, u.Email = email → u.Verified = false)
    (hno : (op.isVerifyOf email && (op.step sys w).1 == .ok ()) = false) :
    ∀ u ∈ (op.step sys w).2.users, u.Email = email → u.Verified = false := by
  intro u hu he
  cases op with
  | UserCreate env request =>
    rcases (UserService_Create_effect sys.validate env request w).1 u hu with h | h
    · exact hinv u h he
    · exact h
  | UserFindById id =>
    exact hinv u ((UserService_FindById_frame id w).1 ▸ hu) he
  | UserFindAll =>
    exact hinv u ((UserService_FindAll_frame w).1 ▸ hu) he
  | UserUpdate id request =>
    rcases (UserService_Update_effect sys.validate id request w).1 u hu with h | h
    · exact hinv u h he
    · exact h
  | UserDelete id =>
    exact hinv u ((UserService_Delete_effect id w).1 u hu) he
  | UserResend env request =>
    exact hinv u ((UserService_Resend_effect sys.validate env request w).1 ▸ hu) he
  | UserVerify now request =>
    rcases (UserService_Verify_effect sys.validate now request w).1 u hu with h | ⟨h1, h2⟩
    · exact hinv u h he
    · exfalso
      have h3 : ((Op.UserVerify now request).isVerifyOf email) = true := by
        simp [Op.isVerifyOf, ← he, h1]
      have h4 : ((Op.step sys (Op.UserVerify now request) w).1 == Outcome.ok ()) = true :=
        (void_eq_ok _).2 h2
      rw [h3, h4] at hno
      cases hno
  | AuthSignin now request =>
    exact hinv u ((AuthService_Signin_frame sys.lib sys.provider now request w).1 ▸ hu) he
  | AuthValidate now tokenString =>
    exact hinv u ((AuthService_Validate_frame sys.lib sys.provider now tokenString w).1 ▸ hu) he
  | StackCreate generated id =>
    exact hinv u ((StackService_Create_frame generated id w).1 ▸ hu) he
  | StackFindById id =>
    exact hinv u ((StackService_FindById_frame id w).1 ▸ hu) he
  | StackFindByIdFromOwner id owner =>
    exact hinv u ((StackService_FindByIdFromOwner_frame id owner w).1 ▸ hu) he
  | StackFindAll =>
    exact hinv u ((StackService_FindAll_frame w).1 ▸ hu) he
  | StackFindAllFromOwner owner =>
    exact hinv u ((StackService_FindAllFromOwner_frame owner w).1 ▸ hu) he
  | StackPush id request =>
    exact hinv u ((StackService_Push_frame sys.validate id request w).1 ▸ hu) he
  | StackPushFromOwner id owner request =>
    exact hinv u ((StackService_PushFromOwner_frame sys.validate id owner request w).1 ▸ hu) he
  | StackPop id =>
    exact hinv u ((StackService_Pop_frame id w).1 ▸ hu) he
  | StackPopFromOwner id owner =>
    exact hinv u ((StackService_PopFromOwner_frame id owner w).1 ▸ hu) he

theorem run_keeps_unverified (sys : System) (email : String) (ops : List Op) :
    ∀ w : World, (∀ u ∈ w.users, u.Email = email → u.Verified = false) →
      noVerifyOf sys email ops w = true →
      ∀ u ∈ (run sys ops w).users, u.Email = email → u.Verified = false := by
  induction ops with
  | nil => intro w hinv _; exact hinv
  | cons op ops ih =>
    intro w hinv hno
    simp only [noVerifyOf, Bool.and_eq_true, Bool.not_eq_true'] at hno
    exact ih _ (step_keeps_unverified sys email op w hinv hno.1) hno.2

/-- `Signin` where every user holding the e-mail is unverified. -/
theorem signin_unverified (lib : JwtLib) (provider : JWTProvider) (now : Time)
    (request : AuthRequest) (w : World)
    (hinv : ∀ u ∈ w.users, u.Email = request.Email → u.Verified = false) :
    ((∃ u ∈ w.users, u.Email = request.Email) →
        (AuthService.Signin lib provider now request w).1 = .err .ErrUnauthorized)
      ∧ ((∀ u ∈ w.users, u.Email ≠ request.Email) →
        (AuthService.Signin lib provider now request w).1 = .err .ErrNotFound) := by
  cases hfind : w.users.find? (fun u => u.Email == request.Email) with
  | none =>
    have hall := find_email_none w.users request.Email hfind
    refine ⟨fun ⟨u, hu, he⟩ => absurd he (hall u hu), fun _ => ?_⟩
    simp [AuthService.Signin, UserRepository.FindByEmail, World.record, hfind]
  | some u0 =>
    have h0 := find_email_some w.users request.Email u0 hfind
    have hv := hinv u0 h0.1 h0.2
    refine ⟨fun _ => ?_, fun hall => absurd h0.2 (hall u0 h0.1)⟩
    simp [AuthService.Signin, UserRepository.FindByEmail, World.record, hfind, hv]

/-- C7 as stated fails: after the signup of `cid@x.com` succeeds, the account
is deleted (no `Verify` has run), and `Signin` with the same e-mail and
password returns `ErrNotFound`, not `ErrUnauthorized`. -/
theorem C7_deleted_account_counterexample :
    (UserService.Create sampleValidate sampleEnv sampleSignup sampleWorld).1
        = .ok { ID := "u3", Name := "Cid" }
      ∧ noVerifyOf sampleSystem "cid@x.com" [.UserDelete "u3"]
          (UserService.Create sampleValidate sampleEnv sampleSignup sampleWorld).2 = true
      ∧ (AuthService.Signin sampleLib sampleProvider ⟨2000 * Second⟩
          ⟨"cid@x.com", "password3"⟩
          (run sampleSystem [.UserDelete "u3"]
            (UserService.Create sampleValidate sampleEnv sampleSignup sampleWorld).2)).1
        = .err .ErrNotFound := by
  refine ⟨by decide, by decide, by decide⟩

/-- C7, amended: when `UserService.Create` succeeds, the account it stores is
unverified and a client; and in every state reached from there by calls of
the service layer none of which is a successful `Verify` for that e-mail,
`Signin` with the same e-mail and password does not succeed: it returns
`ErrUnauthorized` as long as some user holds that e-mail, and `ErrNotFound`
when none does. -/
theorem C7_unverified_cannot_sign_in (sys : System) (env : Env) (request : UserCreateRequest)
    (w : World) (response : UserResponse) (ops : List Op) (now : Time)
    (hcreate : (UserService.Create sys.validate env request w).1 = .ok response)
    (hops : noVerifyOf sys request.Email ops
      (UserService.Create sys.validate env request w).2 = true) :
    (UserService.Create sys.validate env request w).2.users
        = w.users ++ [{ ID := env.generated, Name := request.Name, Role := .UserRoleClient,
                        Email := request.Email, Password := request.Password,
                        Verified := false }]
      ∧ ((∃ u ∈ (run sys ops (UserService.Create sys.validate env request w).2).users,
            u.Email = request.Email) →
          (AuthService.Signin sys.lib sys.provider now ⟨request.Email, request.Password⟩
            (run sys ops (UserService.Create sys.validate env request w).2)).1
            = .err .ErrUnauthorized)
      ∧ ((∀ u ∈ (run sys ops (UserService.Create sys.validate env request w).2).users,
            u.Email ≠ request.Email) →
          (AuthService.Signin sys.lib sys.provider now ⟨request.Email, request.Password⟩
            (run sys ops (UserService.Create sys.validate env request w).2)).1
            = .err .ErrNotFound) := by
  have hok := UserService_Create_ok sys.validate env request w response hcreate
  have hinv : ∀ u ∈ (UserService.Create sys.validate env request w).2.users,
      u.Email = request.Email → u.Verified = false := by
    intro u hu he
    rw [hok.1] at hu
    rcases List.mem_append.1 hu with h | h
    · exact absurd he (hok.2.2.1 u h)
    · rw [List.mem_singleton.1 h]
  have hrun := run_keeps_unverified sys request.Email ops _ hinv hops
  exact ⟨hok.1, signin_unverified sys.lib sys.provider now ⟨request.Email, request.Password⟩
    _ hrun⟩

/-- C7 at the sample store: `cid@x.com` signs up, a stack is created and pushed
to, a wrong code is tried, and `Signin` still answers `ErrUnauthorized`. -/
theorem C7_unverified_cannot_sign_in_witness :
    (AuthService.Signin sampleLib sampleProvider ⟨2000 * Second⟩ ⟨"cid@x.com", "password3"⟩
        (run sampleSystem
          [.StackCreate "s3" "u3", .StackPush "s3" ⟨"x"⟩,
            .UserVerify ⟨1001 * Second⟩ ⟨"cid@x.com", "WRONG1"⟩]
          (UserService.Create sampleValidate sampleEnv sampleSignup sampleWorld).2)).1
      = .err .ErrUnauthorized :=
  (C7_unverified_cannot_sign_in sampleSystem sampleEnv sampleSignup sampleWorld
    { ID := "u3", Name := "Cid" }
    [.StackCreate "s3" "u3", .StackPush "s3" ⟨"x"⟩,
      .UserVerify ⟨1001 * Second⟩ ⟨"cid@x.com", "WRONG1"⟩]
    ⟨2000 * Second⟩ (by decide) (by decide)).2.1
    ⟨{ ID := "u3", Name := "Cid", Role := .UserRoleClient, Email := "cid@x.com",
       Password := "password3", Verified := false }, by decide, rfl⟩

/-! ## C8 to C10: verification codes -/

/-- With unique keys, removing the first document whose key is `k` removes
every document whose key is `k`. -/
theorem deleteFirst_eq_filter {α : Type} (key : α → String) (k : String) (l : List α)
    (hnodup : (l.map key).Nodup) :
    deleteFirst (fun x => key x == k) l = l.filter (fun x => key x != k) := by
  induction l with
  | nil => rfl
  | cons a l ih =>
    have hn : key a ∉ l.map key ∧ (l.map key).Nodup := List.nodup_cons.1 hnodup
    unfold deleteFirst
    by_cases ha : key a = k
    · have hrest : ∀ x ∈ l, (key x != k) = true := by
        intro x hx
        have : key x ≠ k := fun hxk => hn.1 (List.mem_map.2 ⟨x, hx, hxk.trans ha.symm⟩)
        simpa using this
      simp [ha, List.filter_eq_self.2 hrest]
    · simp [ha, ih hn.2]

theorem find_verification (docs : List EmailVerification)
    (hnodup : (docs.map EmailVerification.Email).Nodup) (r : EmailVerification)
    (hr : r ∈ docs) (email : String) (he : r.Email = email) :
    docs.find? (fun t => t.Email == email) = some r := by
  rw [← he]
  exact find_key EmailVerification.Email docs hnodup r hr

/-- `Verification` when no record is stored for the e-mail. -/
theorem verification_absent (v : Validate) (now : Time)
    (request : EmailVerificationCreateRequest) (w : World)
    (hvalid : v.StructEmailVerificationCreateRequest request = true)
    (hall : ∀ r ∈ w.emailVerifications, r.Email ≠ request.Email) :
    EmailVerificationService.Verification v now request w
      = (some .ErrNotFound,
          { w with calls := w.calls ++ [.EmailVerificationFindByEmail request.Email] }) := by
  have hfind : w.emailVerifications.find? (fun t => t.Email == request.Email) = none :=
    find_none_of_forall _ _ (fun r hr => by simpa using hall r hr)
  simp [EmailVerificationService.Verification, hvalid, EmailVerificationRepository.FindByEmail,
    World.record, hfind]

/-- `Verification` when the record `r` is stored for the e-mail and the code
is expired or wrong. -/
theorem verification_refused (v : Validate) (now : Time)
    (request : EmailVerificationCreateRequest) (w : World) (r : EmailVerification)
    (hvalid : v.StructEmailVerificationCreateRequest request = true)
    (hfind : w.emailVerifications.find? (fun t => t.Email == request.Email) = some r)
    (hbad : now.Unix ≥ r.Expiration ∨ request.Code ≠ r.Code) :
    EmailVerificationService.Verification v now request w
      = (some .ErrUnauthorized,
          { w with calls := w.calls ++ [.EmailVerificationFindByEmail request.Email] }) := by
  simp only [EmailVerificationService.Verification, hvalid,
    EmailVerificationRepository.FindByEmail, World.record, hfind, Bool.not_true,
    Bool.false_eq_true, if_false]
  by_cases hexp : now.Unix ≥ r.Expiration
  · simp [hexp]
  · have hcode : request.Code ≠ r.Code := hbad.resolve_left hexp
    simp [hexp, hcode]

/-- `Verification` when the record `r` is stored for the e-mail, has not
expired and carries the submitted code. -/
theorem verification_accepted (v : Validate) (now : Time)
    (request : EmailVerificationCreateRequest) (w : World) (r : EmailVerification)
    (hvalid : v.StructEmailVerificationCreateRequest request = true)
    (hfind : w.emailVerifications.find? (fun t => t.Email == request.Email) = some r)
    (hexp : now.Unix < r.Expiration) (hcode : request.Code = r.Code) :
    EmailVerificationService.Verification v now request w
      = (none,
          { w with
            emailVerifications :=
              deleteFirst (fun t => t.Email == request.Email) w.emailVerifications
            calls := w.calls ++ [.EmailVerificationFindByEmail request.Email,
              .EmailVerificationDelete request.Email] }) := by
  have hany : w.emailVerifications.any (fun t => t.Email == request.Email) = true :=
    List.any_eq_true.2 ⟨r, List.mem_of_find?_eq_some hfind, by
      simpa using List.find?_some hfind⟩
  have hnot : ¬ now.Unix ≥ r.Expiration := by omega
  simp [EmailVerificationService.Verification, hvalid, EmailVerificationRepository.FindByEmail,
    EmailVerificationRepository.Delete, World.record, hfind, hnot, hcode, hany]

/-- C8: for a request the validator accepts and a store with unique e-mails,
`Verification` returns `ErrNotFound` when no record is stored for the e-mail;
`ErrUnauthorized` when `now >= expiration` (equality included) or the code is
not the stored one; and otherwise removes the record of that e-mail and
returns no error. In the failing cases the store is untouched. -/
theorem C8_verification_decided (v : Validate) (now : Time)
    (request : EmailVerificationCreateRequest) (w : World)
    (hvalid : v.StructEmailVerificationCreateRequest request = true)
    (hnodup : (w.emailVerifications.map EmailVerification.Email).Nodup) :
    ((∀ r ∈ w.emailVerifications, r.Email ≠ request.Email) →
        EmailVerificationService.Verification v now request w
          = (some .ErrNotFound,
              { w with calls := w.calls ++ [.EmailVerificationFindByEmail request.Email] }))
      ∧ (∀ r ∈ w.emailVerifications, r.Email = request.Email →
          ((now.Unix ≥ r.Expiration ∨ request.Code ≠ r.Code) →
            EmailVerificationService.Verification v now request w
              = (some .ErrUnauthorized,
                  { w with
                    calls := w.calls ++ [.EmailVerificationFindByEmail request.Email] }))
          ∧ (now.Unix < r.Expiration → request.Code = r.Code →
            EmailVerificationService.Verification v now request w
              = (none,
                  { w with
                    emailVerifications :=
                      w.emailVerifications.filter (fun t => t.Email != request.Email)
                    calls := w.calls ++ [.EmailVerificationFindByEmail request.Email,
                      .EmailVerificationDelete request.Email] }))) := by
  refine ⟨verification_absent v now request w hvalid, fun r hr he => ⟨?_, ?_⟩⟩
  · exact verification_refused v now request w r hvalid
      (find_verification _ hnodup r hr _ he)
  · intro hexp hcode
    rw [verification_accepted v now request w r hvalid
      (find_verification _ hnodup r hr _ he) hexp hcode,
      deleteFirst_eq_filter EmailVerification.Email request.Email _ hnodup]

/-- C8 at the sample store, whose record for `bob@x.com` has the code `ABC123`
and expires at second 1600: the code in lower case is refused, the right code
at second 1600 is refused, the right code at second 1599 removes the record. -/
theorem C8_verification_decided_witness :
    (EmailVerificationService.Verification sampleValidate ⟨1000 * Second⟩
        ⟨"bob@x.com", "abc123"⟩ sampleWorld).1 = some .ErrUnauthorized
      ∧ (EmailVerificationService.Verification sampleValidate ⟨1600 * Second⟩
        ⟨"bob@x.com", "ABC123"⟩ sampleWorld).1 = some .ErrUnauthorized
      ∧ (EmailVerificationService.Verification sampleValidate ⟨1599 * Second⟩
        ⟨"bob@x.com", "ABC123"⟩ sampleWorld).1 = none
      ∧ (EmailVerificationService.Verification sampleValidate ⟨1599 * Second⟩
        ⟨"bob@x.com", "ABC123"⟩ sampleWorld).2.emailVerifications = [] :=
  have h1 := ((C8_verification_decided sampleValidate ⟨1000 * Second⟩ ⟨"bob@x.com", "abc123"⟩
    sampleWorld (by decide) (by decide)).2
    { Email := "bob@x.com", Code := "ABC123", Expiration := 1600, Cooldown := 1060 }
    (by decide) rfl).1 (Or.inr (by decide))
  have h2 := ((C8_verification_decided sampleValidate ⟨1600 * Second⟩ ⟨"bob@x.com", "ABC123"⟩
    sampleWorld (by decide) (by decide)).2
    { Email := "bob@x.com", Code := "ABC123", Expiration := 1600, Cooldown := 1060 }
    (by decide) rfl).1 (Or.inl (by decide))
  have h3 := ((C8_verification_decided sampleValidate ⟨1599 * Second⟩ ⟨"bob@x.com", "ABC123"⟩
    sampleWorld (by decide) (by decide)).2
    { Email := "bob@x.com", Code := "ABC123", Expiration := 1600, Cooldown := 1060 }
    (by decide) rfl).2 (by decide) rfl
  ⟨by rw [h1], by rw [h2], by rw [h3], by rw [h3]; decide⟩

/-- A `Verification` that succeeds was given a valid request and leaves no
record for the e-mail (unique e-mails assumed). -/
theorem verification_ok_absent (v : Validate) (now : Time)
    (request : EmailVerificationCreateRequest) (w : World)
    (hnodup : (w.emailVerifications.map EmailVerification.Email).Nodup)
    (hok : (EmailVerificationService.Verification v now request w).1 = none) :
    v.StructEmailVerificationCreateRequest request = true
      ∧ ∀ r ∈ (EmailVerificationService.Verification v now request w).2.emailVerifications,
          r.Email ≠ request.Email := by
  cases hvalid : v.StructEmailVerificationCreateRequest request with
  | false =>
    simp [EmailVerificationService.Verification, hvalid] at hok
  | true =>
    refine ⟨rfl, ?_⟩
    cases hfind : w.emailVerifications.find? (fun t => t.Email == request.Email) with
    | none =>
      have hall : ∀ r ∈ w.emailVerifications, r.Email ≠ request.Email := by
        intro r hr
        simpa using List.find?_eq_none.1 hfind r hr
      rw [verification_absent v now request w hvalid hall] at hok
      cases hok
    | some r =>
      by_cases hbad : now.Unix ≥ r.Expiration ∨ request.Code ≠ r.Code
      · rw [verification_refused v now request w r hvalid hfind hbad] at hok
        cases hok
      · have hexp : now.Unix < r.Expiration := by
          by_contra h
          exact hbad (Or.inl (by omega))
        have hcode : request.Code = r.Code := by
          by_contra h
          exact hbad (Or.inr h)
        rw [verification_accepted v now request w r hvalid hfind hexp hcode,
          deleteFirst_eq_filter EmailVerification.Email request.Email _ hnodup]
        intro t ht
        simpa using (List.mem_filter.1 ht).2

/-- A `Verify` that succeeds went through a `Verification` that succeeded, and
leaves the pending verifications as that `Verification` left them. -/
theorem verify_ok (v : Validate) (now : Time) (request : EmailVerificationCreateRequest)
    (w : World) (response : UserResponse)
    (hok : (UserService.Verify v now request w).1 = .ok response) :
    (EmailVerificationService.Verification v now request w).1 = none
      ∧ (UserService.Verify v now request w).2.emailVerifications
        = (EmailVerificationService.Verification v now request w).2.emailVerifications := by
  rcases h : EmailVerificationService.Verification v now request w with ⟨sent, w1⟩
  revert hok
  simp only [UserService.Verify, h, UserRepository_FindByEmail_eq, UserRepository_Update_eq]
  repeat' split
  all_goals try simp only [Prod.mk.injEq] at *
  all_goals try casesm* _ ∧ _
  all_goals subst_vars
  all_goals intro hok
  all_goals first
    | exact ⟨rfl, rfl⟩
    | cases hok

/-- `Verify` when no record is stored for the e-mail. -/
theorem verify_absent (v : Validate) (now : Time) (request : EmailVerificationCreateRequest)
    (w : World) (hvalid : v.StructEmailVerificationCreateRequest request = true)
    (hall : ∀ r ∈ w.emailVerifications, r.Email ≠ request.Email) :
    (UserService.Verify v now request w).1 = .err .ErrNotFound := by
  simp [UserService.Verify, hvalid, verification_absent v now request w hvalid hall]

/-- Every call that is neither a signup nor a resend for `email` keeps
`email` without a pending verification. -/
theorem step_keeps_absent (sys : System) (email : String) (op : Op) (w : World)
    (hinv : ∀ r ∈ w.emailVerifications, r.Email ≠ email)
    (hop : op.isSignupOrResendOf email = false) :
    ∀ r ∈ (op.step sys w).2.emailVerifications, r.Email ≠ email := by
  intro r hr
  cases op with
  | UserCreate env request =>
    rcases (UserService_Create_effect sys.validate env request w).2 r hr with h | h
    · exact hinv r h
    · have : request.Email ≠ email := by simpa [Op.isSignupOrResendOf] using hop
      rw [h]
      exact this
  | UserFindById id =>
    exact hinv r ((UserService_FindById_frame id w).2 ▸ hr)
  | UserFindAll =>
    exact hinv r ((UserService_FindAll_frame w).2 ▸ hr)
  | UserUpdate id request =>
    exact hinv r ((UserService_Update_effect sys.validate id request w).2 ▸ hr)
  | UserDelete id =>
    exact hinv r ((UserService_Delete_effect id w).2 ▸ hr)
  | UserResend env request =>
    rcases (UserService_Resend_effect sys.validate env request w).2 r hr with h | h
    · exact hinv r h
    · have : request.Email ≠ email := by simpa [Op.isSignupOrResendOf] using hop
      rw [h]
      exact this
  | UserVerify now request =>
    exact hinv r ((UserService_Verify_effect sys.validate now request w).2 r hr)
  | AuthSignin now request =>
    exact hinv r ((AuthService_Signin_frame sys.lib sys.provider now request w).2 ▸ hr)
  | AuthValidate now tokenString =>
    exact hinv r ((AuthService_Validate_frame sys.lib sys.provider now tokenString w).2 ▸ hr)
  | StackCreate generated id =>
    exact hinv r ((StackService_Create_frame generated id w).2 ▸ hr)
  | StackFindById id =>
    exact hinv r ((StackService_FindById_frame id w).2 ▸ hr)
  | StackFindByIdFromOwner id owner =>
    exact hinv r ((StackService_FindByIdFromOwner_frame id owner w).2 ▸ hr)
  | StackFindAll =>
    exact hinv r ((StackService_FindAll_frame w).2 ▸ hr)
  | StackFindAllFromOwner owner =>
    exact hinv r ((StackService_FindAllFromOwner_frame owner w).2 ▸ hr)
  | StackPush id request =>
    exact hinv r ((StackService_Push_frame sys.validate id request w).2 ▸ hr)
  | StackPushFromOwner id owner request =>
    exact hinv r ((StackService_PushFromOwner_frame sys.validate id owner request w).2 ▸ hr)
  | StackPop id =>
    exact hinv r ((StackService_Pop_frame id w).2 ▸ hr)
  | StackPopFromOwner id owner =>
    exact hinv r ((StackService_PopFromOwner_frame id owner w).2 ▸ hr)

theorem run_keeps_absent (sys : System) (email : String) (ops : List Op) :
    ∀ w : World, (∀ r ∈ w.emailVerifications, r.Email ≠ email) →
      (∀ op ∈ ops, op.isSignupOrResendOf email = false) →
      ∀ r ∈ (run sys ops w).emailVerifications, r.Email ≠ email := by
  induction ops with
  | nil => intro w hinv _; exact hinv
  | cons op ops ih =>
    intro w hinv hops
    exact ih _ (step_keeps_absent sys email op w hinv (hops op (List.mem_cons_self _ _)))
      (fun o ho => hops o (List.mem_cons_of_mem _ ho))

/-- C9: with unique e-mails among the pending verifications, once
`Verification` (or `UserService.Verify`) has succeeded for a request, the same
request fails with `ErrNotFound` at any later time, whatever calls ran in
between, as long as none of them is a signup or a resend for that e-mail. -/
theorem C9_code_is_single_use (sys : System) (now later : Time)
    (request : EmailVerificationCreateRequest) (w : World) (ops : List Op)
    (hnodup : (w.emailVerifications.map EmailVerification.Email).Nodup)
    (hops : ∀ op ∈ ops, op.isSignupOrResendOf request.Email = false) :
    ((EmailVerificationService.Verification sys.validate now request w).1 = none →
        (EmailVerificationService.Verification sys.validate later request
          (run sys ops (EmailVerificationService.Verification sys.validate now request w).2)).1
          = some .ErrNotFound)
      ∧ (∀ response, (UserService.Verify sys.validate now request w).1 = .ok response →
        (UserService.Verify sys.validate later request
          (run sys ops (UserService.Verify sys.validate now request w).2)).1
          = .err .ErrNotFound) := by
  refine ⟨fun hok => ?_, fun response hok => ?_⟩
  · have h := verification_ok_absent sys.validate now request w hnodup hok
    rw [verification_absent sys.validate later request _ h.1
      (run_keeps_absent sys request.Email ops _ h.2 hops)]
  · have hv := verify_ok sys.validate now request w response hok
    have h := verification_ok_absent sys.validate now request w hnodup hv.1
    exact verify_absent sys.validate later request _ h.1
      (run_keeps_absent sys request.Email ops _ (by rw [hv.2]; exact h.2) hops)

/-- C9 at the sample store: `bob@x.com` verifies with `ABC123`, a stack is
created for that user, and the same request then fails with `ErrNotFound`. -/
theorem C9_code_is_single_use_witness :
    (UserService.Verify sampleValidate ⟨1000 * Second⟩ ⟨"bob@x.com", "ABC123"⟩ sampleWorld).1
        = .ok { ID := "u2", Name := "Bob" }
      ∧ (UserService.Verify sampleValidate ⟨1001 * Second⟩ ⟨"bob@x.com", "ABC123"⟩
          (run sampleSystem [.StackCreate "s3" "u2"]
            (UserService.Verify sampleValidate ⟨1000 * Second⟩ ⟨"bob@x.com", "ABC123"⟩
              sampleWorld).2)).1
        = .err .ErrNotFound :=
  ⟨by decide,
    (C9_code_is_single_use sampleSystem ⟨1000 * Second⟩ ⟨1001 * Second⟩
      ⟨"bob@x.com", "ABC123"⟩ sampleWorld [.StackCreate "s3" "u2"] (by decide)
      (by
        intro op hop
        rw [List.mem_singleton.1 hop]
        rfl)).2
      { ID := "u2", Name := "Bob" } (by decide)⟩

/-- C10: in a store with unique user ids, unique user e-mails and unique
verification e-mails, for a stored user `u` with the e-mail of the request and
a pending record `r` for that e-mail carrying the submitted code, `Verify` at
a time before the expiration answers the id and the name of `u`; afterwards
the stored user has `Verified = true`, its other fields and all other users
are as before, and the record is gone. -/
theorem C10_verify_marks_verified (v : Validate) (now : Time)
    (request : EmailVerificationCreateRequest) (w : World) (u : User) (r : EmailVerification)
    (hvalid : v.StructEmailVerificationCreateRequest request = true)
    (hids : (w.users.map User.ID).Nodup) (hemails : (w.users.map User.Email).Nodup)
    (hrecords : (w.emailVerifications.map EmailVerification.Email).Nodup)
    (hu : u ∈ w.users) (hue : u.Email = request.Email)
    (hr : r ∈ w.emailVerifications) (hre : r.Email = request.Email)
    (hcode : r.Code = request.Code) (hexp : now.Unix < r.Expiration) :
    (UserService.Verify v now request w).1 = .ok { ID := u.ID, Name := u.Name }
      ∧ (UserService.Verify v now request w).2.users
        = w.users.map (fun t =>
            if t.ID = u.ID then
              { ID := t.ID, Name := t.Name, Role := t.Role, Email := t.Email,
                Password := t.Password, Verified := true }
            else t)
      ∧ (UserService.Verify v now request w).2.emailVerifications
        = w.emailVerifications.filter (fun t => t.Email != request.Email) := by
  have hfindr := find_verification _ hrecords r hr _ hre
  have hver := verification_accepted v now request w r hvalid hfindr hexp hcode.symm
  have hfindu : w.users.find? (fun t => t.Email == request.Email) = some u := by
    rw [← hue]
    exact find_key User.Email w.users hemails u hu
  have hany : w.users.any (fun t => t.ID == u.ID) = true :=
    List.any_eq_true.2 ⟨u, hu, by simp⟩
  have hfree : w.users.any (fun t => t.ID != u.ID && t.Email == u.Email) = false := by
    rw [List.any_eq_false]
    intro t ht hcond
    simp only [Bool.and_eq_true, bne_iff_ne, ne_eq, beq_iff_eq] at hcond
    exact hcond.1 (congrArg User.ID (eq_of_key_eq User.Email w.users hemails t u ht hu hcond.2))
  have hmap : w.users.map (fun t => if t.ID = u.ID then { u with Verified := true } else t)
      = w.users.map (fun t =>
          if t.ID = u.ID then
            { ID := t.ID, Name := t.Name, Role := t.Role, Email := t.Email,
              Password := t.Password, Verified := true }
          else t) := by
    apply List.map_congr_left
    intro t ht
    by_cases h : t.ID = u.ID
    · have : t = u := eq_of_key_eq User.ID w.users hids t u ht hu h
      simp [this]
    · simp [h]
  simp only [UserService.Verify, hvalid, hver, UserRepository.FindByEmail, World.record,
    hfindu, UserRepository.Update, hany, hfree, Bool.not_true, Bool.false_eq_true, if_false,
    if_true]
  refine ⟨trivial, ?_, ?_⟩
  · rw [replaceFirst_eq_map User.ID u.ID _ w.users hids, hmap]
  · rw [deleteFirst_eq_filter EmailVerification.Email request.Email _ hrecords]

/-- C10 at the sample store: `bob@x.com` verifies with `ABC123` at second 1000. -/
theorem C10_verify_marks_verified_witness :
    (UserService.Verify sampleValidate ⟨1000 * Second⟩ ⟨"bob@x.com", "ABC123"⟩ sampleWorld).1
        = .ok { ID := "u2", Name := "Bob" }
      ∧ (UserService.Verify sampleValidate ⟨1000 * Second⟩ ⟨"bob@x.com", "ABC123"⟩
          sampleWorld).2.users
        = [{ ID := "u1", Name := "Ann", Role := .UserRoleClient, Email := "ann@x.com",
             Password := "password1", Verified := true },
           { ID := "u2", Name := "Bob", Role := .UserRoleAdmin, Email := "bob@x.com",
             Password := "password2", Verified := true }] :=
  have h := C10_verify_marks_verified sampleValidate ⟨1000 * Second⟩ ⟨"bob@x.com", "ABC123"⟩
    sampleWorld
    { ID := "u2", Name := "Bob", Role := .UserRoleAdmin, Email := "bob@x.com",
      Password := "password2", Verified := false }
    { Email := "bob@x.com", Code := "ABC123", Expiration := 1600, Cooldown := 1060 }
    (by decide) (by decide) (by decide) (by decide) (by decide) rfl (by decide) rfl rfl
    (by decide)
  ⟨h.1, h.2.1.trans (by decide)⟩

/-! ## Well-formed stores -/

theorem deleteFirst_sublist {α : Type} (p : α → Bool) (l : List α) :
    (deleteFirst p l).Sublist l := by
  induction l with
  | nil => exact List.Sublist.refl _
  | cons a l ih =>
    unfold deleteFirst
    split
    · exact List.sublist_cons_self a l
    · exact ih.cons₂ a

theorem nodup_deleteFirst {α : Type} (key : α → String) (p : α → Bool) (l : List α)
    (h : (l.map key).Nodup) : ((deleteFirst p l).map key).Nodup :=
  h.sublist ((deleteFirst_sublist p l).map key)

/-- Overwriting a document by one with the same key leaves the keys as they are. -/
theorem map_key_replaceFirst {α : Type} (key : α → String) (new : α) (l : List α) :
    (replaceFirst (fun x => key x == key new) new l).map key = l.map key := by
  induction l with
  | nil => rfl
  | cons a l ih =>
    unfold replaceFirst
    by_cases h : key a = key new
    · simp [h]
    · simp [h, ih]

theorem nodup_append_fresh {α : Type} (key : α → String) (new : α) (l : List α)
    (h : (l.map key).Nodup) (hfresh : ∀ x ∈ l, key x ≠ key new) :
    ((l ++ [new]).map key).Nodup := by
  rw [List.map_append, List.map_singleton]
  refine List.Nodup.append h (List.nodup_singleton _) ?_
  intro k hk hk2
  rw [List.mem_singleton] at hk2
  rcases List.mem_map.1 hk with ⟨x, hx, hxk⟩
  exact hfresh x hx (hxk.trans hk2)

/-- Overwriting the user with the id of `user` keeps the e-mails unique when no
other user holds the new e-mail. -/
theorem nodup_emails_replaceFirst (user : User) (users : List User)
    (hids : (users.map User.ID).Nodup) (hemails : (users.map User.Email).Nodup)
    (hfree : users.any (fun u => u.ID != user.ID && u.Email == user.Email) = false) :
    ((replaceFirst (fun u => u.ID == user.ID) user users).map User.Email).Nodup := by
  rw [replaceFirst_eq_map User.ID user.ID user users hids, List.map_map]
  have hfree2 : ∀ x ∈ users, x.ID ≠ user.ID → x.Email ≠ user.Email := by
    intro x hx hne he
    have := List.any_eq_false.1 hfree x hx
    simp [hne, he] at this
  refine List.Nodup.map_on ?_ (List.Nodup.of_map _ hids)
  intro x hx y hy hxy
  simp only [Function.comp] at hxy
  by_cases h1 : x.ID = user.ID <;> by_cases h2 : y.ID = user.ID
  · exact eq_of_key_eq User.ID users hids x y hx hy (h1.trans h2.symm)
  · simp only [h1, h2, if_true, if_false] at hxy
    exact absurd hxy.symm (hfree2 y hy h2)
  · simp only [h1, h2, if_true, if_false] at hxy
    exact absurd hxy (hfree2 x hx h1)
  · simp only [h1, h2, if_false] at hxy
    exact eq_of_key_eq User.Email users hemails x y hx hy hxy

theorem World.empty_wellFormed : World.empty.WellFormed := by
  simp [World.WellFormed, World.empty]

theorem wellFormed_calls (w : World) (calls : List Call) (hw : w.WellFormed) :
    World.WellFormed { w with calls := calls } := hw

theorem StackRepository_Insert_wf (generated : String) (stack : Stack) (w w1 : World)
    (r : Except Error Stack) (h : StackRepository.Insert generated stack w = (r, w1))
    (hw : w.WellFormed) : w1.WellFormed := by
  rw [StackRepository_Insert_eq] at h
  cases h
  by_cases hany : w.stackDocs.any (fun s => s.ID == generated) = true
  · simpa [World.WellFormed, hany] using hw
  · refine ⟨hw.1, hw.2.1, ?_, hw.2.2.2⟩
    simp only [hany, if_false]
    refine nodup_append_fresh Stack.ID _ _ hw.2.2.1 ?_
    intro x hx hxe
    exact hany (List.any_eq_true.2 ⟨x, hx, by simpa using hxe⟩)

theorem StackRepository_FindById_wf (id : String) (w w1 : World) (r : Except Error Stack)
    (h : StackRepository.FindById id w = (r, w1)) (hw : w.WellFormed) : w1.WellFormed := by
  rw [StackRepository_FindById_eq] at h
  cases h
  exact hw

theorem StackRepository_FindByOwner_wf (owner : String) (w w1 : World)
    (r : Except Error (List Stack)) (h : StackRepository.FindByOwner owner w = (r, w1))
    (hw : w.WellFormed) : w1.WellFormed := by
  rw [StackRepository_FindByOwner_eq] at h
  cases h
  exact hw

theorem StackRepository_FindAll_wf (w w1 : World) (r : Except Error (List Stack))
    (h : StackRepository.FindAll w = (r, w1)) (hw : w.WellFormed) : w1.WellFormed := by
  rw [StackRepository_FindAll_eq] at h
  cases h
  exact hw

theorem StackRepository_Update_wf (stack : Stack) (w w1 : World) (r : Except Error Stack)
    (h : StackRepository.Update stack w = (r, w1)) (hw : w.WellFormed) : w1.WellFormed := by
  rw [StackRepository_Update_eq] at h
  cases h
  refine ⟨hw.1, hw.2.1, ?_, hw.2.2.2⟩
  simp only []
  split
  · rw [map_key_replaceFirst Stack.ID stack]
    exact hw.2.2.1
  · exact hw.2.2.1

theorem UserRepository_Insert_wf (generated : String) (user : User) (w w1 : World)
    (r : Except Error User) (h : UserRepository.Insert generated user w = (r, w1))
    (hw : w.WellFormed) : w1.WellFormed := by
  rw [UserRepository_Insert_eq] at h
  cases h
  by_cases hany : w.users.any (fun u => u.ID == generated || u.Email == user.Email) = true
  · simpa [World.WellFormed, hany] using hw
  · have hfresh : ∀ x ∈ w.users, x.ID ≠ generated ∧ x.Email ≠ user.Email := by
      intro x hx
      simpa using (show ∀ x ∈ w.users, ¬x.ID = generated ∧ ¬x.Email = user.Email from
        by simpa using hany) x hx
    refine ⟨?_, ?_, hw.2.2.1, hw.2.2.2⟩
    · simp only [hany, if_false]
      exact nodup_append_fresh User.ID _ _ hw.1 (fun x hx => (hfresh x hx).1)
    · simp only [hany, if_false]
      exact nodup_append_fresh User.Email _ _ hw.2.1 (fun x hx => (hfresh x hx).2)

theorem UserRepository_FindById_wf (id : String) (w w1 : World) (r : Except Error User)
    (h : UserRepository.FindById id w = (r, w1)) (hw : w.WellFormed) : w1.WellFormed := by
  rw [UserRepository_FindById_eq] at h
  cases h
  exact hw

theorem UserRepository_FindByEmail_wf (email : String) (w w1 : World) (r : Except Error User)
    (h : UserRepository.FindByEmail email w = (r, w1)) (hw : w.WellFormed) :
    w1.WellFormed := by
  rw [UserRepository_FindByEmail_eq] at h
  cases h
  exact hw

theorem UserRepository_FindAll_wf (w w1 : World) (r : Except Error (List User))
    (h : UserRepository.FindAll w = (r, w1)) (hw : w.WellFormed) : w1.WellFormed := by
  rw [UserRepository_FindAll_eq] at h
  cases h
  exact hw

theorem UserRepository_Update_wf (user : User) (w w1 : World) (r : Except Error User)
    (h : UserRepository.Update user w = (r, w1)) (hw : w.WellFormed) : w1.WellFormed := by
  rw [UserRepository_Update_eq] at h
  cases h
  refine ⟨?_, ?_, hw.2.2.1, hw.2.2.2⟩
  · simp only [usersAfterUpdate]
    split
    · split
      · exact hw.1
      · rw [map_key_replaceFirst User.ID user]
        exact hw.1
    · exact hw.1
  · simp only [usersAfterUpdate]
    split
    · split
      · exact hw.2.1
      · rename_i hfree
        exact nodup_emails_replaceFirst user w.users hw.1 hw.2.1 (Bool.eq_false_iff.2 hfree)
    · exact hw.2.1

theorem UserRepository_Delete_wf (user : User) (w w1 : World) (r : Option Error)
    (h : UserRepository.Delete user w = (r, w1)) (hw : w.WellFormed) : w1.WellFormed := by
  rw [UserRepository_Delete_eq] at h
  cases h
  refine ⟨?_, ?_, hw.2.2.1, hw.2.2.2⟩
  · simp only []
    split
    · exact nodup_deleteFirst User.ID _ _ hw.1
    · exact hw.1
  · simp only []
    split
    · exact nodup_deleteFirst User.Email _ _ hw.2.1
    · exact hw.2.1

theorem EmailVerificationRepository_Insert_wf (record : EmailVerification) (w w1 : World)
    (r : Option Error) (h : EmailVerificationRepository.Insert record w = (r, w1))
    (hw : w.WellFormed) : w1.WellFormed := by
  rw [EmailVerificationRepository_Insert_eq] at h
  cases h
  by_cases hany : w.emailVerifications.any (fun t => t.Email == record.Email) = true
  · simpa [World.WellFormed, hany] using hw
  · refine ⟨hw.1, hw.2.1, hw.2.2.1, ?_⟩
    simp only [hany, if_false]
    refine nodup_append_fresh EmailVerification.Email _ _ hw.2.2.2 ?_
    intro x hx hxe
    exact hany (List.any_eq_true.2 ⟨x, hx, by simpa using hxe⟩)

theorem EmailVerificationRepository_FindByEmail_wf (email : String) (w w1 : World)
    (r : Except Error EmailVerification)
    (h : EmailVerificationRepository.FindByEmail email w = (r, w1)) (hw : w.WellFormed) :
    w1.WellFormed := by
  rw [EmailVerificationRepository_FindByEmail_eq] at h
  cases h
  exact hw

theorem EmailVerificationRepository_Update_wf (record : EmailVerification) (w w1 : World)
    (r : Except Error EmailVerification)
    (h : EmailVerificationRepository.Update record w = (r, w1)) (hw : w.WellFormed) :
    w1.WellFormed := by
  rw [EmailVerificationRepository_Update_eq] at h
  cases h
  refine ⟨hw.1, hw.2.1, hw.2.2.1, ?_⟩
  simp only []
  split
  · rw [map_key_replaceFirst EmailVerification.Email record]
    exact hw.2.2.2
  · exact hw.2.2.2

theorem EmailVerificationRepository_Delete_wf (email : String) (w w1 : World)
    (r : Option Error) (h : EmailVerificationRepository.Delete email w = (r, w1))
    (hw : w.WellFormed) : w1.WellFormed := by
  rw [EmailVerificationRepository_Delete_eq] at h
  cases h
  refine ⟨hw.1, hw.2.1, hw.2.2.1, ?_⟩
  simp only []
  split
  · exact nodup_deleteFirst EmailVerification.Email _ _ hw.2.2.2
  · exact hw.2.2.2

/-! ### Every service method keeps the store well-formed -/

theorem EmailVerificationService_Create_wf (env : Env) (email : EmailVerificationSend)
    (w w1 : World) (r : Outcome EmailVerification)
    (h : EmailVerificationService.Create env email w = (r, w1)) (hw : w.WellFormed) :
    w1.WellFormed := by
  revert h
  simp only [EmailVerificationService.Create, World.record]
  repeat' split
  all_goals intro h
  all_goals cases h
  all_goals solve_by_elim [EmailVerificationRepository_Insert_wf, wellFormed_calls]

theorem record_wf (w : World) (c : Call) (hw : w.WellFormed) : (w.record c).WellFormed := hw

theorem EmailVerificationService_Recreate_wf (env : Env) (email : EmailVerificationSend)
    (w w1 : World) (r : Outcome EmailVerification)
    (h : EmailVerificationService.Recreate env email w = (r, w1)) (hw : w.WellFormed) :
    w1.WellFormed := by
  revert h
  simp only [EmailVerificationService.Recreate]
  repeat' split
  all_goals intro h
  all_goals cases h
  all_goals first
    | exact EmailVerificationRepository_FindByEmail_wf _ _ _ _ (by assumption) hw
    | exact record_wf _ _ (EmailVerificationRepository_FindByEmail_wf _ _ _ _ (by assumption) hw)
    | exact EmailVerificationRepository_Update_wf _ _ _ _ (by assumption)
        (record_wf _ _ (EmailVerificationRepository_FindByEmail_wf _ _ _ _ (by assumption) hw))

theorem EmailVerificationService_Verification_wf (v : Validate) (now : Time)
    (request : EmailVerificationCreateRequest) (w w1 : World) (r : Option Error)
    (h : EmailVerificationService.Verification v now request w = (r, w1))
    (hw : w.WellFormed) : w1.WellFormed := by
  revert h
  simp only [EmailVerificationService.Verification]
  repeat' split
  all_goals intro h
  all_goals cases h
  all_goals solve_by_elim [EmailVerificationRepository_FindByEmail_wf,
    EmailVerificationRepository_Delete_wf]

theorem UserService_Create_wf (v : Validate) (env : Env) (request : UserCreateRequest)
    (w : World) (hw : w.WellFormed) : (UserService.Create v env request w).2.WellFormed := by
  simp only [UserService.Create]
  repeat' split
  all_goals solve_by_elim [EmailVerificationService_Create_wf, UserRepository_Insert_wf]

theorem UserService_FindById_wf (id : String) (w : World) (hw : w.WellFormed) :
    (UserService.FindById id w).2.WellFormed := by
  simp only [UserService.FindById]
  repeat' split
  all_goals solve_by_elim [UserRepository_FindById_wf]

theorem UserService_FindAll_wf (w : World) (hw : w.WellFormed) :
    (UserService.FindAll w).2.WellFormed := by
  simp only [UserService.FindAll]
  repeat' split
  all_goals solve_by_elim [UserRepository_FindAll_wf]

theorem UserService_Update_wf (v : Validate) (id : String) (request : UserUpdateRequest)
    (w : World) (hw : w.WellFormed) : (UserService.Update v id request w).2.WellFormed := by
  simp only [UserService.Update]
  repeat' split
  all_goals solve_by_elim [UserRepository_Update_wf]

theorem UserService_Delete_wf (id : String) (w : World) (hw : w.WellFormed) :
    (UserService.Delete id w).2.WellFormed := by
  simp only [UserService.Delete]
  repeat' split
  all_goals solve_by_elim [UserRepository_Delete_wf]

theorem UserService_Resend_wf (v : Validate) (env : Env)
    (request : EmailVerificationRecreateRequest) (w : World) (hw : w.WellFormed) :
    (UserService.Resend v env request w).2.WellFormed := by
  simp only [UserService.Resend]
  repeat' split
  all_goals solve_by_elim [EmailVerificationService_Recreate_wf]

theorem UserService_Verify_wf (v : Validate) (now : Time)
    (request : EmailVerificationCreateRequest) (w : World) (hw : w.WellFormed) :
    (UserService.Verify v now request w).2.WellFormed := by
  simp only [UserService.Verify]
  repeat' split
  all_goals first
    | exact hw
    | exact EmailVerificationService_Verification_wf _ _ _ _ _ _ (by assumption) hw
    | exact UserRepository_FindByEmail_wf _ _ _ _ (by assumption)
        (EmailVerificationService_Verification_wf _ _ _ _ _ _ (by assumption) hw)
    | exact UserRepository_Update_wf _ _ _ _ (by assumption)
        (UserRepository_FindByEmail_wf _ _ _ _ (by assumption)
          (EmailVerificationService_Verification_wf _ _ _ _ _ _ (by assumption) hw))

theorem AuthService_Signin_wf (lib : JwtLib) (provider : JWTProvider) (now : Time)
    (request : AuthRequest) (w : World) (hw : w.WellFormed) :
    (AuthService.Signin lib provider now request w).2.WellFormed := by
  simp only [AuthService.Signin]
  repeat' split
  all_goals solve_by_elim [UserRepository_FindByEmail_wf]

theorem AuthService_Validate_wf (lib : JwtLib) (provider : JWTProvider) (now : Time)
    (tokenString : String) (w : World) (hw : w.WellFormed) :
    (AuthService.Validate lib provider now tokenString w).2.WellFormed := by
  simp only [AuthService.Validate]
  repeat' split
  all_goals solve_by_elim [UserRepository_FindById_wf]

theorem StackService_Create_wf (generated id : String) (w : World) (hw : w.WellFormed) :
    (StackService.Create generated id w).2.WellFormed := by
  simp only [StackService.Create]
  repeat' split
  all_goals solve_by_elim [UserRepository_FindById_wf, StackRepository_Insert_wf]

theorem StackService_FindById_wf (id : String) (w : World) (hw : w.WellFormed) :
    (StackService.FindById id w).2.WellFormed := by
  simp only [StackService.FindById]
  repeat' split
  all_goals solve_by_elim [StackRepository_FindById_wf]

theorem StackService_FindByIdFromOwner_wf (id owner : String) (w : World)
    (hw : w.WellFormed) : (StackService.FindByIdFromOwner id owner w).2.WellFormed := by
  simp only [StackService.FindByIdFromOwner]
  repeat' split
  all_goals solve_by_elim [StackRepository_FindByOwner_wf]

theorem StackService_FindAll_wf (w : World) (hw : w.WellFormed) :
    (StackService.FindAll w).2.WellFormed := by
  simp only [StackService.FindAll]
  repeat' split
  all_goals solve_by_elim [StackRepository_FindAll_wf]

theorem StackService_FindAllFromOwner_wf (owner : String) (w : World) (hw : w.WellFormed) :
    (StackService.FindAllFromOwner owner w).2.WellFormed := by
  simp only [StackService.FindAllFromOwner]
  repeat' split
  all_goals solve_by_elim [StackRepository_FindByOwner_wf]

theorem StackService_Push_wf (v : Validate) (id : String) (request : ItemRequest) (w : World)
    (hw : w.WellFormed) : (StackService.Push v id request w).2.WellFormed := by
  simp only [StackService.Push]
  repeat' split
  all_goals solve_by_elim [StackRepository_FindById_wf, StackRepository_Update_wf]

theorem StackService_PushFromOwner_wf (v : Validate) (id owner : String)
    (request : ItemRequest) (w : World) (hw : w.WellFormed) :
    (StackService.PushFromOwner v id owner request w).2.WellFormed := by
  simp only [StackService.PushFromOwner]
  repeat' split
  all_goals solve_by_elim [StackRepository_FindByOwner_wf, StackRepository_Update_wf]

theorem StackService_Pop_wf (id : String) (w : World) (hw : w.WellFormed) :
    (StackService.Pop id w).2.WellFormed := by
  simp only [StackService.Pop]
  repeat' split
  all_goals solve_by_elim [StackRepository_FindById_wf, StackRepository_Update_wf]

theorem StackService_PopFromOwner_wf (id owner : String) (w : World) (hw : w.WellFormed) :
    (StackService.PopFromOwner id owner w).2.WellFormed := by
  simp only [StackService.PopFromOwner]
  repeat' split
  all_goals solve_by_elim [StackRepository_FindByOwner_wf, StackRepository_Update_wf]

/-- Every call of the service layer keeps the store well-formed. -/
theorem step_wellFormed (sys : System) (op : Op) (w : World) (hw : w.WellFormed) :
    (op.step sys w).2.WellFormed := by
  cases op with
  | UserCreate env request => exact UserService_Create_wf sys.validate env request w hw
  | UserFindById id => exact UserService_FindById_wf id w hw
  | UserFindAll => exact UserService_FindAll_wf w hw
  | UserUpdate id request => exact UserService_Update_wf sys.validate id request w hw
  | UserDelete id => exact UserService_Delete_wf id w hw
  | UserResend env request => exact UserService_Resend_wf sys.validate env request w hw
  | UserVerify now request => exact UserService_Verify_wf sys.validate now request w hw
  | AuthSignin now request => exact AuthService_Signin_wf sys.lib sys.provider now request w hw
  | AuthValidate now tokenString =>
    exact AuthService_Validate_wf sys.lib sys.provider now tokenString w hw
  | StackCreate generated id => exact StackService_Create_wf generated id w hw
  | StackFindById id => exact StackService_FindById_wf id w hw
  | StackFindByIdFromOwner id owner => exact StackService_FindByIdFromOwner_wf id owner w hw
  | StackFindAll => exact StackService_FindAll_wf w hw
  | StackFindAllFromOwner owner => exact StackService_FindAllFromOwner_wf owner w hw
  | StackPush id request => exact StackService_Push_wf sys.validate id request w hw
  | StackPushFromOwner id owner request =>
    exact StackService_PushFromOwner_wf sys.validate id owner request w hw
  | StackPop id => exact StackService_Pop_wf id w hw
  | StackPopFromOwner id owner => exact StackService_PopFromOwner_wf id owner w hw

/-- Every store reached from the empty database by calls of the service layer
has unique user ids, unique user e-mails, unique stack ids and at most one
pending verification for each e-mail. -/
theorem run_wellFormed (sys : System) (ops : List Op) :
    ∀ w : World, w.WellFormed → (run sys ops w).WellFormed := by
  induction ops with
  | nil => intro w hw; exact hw
  | cons op ops ih => intro w hw; exact ih _ (step_wellFormed sys op w hw)

/-! ## C11 to C13: issuing and re-issuing verification codes -/

theorem unix_add_ten_minutes (t : Time) : (t.Add (Minute * 10)).Unix = t.Unix + 600 := by
  have h : t.unixNano + Minute * 10 = t.unixNano + 600 * Second := by
    simp only [Minute, Second]; omega
  simp only [Time.Add, Time.Unix, h]
  exact Int.add_mul_ediv_right _ _ (by decide)

theorem unix_add_minute (t : Time) : (t.Add Minute).Unix = t.Unix + 60 := by
  simp only [Time.Add, Time.Unix, Minute]
  exact Int.add_mul_ediv_right _ _ (by decide)

theorem index_codeSelection (raw : Nat) :
    ∃ c, index codeSelection (Intn raw codeSelectionLength) = some c := by
  have hlen : codeSelectionLength = 36 := by decide
  have hlt : raw % 36 < codeSelection.length := by
    have : codeSelection.length = 36 := by decide
    omega
  refine ⟨codeSelection[raw % 36], ?_⟩
  have hnot : ¬ (((raw % 36 : Nat) : Int) < 0) := by omega
  simp only [index, Intn, hlen, hnot, if_false, Int.toNat_ofNat]
  exact List.getElem?_eq_getElem hlt

theorem fill_some (raw : Nat → Nat) (k : Nat) :
    ∀ i, ∃ code, GenerateCode.fill raw k i = some code ∧ code.length = k := by
  induction k with
  | zero => intro i; exact ⟨[], rfl, rfl⟩
  | succ k ih =>
    intro i
    rcases index_codeSelection (raw i) with ⟨c, hc⟩
    rcases ih (i + 1) with ⟨rest, hrest, hlen⟩
    refine ⟨c :: rest, ?_, by simp [hlen]⟩
    simp only [GenerateCode.fill, hc, hrest]

/-- `GenerateCode` never runs out of range: it always returns six symbols. -/
theorem generateCode_some (raw : Nat → Nat) :
    ∃ code, GenerateCode raw = some code ∧ code.length = 6 :=
  fill_some raw 6 0

theorem find_verification_none (docs : List EmailVerification) (email : String)
    (hall : ∀ r ∈ docs, r.Email ≠ email) :
    docs.find? (fun t => t.Email == email) = none :=
  find_none_of_forall _ _ (fun r hr => by simpa using hall r hr)

/-- `Recreate` when no record is stored for the recipient. -/
theorem recreate_absent (env : Env) (email : EmailVerificationSend) (w : World)
    (hall : ∀ r ∈ w.emailVerifications, r.Email ≠ email.ToEmail) :
    EmailVerificationService.Recreate env email w
      = (.err .ErrNotFound,
          { w with calls := w.calls ++ [.EmailVerificationFindByEmail email.ToEmail] }) := by
  simp [EmailVerificationService.Recreate, EmailVerificationRepository.FindByEmail,
    World.record, find_verification_none _ _ hall]

/-- `Recreate` when the record found is still cooling down. -/
theorem recreate_cooling (env : Env) (email : EmailVerificationSend) (w : World)
    (r : EmailVerification)
    (hfind : w.emailVerifications.find? (fun t => t.Email == email.ToEmail) = some r)
    (hcool : (env.now 0).Unix < r.Cooldown) :
    EmailVerificationService.Recreate env email w
      = (.err .ErrUnauthorized,
          { w with calls := w.calls ++ [.EmailVerificationFindByEmail email.ToEmail] }) := by
  simp [EmailVerificationService.Recreate, EmailVerificationRepository.FindByEmail,
    World.record, hfind, hcool]

/-- `Recreate` when the cooldown has elapsed and the mail goes out. -/
theorem recreate_resent (env : Env) (email : EmailVerificationSend) (w : World)
    (r : EmailVerification) (code : List Char)
    (hfind : w.emailVerifications.find? (fun t => t.Email == email.ToEmail) = some r)
    (hcool : r.Cooldown ≤ (env.now 0).Unix) (hcode : GenerateCode env.raw = some code)
    (hmail : env.sendMail = none) :
    EmailVerificationService.Recreate env email w
      = (.ok { Email := r.Email, Code := String.mk code,
               Expiration := (env.now 1).Unix + 600, Cooldown := (env.now 2).Unix + 60 },
          { w with
            emailVerifications :=
              replaceFirst (fun t => t.Email == r.Email)
                { Email := r.Email, Code := String.mk code,
                  Expiration := (env.now 1).Unix + 600, Cooldown := (env.now 2).Unix + 60 }
                w.emailVerifications
            calls := w.calls ++ [.EmailVerificationFindByEmail email.ToEmail,
              .SendMail email.FromEmail email.ToEmail (String.mk code),
              .EmailVerificationUpdate
                { Email := r.Email, Code := String.mk code,
                  Expiration := (env.now 1).Unix + 600,
                  Cooldown := (env.now 2).Unix + 60 }] }) := by
  have hnot : ¬ (env.now 0).Unix < r.Cooldown := by omega
  have hany : w.emailVerifications.any (fun t => t.Email == r.Email) = true :=
    List.any_eq_true.2 ⟨r, List.mem_of_find?_eq_some hfind, by simp⟩
  have h1 : Minute * 1 = Minute := by simp [Minute]
  simp [EmailVerificationService.Recreate, EmailVerificationRepository.FindByEmail,
    EmailVerificationRepository.Update, World.record, hfind, hnot, hcode, hmail, hany,
    unix_add_ten_minutes, unix_add_minute, h1]

/-- C11: with unique e-mails among the pending verifications, `Recreate`
returns `ErrNotFound` when no record is stored for the recipient and
`ErrUnauthorized` when the clock, read for the check, is before the cooldown
of the stored record; in both cases the only call issued is the lookup, so no
mail is sent and the record is unchanged. When the cooldown has elapsed and
the mail send succeeds, it succeeds, and the stored record carries the newly
generated code, `expiration` = the clock (read for the expiration) + 600 s and
`cooldown` = the clock (read for the cooldown) + 60 s. -/
theorem C11_resend_decided (env : Env) (email : EmailVerificationSend) (w : World)
    (hnodup : (w.emailVerifications.map EmailVerification.Email).Nodup) :
    ((∀ r ∈ w.emailVerifications, r.Email ≠ email.ToEmail) →
        EmailVerificationService.Recreate env email w
          = (.err .ErrNotFound,
              { w with calls := w.calls ++ [.EmailVerificationFindByEmail email.ToEmail] }))
      ∧ (∀ r ∈ w.emailVerifications, r.Email = email.ToEmail →
          ((env.now 0).Unix < r.Cooldown →
            EmailVerificationService.Recreate env email w
              = (.err .ErrUnauthorized,
                  { w with
                    calls := w.calls ++ [.EmailVerificationFindByEmail email.ToEmail] }))
          ∧ (r.Cooldown ≤ (env.now 0).Unix → env.sendMail = none →
            ∃ code, GenerateCode env.raw = some code
              ∧ (EmailVerificationService.Recreate env email w).1
                = .ok { Email := email.ToEmail, Code := String.mk code,
                        Expiration := (env.now 1).Unix + 600,
                        Cooldown := (env.now 2).Unix + 60 }
              ∧ (EmailVerificationService.Recreate env email w).2.emailVerifications
                = w.emailVerifications.map (fun t =>
                    if t.Email = email.ToEmail then
                      { Email := email.ToEmail, Code := String.mk code,
                        Expiration := (env.now 1).Unix + 600,
                        Cooldown := (env.now 2).Unix + 60 }
                    else t))) := by
  refine ⟨recreate_absent env email w, fun r hr he => ⟨?_, ?_⟩⟩
  · exact recreate_cooling env email w r (find_verification _ hnodup r hr _ he)
  · intro hcool hmail
    rcases generateCode_some env.raw with ⟨code, hcode, _⟩
    refine ⟨code, hcode, ?_, ?_⟩
    · rw [recreate_resent env email w r code (find_verification _ hnodup r hr _ he) hcool
        hcode hmail, he]
    · rw [recreate_resent env email w r code (find_verification _ hnodup r hr _ he) hcool
        hcode hmail, he]
      exact replaceFirst_eq_map EmailVerification.Email email.ToEmail _ _ hnodup

/-- C11 at the sample store, whose record for `bob@x.com` cools down until
second 1060: no record for `ann@x.com`; a resend at second 1000 is refused; a
resend with clock readings 1100, 1101, 1102 stores the new code with
expiration 1701 and cooldown 1162. -/
theorem C11_resend_decided_witness :
    EmailVerificationService.Recreate sampleEnv (verificationMail sampleEnv "ann@x.com")
        sampleWorld
        = (.err .ErrNotFound,
            { sampleWorld with calls := [.EmailVerificationFindByEmail "ann@x.com"] })
      ∧ EmailVerificationService.Recreate sampleEnv sampleMail sampleWorld
        = (.err .ErrUnauthorized,
            { sampleWorld with calls := [.EmailVerificationFindByEmail "bob@x.com"] })
      ∧ (EmailVerificationService.Recreate sampleEnvLater sampleMail sampleWorld).1
        = .ok { Email := "bob@x.com", Code := "4BIPW3", Expiration := 1701,
                Cooldown := 1162 } := by
  refine ⟨?_, ?_, ?_⟩
  · exact (C11_resend_decided sampleEnv (verificationMail sampleEnv "ann@x.com") sampleWorld
      (by decide)).1 (by decide)
  · exact ((C11_resend_decided sampleEnv sampleMail sampleWorld (by decide)).2
      { Email := "bob@x.com", Code := "ABC123", Expiration := 1600, Cooldown := 1060 }
      (by decide) rfl).1 (by decide)
  · obtain ⟨code, hcode, hres, _⟩ :=
      ((C11_resend_decided sampleEnvLater sampleMail sampleWorld (by decide)).2
        { Email := "bob@x.com", Code := "ABC123", Expiration := 1600, Cooldown := 1060 }
        (by decide) rfl).2 (by decide) rfl
    have hgen : GenerateCode sampleEnvLater.raw = some ['4', 'B', 'I', 'P', 'W', '3'] := by
      decide
    rw [hgen] at hcode
    cases hcode
    rw [hres]
    decide

/-- `Verification` right after a resend, with a code other than the new one. -/
theorem verification_after_resend (v : Validate) (later : Time) (w : World)
    (stored : EmailVerification) (code : String)
    (hfind : w.emailVerifications.find? (fun t => t.Email == stored.Email) = some stored)
    (hdiff : stored.Code ≠ code) :
    (EmailVerificationService.Verification v later ⟨stored.Email, code⟩ w).1
        = some .ErrBadRequest
      ∨ (EmailVerificationService.Verification v later ⟨stored.Email, code⟩ w).1
        = some .ErrUnauthorized := by
  cases hvalid : v.StructEmailVerificationCreateRequest ⟨stored.Email, code⟩ with
  | false =>
    left
    simp [EmailVerificationService.Verification, hvalid]
  | true =>
    right
    rw [verification_refused v later ⟨stored.Email, code⟩ w stored hvalid hfind
      (Or.inr (fun h => hdiff h.symm))]

/-- C12 as stated fails: the record of `bob@x.com` holds the code `ABC123`, the
random source draws `ABC123` again, the resend succeeds, and `Verification`
with the old code then succeeds. -/
theorem C12_same_code_counterexample :
    (EmailVerificationService.Recreate sampleEnvSameCode sampleMail sampleWorld).1
        = .ok { Email := "bob@x.com", Code := "ABC123", Expiration := 1700,
                Cooldown := 1160 }
      ∧ (EmailVerificationService.Verification sampleValidate ⟨1200 * Second⟩
          ⟨"bob@x.com", "ABC123"⟩
          (EmailVerificationService.Recreate sampleEnvSameCode sampleMail sampleWorld).2).1
        = none := by
  refine ⟨by decide, by decide⟩

/-- C12, amended: with unique e-mails among the pending verifications, after
`Recreate` succeeds for an e-mail whose stored record held the code `c_old`,
the stored code is the newly generated one, and whenever that code differs
from `c_old`, `Verification` with the e-mail and `c_old` does not succeed (it
returns `ErrUnauthorized`, or `ErrBadRequest` for a request the validator
rejects). -/
theorem C12_resend_invalidates_other_code (v : Validate) (env : Env)
    (email : EmailVerificationSend) (w : World) (r issued : EmailVerification)
    (later : Time) (hnodup : (w.emailVerifications.map EmailVerification.Email).Nodup)
    (hr : r ∈ w.emailVerifications) (he : r.Email = email.ToEmail)
    (hok : (EmailVerificationService.Recreate env email w).1 = .ok issued)
    (hdiff : issued.Code ≠ r.Code) :
    (∃ code, GenerateCode env.raw = some code ∧ issued.Code = String.mk code)
      ∧ ((EmailVerificationService.Verification v later ⟨email.ToEmail, r.Code⟩
            (EmailVerificationService.Recreate env email w).2).1 = some .ErrBadRequest
          ∨ (EmailVerificationService.Verification v later ⟨email.ToEmail, r.Code⟩
            (EmailVerificationService.Recreate env email w).2).1 = some .ErrUnauthorized) := by
  have hfind := find_verification _ hnodup r hr _ he
  rcases generateCode_some env.raw with ⟨code, hcode, _⟩
  by_cases hcool : (env.now 0).Unix < r.Cooldown
  · rw [recreate_cooling env email w r hfind hcool] at hok
    cases hok
  · cases hmail : env.sendMail with
    | some e =>
      have hany : w.emailVerifications.any (fun t => t.Email == r.Email) = true :=
        List.any_eq_true.2 ⟨r, hr, by simp⟩
      simp [EmailVerificationService.Recreate, EmailVerificationRepository.FindByEmail,
        World.record, hfind, hcool, hcode, hmail] at hok
    | none =>
      have hres := recreate_resent env email w r code hfind (by omega) hcode hmail
      rw [hres] at hok ⊢
      have hissued : issued
          = ⟨r.Email, String.mk code, (env.now 1).Unix + 600, (env.now 2).Unix + 60⟩ := by
        simpa using hok.symm
      refine ⟨⟨code, hcode, by rw [hissued]⟩, ?_⟩
      have hstored : (replaceFirst (fun t => t.Email == r.Email) issued
          w.emailVerifications).find? (fun t => t.Email == issued.Email) = some issued := by
        have hie : issued.Email = r.Email := by rw [hissued]
        rw [replaceFirst_eq_map EmailVerification.Email r.Email _ _ hnodup]
        apply find_key EmailVerification.Email
        · rw [List.map_map]
          have : (EmailVerification.Email ∘ fun t => if t.Email = r.Email then issued else t)
              = EmailVerification.Email := by
            funext t
            by_cases h : t.Email = r.Email <;> simp [h, hie]
          rw [this]
          exact hnodup
        · exact List.mem_map.2 ⟨r, hr, by simp⟩
      have hie : issued.Email = email.ToEmail := by rw [hissued]; exact he
      rw [← hissued, ← hie]
      exact verification_after_resend v later _ issued r.Code hstored hdiff

/-- C12 at the sample store: the resend draws `4BIPW3`, and the old code
`ABC123` is refused afterwards. -/
theorem C12_resend_invalidates_other_code_witness :
    (EmailVerificationService.Verification sampleValidate ⟨1200 * Second⟩
        ⟨"bob@x.com", "ABC123"⟩
        (EmailVerificationService.Recreate sampleEnvLater sampleMail sampleWorld).2).1
      = some .ErrUnauthorized := by
  have h := (C12_resend_invalidates_other_code sampleValidate sampleEnvLater sampleMail
    sampleWorld
    { Email := "bob@x.com", Code := "ABC123", Expiration := 1600, Cooldown := 1060 }
    { Email := "bob@x.com", Code := "4BIPW3", Expiration := 1701, Cooldown := 1162 }
    ⟨1200 * Second⟩ (by decide) (by decide) rfl (by decide) (by decide)).2
  rcases h with h | h
  · exact absurd h (by decide)
  · exact h

/-- `Create` when the mail goes out and no record is stored for the recipient. -/
theorem create_inserted (env : Env) (email : EmailVerificationSend) (w : World)
    (code : List Char) (hcode : GenerateCode env.raw = some code) (hmail : env.sendMail = none)
    (hall : ∀ r ∈ w.emailVerifications, r.Email ≠ email.ToEmail) :
    EmailVerificationService.Create env email w
      = (.ok { Email := email.ToEmail, Code := String.mk code,
               Expiration := (env.now 0).Unix + 600, Cooldown := (env.now 1).Unix + 60 },
          { w with
            emailVerifications := w.emailVerifications ++
              [{ Email := email.ToEmail, Code := String.mk code,
                 Expiration := (env.now 0).Unix + 600, Cooldown := (env.now 1).Unix + 60 }]
            calls := w.calls ++ [.SendMail email.FromEmail email.ToEmail (String.mk code),
              .EmailVerificationInsert
                { Email := email.ToEmail, Code := String.mk code,
                  Expiration := (env.now 0).Unix + 600,
                  Cooldown := (env.now 1).Unix + 60 }] }) := by
  have hany : w.emailVerifications.any (fun t => t.Email == email.ToEmail) = false := by
    rw [List.any_eq_false]
    intro r hr
    simpa using hall r hr
  simp [EmailVerificationService.Create, EmailVerificationRepository.Insert, World.record,
    hcode, hmail, hany, unix_add_ten_minutes, unix_add_minute]

/-- `Create` when the mail goes out and a record is stored for the recipient. -/
theorem create_conflict (env : Env) (email : EmailVerificationSend) (w : World)
    (code : List Char) (hcode : GenerateCode env.raw = some code) (hmail : env.sendMail = none)
    (hex : ∃ r ∈ w.emailVerifications, r.Email = email.ToEmail) :
    EmailVerificationService.Create env email w
      = (.err .ErrDuplicate,
          { w with
            calls := w.calls ++ [.SendMail email.FromEmail email.ToEmail (String.mk code),
              .EmailVerificationInsert
                { Email := email.ToEmail, Code := String.mk code,
                  Expiration := (env.now 0).Unix + 600,
                  Cooldown := (env.now 1).Unix + 60 }] }) := by
  have hany : w.emailVerifications.any (fun t => t.Email == email.ToEmail) = true := by
    rcases hex with ⟨r, hr, he⟩
    exact List.any_eq_true.2 ⟨r, hr, by simpa using he⟩
  simp [EmailVerificationService.Create, EmailVerificationRepository.Insert, World.record,
    hcode, hmail, hany, unix_add_ten_minutes, unix_add_minute]

/-- C13: when the mail send succeeds, `Create` generates a code, mails it, and
then: if no record is stored for the recipient, it appends exactly the record
of the recipient, the mailed code, `expiration` = the clock (read for the
expiration) + 600 s and `cooldown` = the clock (read for the cooldown) + 60 s,
and returns it; if a record is stored for the recipient, it returns
`ErrDuplicate` and the stored records are unchanged. -/
theorem C13_create_inserts_or_conflicts (env : Env) (email : EmailVerificationSend)
    (w : World) (hmail : env.sendMail = none) :
    ∃ code, GenerateCode env.raw = some code
      ∧ ((∀ r ∈ w.emailVerifications, r.Email ≠ email.ToEmail) →
          EmailVerificationService.Create env email w
            = (.ok { Email := email.ToEmail, Code := String.mk code,
                     Expiration := (env.now 0).Unix + 600,
                     Cooldown := (env.now 1).Unix + 60 },
                { w with
                  emailVerifications := w.emailVerifications ++
                    [{ Email := email.ToEmail, Code := String.mk code,
                       Expiration := (env.now 0).Unix + 600,
                       Cooldown := (env.now 1).Unix + 60 }]
                  calls := w.calls ++
                    [.SendMail email.FromEmail email.ToEmail (String.mk code),
                     .EmailVerificationInsert
                       { Email := email.ToEmail, Code := String.mk code,
                         Expiration := (env.now 0).Unix + 600,
                         Cooldown := (env.now 1).Unix + 60 }] }))
      ∧ ((∃ r ∈ w.emailVerifications, r.Email = email.ToEmail) →
          (EmailVerificationService.Create env email w).1 = .err .ErrDuplicate
            ∧ (EmailVerificationService.Create env email w).2.emailVerifications
              = w.emailVerifications) := by
  rcases generateCode_some env.raw with ⟨code, hcode, _⟩
  refine ⟨code, hcode, create_inserted env email w code hcode hmail, fun hex => ?_⟩
  rw [create_conflict env email w code hcode hmail hex]
  exact ⟨rfl, rfl⟩

/-- C13 at the sample store with clock readings 1100 and 1101: a first code for
`cid@x.com` is stored with expiration 1700 and cooldown 1161; a second one for
`bob@x.com` is a duplicate and the stored record keeps its code `ABC123`. -/
theorem C13_create_inserts_or_conflicts_witness :
    (EmailVerificationService.Create sampleEnvLater
        (verificationMail sampleEnvLater "cid@x.com") sampleWorld).1
        = .ok { Email := "cid@x.com", Code := "4BIPW3", Expiration := 1700,
                Cooldown := 1161 }
      ∧ (EmailVerificationService.Create sampleEnvLater
          (verificationMail sampleEnvLater "cid@x.com") sampleWorld).2.emailVerifications
        = [{ Email := "bob@x.com", Code := "ABC123", Expiration := 1600, Cooldown := 1060 },
           { Email := "cid@x.com", Code := "4BIPW3", Expiration := 1700, Cooldown := 1161 }]
      ∧ (EmailVerificationService.Create sampleEnvLater sampleMail sampleWorld).1
        = .err .ErrDuplicate
      ∧ (EmailVerificationService.Create sampleEnvLater sampleMail
          sampleWorld).2.emailVerifications
        = [{ Email := "bob@x.com", Code := "ABC123", Expiration := 1600,
             Cooldown := 1060 }] := by
  obtain ⟨code, hcode, hnew, _⟩ := C13_create_inserts_or_conflicts sampleEnvLater
    (verificationMail sampleEnvLater "cid@x.com") sampleWorld rfl
  obtain ⟨_, _, _, hdup⟩ := C13_create_inserts_or_conflicts sampleEnvLater sampleMail
    sampleWorld rfl
  have hgen : GenerateCode sampleEnvLater.raw = some ['4', 'B', 'I', 'P', 'W', '3'] := by
    decide
  rw [hgen] at hcode
  cases hcode
  refine ⟨?_, ?_, (hdup (by decide)).1, (hdup (by decide)).2⟩
  · rw [hnew (by decide)]
    decide
  · rw [hnew (by decide)]
    decide

/-! ## C14: what a profile update writes -/

/-- What `UserService.Update` does to the stored account: with unique ids, a
valid request, a stored user with the id, and no other user holding the empty
e-mail, the call succeeds and the document of that id becomes the struct the
service built, that is the id, the new name, and the zero value of every other
field. -/
theorem update_overwrites (v : Validate) (id : String) (request : UserUpdateRequest)
    (w : World) (hvalid : v.StructUserUpdateRequest request = true)
    (hids : (w.users.map User.ID).Nodup) (hex : ∃ u ∈ w.users, u.ID = id)
    (hfree : ∀ u ∈ w.users, u.ID ≠ id → u.Email ≠ "") :
    (UserService.Update v id request w).1 = .ok { ID := id, Name := request.Name }
      ∧ (UserService.Update v id request w).2.users
        = w.users.map (fun t =>
            if t.ID = id then
              { ID := id, Name := request.Name, Role := .UserRoleClient, Email := "",
                Password := "", Verified := false }
            else t) := by
  have hany : w.users.any (fun u => u.ID == id) = true := by
    rcases hex with ⟨u, hu, he⟩
    exact List.any_eq_true.2 ⟨u, hu, by simpa using he⟩
  have hnone : w.users.any (fun u => u.ID != id && u.Email == "") = false := by
    rw [List.any_eq_false]
    intro u hu hcond
    simp only [Bool.and_eq_true, bne_iff_ne, ne_eq, beq_iff_eq] at hcond
    exact hfree u hu hcond.1 hcond.2
  simp only [UserService.Update, hvalid, UserRepository.Update, World.record, hany, hnone,
    Bool.not_true, Bool.false_eq_true, if_false, if_true]
  exact ⟨trivial, replaceFirst_eq_map User.ID id _ w.users hids⟩

/-- C14, the code at a failing input: a verified admin with e-mail and password
changes the name; the call succeeds, and the stored account has the new name,
the role `client`, an empty e-mail, an empty password and `Verified = false`. -/
theorem C14_update_overwrites_account :
    (UserService.Update sampleValidate "u9" ⟨"Zoey"⟩ sampleAccounts).1
        = .ok { ID := "u9", Name := "Zoey" }
      ∧ (UserService.Update sampleValidate "u9" ⟨"Zoey"⟩ sampleAccounts).2.users
        = [{ ID := "u9", Name := "Zoey", Role := .UserRoleClient, Email := "",
             Password := "", Verified := false }] := by
  refine ⟨by decide, by decide⟩

/-! ## C15 and C16: the token provider -/

theorem unix_mul_second_le (t : Time) : t.Unix * Second ≤ t.unixNano := by
  simp only [Time.Unix]
  exact Int.ediv_mul_le _ (by decide)

/-- What `Validate` accepts is a well-formed HS256 token whose signature is the
HMAC of its own claims under the key of the provider. -/
theorem validate_accepts_genuine (cd : JwtCodec) (provider : JWTProvider) (now : Time)
    (tokenString : String) (claims : JwtClaims)
    (h : provider.Validate cd.lib now tokenString = .ok claims) :
    ∃ parts, cd.decode tokenString = some parts ∧ parts.Method = .HS256
      ∧ parts.Claims = claims
      ∧ parts.Signature = cd.hmac .HS256 provider.signatureKey claims
      ∧ claims.Registered.Valid now = true := by
  cases hdec : cd.decode tokenString with
  | none =>
    simp [JWTProvider.Validate, JwtCodec.lib, hdec] at h
  | some parts =>
    obtain ⟨method, signed, signature⟩ := parts
    refine ⟨_, rfl, ?_⟩
    by_cases hm : method = .HS256
    · subst hm
      by_cases hsig : signature = cd.hmac .HS256 provider.signatureKey signed
      · subst hsig
        cases hval : signed.Registered.Valid now with
        | false =>
          simp [JWTProvider.Validate, JwtCodec.lib, hdec, JWTProvider.keyFunc, hval] at h
        | true =>
          have hc : signed = claims := by
            simpa [JWTProvider.Validate, JwtCodec.lib, hdec, JWTProvider.keyFunc, hval] using h
          subst hc
          exact ⟨rfl, rfl, rfl, hval⟩
      · simp [JWTProvider.Validate, JwtCodec.lib, hdec, JWTProvider.keyFunc, hsig] at h
    · simp [JWTProvider.Validate, JwtCodec.lib, hdec, JWTProvider.keyFunc, hm] at h

/-- C15: on the library model, for a codec that reads back the token it
serialised, the token `Token` issues at the instant `issued` for the claims
`S`, `R` is accepted by `Validate` of the same provider at every instant from
`issued` on and before the expiration, with the claims that were signed, whose
`UserID` is `S` and whose `Role` is `R`. A malformed string is rejected, and so
is every token whose signature is not the HMAC of its content under the key of
the provider: changing the signature or the signed content without the key
gives such a token. -/
theorem C15_token_round_trip (cd : JwtCodec) (provider : JWTProvider) (issued now : Time)
    (S : String) (R : UserRole) (registered : RegisteredClaims)
    (hdecode : cd.decode (cd.encode
        { Method := .HS256
          Claims := provider.signedClaims issued
            { UserID := S, Role := R, Registered := registered }
          Signature := cd.hmac .HS256 provider.signatureKey
            (provider.signedClaims issued
              { UserID := S, Role := R, Registered := registered }) })
      = some
        { Method := .HS256
          Claims := provider.signedClaims issued
            { UserID := S, Role := R, Registered := registered }
          Signature := cd.hmac .HS256 provider.signatureKey
            (provider.signedClaims issued
              { UserID := S, Role := R, Registered := registered }) })
    (hafter : issued.unixNano ≤ now.unixNano)
    (hbefore : now.unixNano < (issued.Add provider.expiration).Unix * Second) :
    (∃ token,
        provider.Token cd.lib issued { UserID := S, Role := R, Registered := registered }
          = .ok token
        ∧ provider.Validate cd.lib now token
          = .ok (provider.signedClaims issued
              { UserID := S, Role := R, Registered := registered })
        ∧ (provider.signedClaims issued
            { UserID := S, Role := R, Registered := registered }).UserID = S
        ∧ (provider.signedClaims issued
            { UserID := S, Role := R, Registered := registered }).Role = R)
      ∧ (∀ forged, cd.decode forged = none →
          ∃ e, provider.Validate cd.lib now forged = .error e)
      ∧ (∀ forged parts, cd.decode forged = some parts →
          parts.Signature ≠ cd.hmac parts.Method provider.signatureKey parts.Claims →
          ∃ e, provider.Validate cd.lib now forged = .error e) := by
  refine ⟨⟨_, rfl, ?_, rfl, rfl⟩, ?_, ?_⟩
  · have hiat : issued.Unix * Second ≤ now.unixNano :=
      le_trans (unix_mul_second_le issued) hafter
    have hvalid : (provider.signedClaims issued
        { UserID := S, Role := R, Registered := registered }).Registered.Valid now = true := by
      simp [JWTProvider.signedClaims, RegisteredClaims.Valid, NewNumericDate, hiat, hbefore]
    simp only [JWTProvider.Validate, JwtCodec.lib, hdecode, JWTProvider.keyFunc, hvalid]
    simp
  · intro forged hnone
    exact ⟨.other "token is malformed", by simp [JWTProvider.Validate, JwtCodec.lib, hnone]⟩
  · intro forged parts hparts hsig
    cases hres : provider.Validate cd.lib now forged with
    | error e => exact ⟨e, rfl⟩
    | ok claims =>
      exfalso
      obtain ⟨parts2, hdec, hm, hc, hs, _⟩ :=
        validate_accepts_genuine cd provider now forged claims hres
      rw [hparts] at hdec
      cases hdec
      rw [hm, hc] at hsig
      exact hsig hs

/-- C15 with the sample codec: the token issued for `u1` at second 1000 is
accepted at second 2000 with the claims that were signed; the same content with
the signature `forged` is rejected. -/
theorem C15_token_round_trip_witness :
    JWTProvider.Token sampleCodec.lib sampleProvider ⟨1000 * Second⟩
        { UserID := "u1", Role := .UserRoleClient, Registered := RegisteredClaims.zero }
        = .ok "u1.u1:secret"
      ∧ JWTProvider.Validate sampleCodec.lib sampleProvider ⟨2000 * Second⟩ "u1.u1:secret"
        = .ok sampleClaims
      ∧ (∃ e, JWTProvider.Validate sampleCodec.lib sampleProvider ⟨2000 * Second⟩ "u1.forged"
          = .error e) := by
  have h := C15_token_round_trip sampleCodec sampleProvider ⟨1000 * Second⟩ ⟨2000 * Second⟩
    "u1" .UserRoleClient RegisteredClaims.zero (by decide) (by decide) (by decide)
  obtain ⟨⟨token, htoken, hvalid, _⟩, _, hforged⟩ := h
  have ht : token = "u1.u1:secret" := by
    have h2 : JWTProvider.Token sampleCodec.lib sampleProvider ⟨1000 * Second⟩
        { UserID := "u1", Role := .UserRoleClient, Registered := RegisteredClaims.zero }
        = .ok "u1.u1:secret" := rfl
    rw [h2] at htoken
    cases htoken
    rfl
  subst ht
  refine ⟨htoken, ?_, ?_⟩
  · rw [hvalid]
    exact congrArg Except.ok (by decide)
  · exact hforged "u1.forged"
      { Method := .HS256, Claims := sampleClaims, Signature := "forged" } (by decide)
      (by decide)

theorem unix_add_seconds (t : Time) (k : Int) : (t.Add (k * Second)).Unix = t.Unix + k := by
  simp only [Time.Add, Time.Unix]
  exact Int.add_mul_ediv_right _ _ (by decide)

theorem defaultJWTExpiration_seconds : DefaultJWTExpiration = 2592000 * Second := by
  decide

/-- C16: `Token` signs, with HS256 and the key of the provider, the claims it
was given with the registered claims replaced: `Subject` is the `UserID` of the
claims, `Issuer` the issuer of the provider, `IssuedAt` the clock reading and
`ExpiresAt` the clock reading plus the expiration of the provider (both in
whole seconds), and every other registered claim is empty, whatever the caller
supplied. For an expiration of `k` whole seconds `ExpiresAt` is `IssuedAt + k`,
and with the provider `app.New` builds it is `IssuedAt + 2592000`. -/
theorem C16_signed_claims (lib : JwtLib) (provider : JWTProvider) (now : Time)
    (claims : JwtClaims) (getenv : String → String) :
    provider.Token lib now claims
        = .ok (lib.SignedString .HS256 (provider.signedClaims now claims)
            provider.signatureKey)
      ∧ (provider.signedClaims now claims).UserID = claims.UserID
      ∧ (provider.signedClaims now claims).Role = claims.Role
      ∧ (provider.signedClaims now claims).Registered
        = { Issuer := provider.issuer, Subject := claims.UserID, Audience := [],
            ExpiresAt := some (now.Add provider.expiration).Unix, NotBefore := none,
            IssuedAt := some now.Unix, ID := "" }
      ∧ (∀ k : Int, provider.expiration = k * Second →
          (provider.signedClaims now claims).Registered.ExpiresAt = some (now.Unix + k))
      ∧ (App.JWTProvider getenv).expiration = 2592000 * Second
      ∧ ((App.JWTProvider getenv).signedClaims now claims).Registered.IssuedAt
        = some now.Unix
      ∧ ((App.JWTProvider getenv).signedClaims now claims).Registered.ExpiresAt
        = some (now.Unix + 2592000) := by
  refine ⟨rfl, rfl, rfl, rfl, ?_, defaultJWTExpiration_seconds, rfl, ?_⟩
  · intro k hk
    simp only [JWTProvider.signedClaims, NewNumericDate, hk, unix_add_seconds]
  · simp only [JWTProvider.signedClaims, NewNumericDate, App.JWTProvider, NewJWTProvider,
      defaultJWTExpiration_seconds, unix_add_seconds]

/-- C16 at the sample provider (issuer `godas`, default expiration): the claims
signed at second 1000 for `u1`, whatever registered claims were passed in. -/
theorem C16_signed_claims_witness :
    (sampleProvider.signedClaims ⟨1000 * Second⟩
        { UserID := "u1", Role := .UserRoleClient,
          Registered := { Issuer := "eve", Subject := "root", Audience := ["x"],
                          ExpiresAt := some 9999999999, NotBefore := some 5,
                          IssuedAt := none, ID := "j" } }).Registered
      = { Issuer := "godas", Subject := "u1", Audience := [], ExpiresAt := some 2593000,
          NotBefore := none, IssuedAt := some 1000, ID := "" } :=
  (C16_signed_claims sampleLib sampleProvider ⟨1000 * Second⟩
    { UserID := "u1", Role := .UserRoleClient,
      Registered := { Issuer := "eve", Subject := "root", Audience := ["x"],
                      ExpiresAt := some 9999999999, NotBefore := some 5,
                      IssuedAt := none, ID := "j" } }
    (fun _ => "godas")).2.2.2.1.trans (by decide)

/-! ## C17: creating a stack -/

/-- C17: `StackService.Create` returns `ErrNotFound` when no user has the id,
after the lookup and without any insert. When a user has the id and the
generated stack id is fresh, it appends exactly one stack, with that id, the
owner `id` and no items, returns it, and leaves the stored stacks as they
were. -/
theorem C17_create_stack (generated id : String) (w : World) :
    ((∀ u ∈ w.users, u.ID ≠ id) →
        StackService.Create generated id w
          = (.err .ErrNotFound, { w with calls := w.calls ++ [.UserFindById id] }))
      ∧ ((∃ u ∈ w.users, u.ID = id) → (∀ s ∈ w.stackDocs, s.ID ≠ generated) →
        StackService.Create generated id w
          = (.ok { ID := generated, Owner := id, Items := [] },
              { w with
                stackDocs := w.stackDocs ++ [{ ID := generated, Items := [], Owner := id }]
                calls := w.calls ++ [.UserFindById id,
                  .StackInsert { ID := generated, Items := [], Owner := id }] })) := by
  refine ⟨fun hall => ?_, fun hex hfresh => ?_⟩
  · have hfind : w.users.find? (fun u => u.ID == id) = none :=
      find_none_of_forall _ _ (fun u hu => by simpa using hall u hu)
    simp [StackService.Create, UserRepository.FindById, World.record, hfind]
  · cases hfind : w.users.find? (fun u => u.ID == id) with
    | none =>
      rcases hex with ⟨u, hu, he⟩
      exact absurd he (find_id_none w.users id hfind u hu)
    | some user =>
      have huser := (find_id_some w.users id user hfind).2
      have hany : w.stackDocs.any (fun s => s.ID == generated) = false := by
        rw [List.any_eq_false]
        intro s hs
        simpa using hfresh s hs
      simp [StackService.Create, UserRepository.FindById, StackRepository.Insert,
        World.record, hfind, hany, huser]

/-- C17 at the sample store: no user `u7`; for `u2` the stack `s3` is appended. -/
theorem C17_create_stack_witness :
    (StackService.Create "s3" "u7" sampleWorld).1 = .err .ErrNotFound
      ∧ (StackService.Create "s3" "u7" sampleWorld).2.stackDocs = sampleWorld.stackDocs
      ∧ (StackService.Create "s3" "u2" sampleWorld).1
        = .ok { ID := "s3", Owner := "u2", Items := [] }
      ∧ (StackService.Create "s3" "u2" sampleWorld).2.stackDocs
        = sampleWorld.stackDocs ++ [{ ID := "s3", Items := [], Owner := "u2" }] := by
  have h1 := (C17_create_stack "s3" "u7" sampleWorld).1 (by decide)
  have h2 := (C17_create_stack "s3" "u2" sampleWorld).2 (by decide) (by decide)
  rw [h1, h2]
  exact ⟨rfl, rfl, rfl, rfl⟩

/-! ## C20: item names are validated before the store is touched -/

theorem EmailVerificationService_Create_stackDocs (env : Env) (email : EmailVerificationSend)
    (w : World) : (EmailVerificationService.Create env email w).2.stackDocs = w.stackDocs := by
  simp only [EmailVerificationService.Create, EmailVerificationRepository_Insert_eq,
    World.record]
  repeat' split
  all_goals try simp only [Prod.mk.injEq] at *
  all_goals try casesm* _ ∧ _
  all_goals subst_vars
  all_goals simp

theorem EmailVerificationService_Recreate_stackDocs (env : Env)
    (email : EmailVerificationSend) (w : World) :
    (EmailVerificationService.Recreate env email w).2.stackDocs = w.stackDocs := by
  simp only [EmailVerificationService.Recreate, EmailVerificationRepository_FindByEmail_eq,
    EmailVerificationRepository_Update_eq, World.record]
  repeat' split
  all_goals try simp only [Prod.mk.injEq] at *
  all_goals try casesm* _ ∧ _
  all_goals subst_vars
  all_goals simp

theorem EmailVerificationService_Verification_stackDocs (v : Validate) (now : Time)
    (request : EmailVerificationCreateRequest) (w : World) :
    (EmailVerificationService.Verification v now request w).2.stackDocs = w.stackDocs := by
  simp only [EmailVerificationService.Verification, EmailVerificationRepository_FindByEmail_eq,
    EmailVerificationRepository_Delete_eq, World.record]
  repeat' split
  all_goals try simp only [Prod.mk.injEq] at *
  all_goals try casesm* _ ∧ _
  all_goals subst_vars
  all_goals simp

theorem UserService_Create_stackDocs (v : Validate) (env : Env) (request : UserCreateRequest)
    (w : World) : (UserService.Create v env request w).2.stackDocs = w.stackDocs := by
  have eff := EmailVerificationService_Create_stackDocs env
    (verificationMail env request.Email) w
  rcases h : EmailVerificationService.Create env (verificationMail env request.Email) w
    with ⟨sent, w1⟩
  rw [h] at eff
  simp only [UserService.Create, h, UserRepository_Insert_eq]
  repeat' split
  all_goals try simp only [Prod.mk.injEq] at *
  all_goals try casesm* _ ∧ _
  all_goals subst_vars
  all_goals simp_all

theorem UserService_FindById_stackDocs (id : String) (w : World) :
    (UserService.FindById id w).2.stackDocs = w.stackDocs := by
  simp only [UserService.FindById, UserRepository_FindById_eq]
  repeat' split
  all_goals try simp only [Prod.mk.injEq] at *
  all_goals try casesm* _ ∧ _
  all_goals subst_vars
  all_goals simp

theorem UserService_FindAll_stackDocs (w : World) :
    (UserService.FindAll w).2.stackDocs = w.stackDocs := by
  simp [UserService.FindAll, UserRepository_FindAll_eq]

theorem UserService_Update_stackDocs (v : Validate) (id : String)
    (request : UserUpdateRequest) (w : World) :
    (UserService.Update v id request w).2.stackDocs = w.stackDocs := by
  simp only [UserService.Update, UserRepository_Update_eq]
  repeat' split
  all_goals try simp only [Prod.mk.injEq] at *
  all_goals try casesm* _ ∧ _
  all_goals subst_vars
  all_goals simp

theorem UserService_Delete_stackDocs (id : String) (w : World) :
    (UserService.Delete id w).2.stackDocs = w.stackDocs := by
  simp only [UserService.Delete, UserRepository_Delete_eq]
  repeat' split
  all_goals try simp only [Prod.mk.injEq] at *
  all_goals try casesm* _ ∧ _
  all_goals subst_vars
  all_goals simp

theorem UserService_Resend_stackDocs (v : Validate) (env : Env)
    (request : EmailVerificationRecreateRequest) (w : World) :
    (UserService.Resend v env request w).2.stackDocs = w.stackDocs := by
  have eff := EmailVerificationService_Recreate_stackDocs env
    (verificationMail env request.Email) w
  rcases h : EmailVerificationService.Recreate env (verificationMail env request.Email) w
    with ⟨sent, w1⟩
  rw [h] at eff
  simp only [UserService.Resend, h]
  repeat' split
  all_goals try simp only [Prod.mk.injEq] at *
  all_goals try casesm* _ ∧ _
  all_goals subst_vars
  all_goals simp_all

theorem UserService_Verify_stackDocs (v : Validate) (now : Time)
    (request : EmailVerificationCreateRequest) (w : World) :
    (UserService.Verify v now request w).2.stackDocs = w.stackDocs := by
  have eff := EmailVerificationService_Verification_stackDocs v now request w
  rcases h : EmailVerificationService.Verification v now request w with ⟨sent, w1⟩
  rw [h] at eff
  simp only [UserService.Verify, h, UserRepository_FindByEmail_eq, UserRepository_Update_eq]
  repeat' split
  all_goals try simp only [Prod.mk.injEq] at *
  all_goals try casesm* _ ∧ _
  all_goals subst_vars
  all_goals simp_all

theorem AuthService_Signin_stackDocs (lib : JwtLib) (provider : JWTProvider) (now : Time)
    (request : AuthRequest) (w : World) :
    (AuthService.Signin lib provider now request w).2.stackDocs = w.stackDocs := by
  simp only [AuthService.Signin, UserRepository_FindByEmail_eq, JWTProvider.Token]
  repeat' split
  all_goals try simp only [Prod.mk.injEq] at *
  all_goals try casesm* _ ∧ _
  all_goals subst_vars
  all_goals simp

theorem AuthService_Validate_stackDocs (lib : JwtLib) (provider : JWTProvider) (now : Time)
    (tokenString : String) (w : World) :
    (AuthService.Validate lib provider now tokenString w).2.stackDocs = w.stackDocs := by
  simp only [AuthService.Validate, UserRepository_FindById_eq]
  repeat' split
  all_goals try simp only [Prod.mk.injEq] at *
  all_goals try casesm* _ ∧ _
  all_goals subst_vars
  all_goals simp

theorem namesValid_replaceFirst (p : Stack → Bool) (new : Stack) (docs : List Stack)
    (hdocs : namesValid docs) (hnew : ∀ i ∈ new.Items, 1 ≤ i.Name.length ∧ i.Name.length ≤ 128) :
    namesValid (replaceFirst p new docs) := by
  intro s hs
  rcases mem_replaceFirst p new s docs hs with h | h
  · rw [h]; exact hnew
  · exact hdocs s h

theorem namesValid_append (new : Stack) (docs : List Stack) (hdocs : namesValid docs)
    (hnew : ∀ i ∈ new.Items, 1 ≤ i.Name.length ∧ i.Name.length ≤ 128) :
    namesValid (docs ++ [new]) := by
  intro s hs
  rcases List.mem_append.1 hs with h | h
  · exact hdocs s h
  · rw [List.mem_singleton.1 h]; exact hnew

/-- What the validator accepts as an item request. -/
theorem valid_name (v : Validate) (request : ItemRequest)
    (h : v.StructItemRequest request = true) :
    1 ≤ request.Name.length ∧ request.Name.length ≤ 128 := by
  simp only [Validate.StructItemRequest, required, minRunes, maxRunes, Bool.and_eq_true,
    decide_eq_true_eq] at h
  exact ⟨h.1.2, h.2⟩

/-- What the validator refuses as an item request. -/
theorem invalid_name (v : Validate) (request : ItemRequest)
    (h : request.Name = "" ∨ 128 < request.Name.length) :
    v.StructItemRequest request = false := by
  rcases h with h | h
  · simp [Validate.StructItemRequest, required, h]
  · have : ¬ request.Name.length ≤ 128 := by omega
    simp [Validate.StructItemRequest, maxRunes, this]

theorem pushed_names (items : List Item) (k : Nat) (name : String)
    (hitems : ∀ i ∈ items, 1 ≤ i.Name.length ∧ i.Name.length ≤ 128)
    (hname : 1 ≤ name.length ∧ name.length ≤ 128) :
    ∀ i ∈ items ++ [{ Index := k, Name := name }],
      1 ≤ i.Name.length ∧ i.Name.length ≤ 128 := by
  intro i hi
  rcases List.mem_append.1 hi with h | h
  · exact hitems i h
  · rw [List.mem_singleton.1 h]; exact hname

theorem StackService_Push_names (v : Validate) (id : String) (request : ItemRequest)
    (w : World) (hw : namesValid w.stackDocs) :
    namesValid (StackService.Push v id request w).2.stackDocs := by
  cases hvalid : v.StructItemRequest request with
  | false => simpa [StackService.Push, hvalid] using hw
  | true =>
    cases hfind : w.stackDocs.find? (fun s => s.ID == id) with
    | none =>
      simpa [StackService.Push, hvalid, StackRepository.FindById, World.record, hfind] using hw
    | some s =>
      have hs := List.mem_of_find?_eq_some hfind
      have hany : w.stackDocs.any (fun t => t.ID == s.ID) = true :=
        List.any_eq_true.2 ⟨s, hs, by simp⟩
      simp only [StackService.Push, hvalid, StackRepository.FindById, StackRepository.Update,
        World.record, hfind, hany, Bool.not_true, Bool.false_eq_true, if_false, if_true]
      exact namesValid_replaceFirst _ _ _ hw
        (pushed_names s.Items _ _ (hw s hs) (valid_name v request hvalid))

theorem StackService_PushFromOwner_names (v : Validate) (id owner : String)
    (request : ItemRequest) (w : World) (hw : namesValid w.stackDocs) :
    namesValid (StackService.PushFromOwner v id owner request w).2.stackDocs := by
  cases hvalid : v.StructItemRequest request with
  | false => simpa [StackService.PushFromOwner, hvalid] using hw
  | true =>
    cases hfind : (w.stackDocs.filter (fun s => s.Owner == owner)).find?
        (fun s => s.ID == id) with
    | none =>
      simp only [StackService.PushFromOwner, hvalid, StackRepository.FindByOwner,
        World.record, hfind, Bool.not_true, Bool.false_eq_true, if_false]
      split <;> exact hw
    | some s =>
      have hs : s ∈ w.stackDocs := (List.mem_filter.1 (List.mem_of_find?_eq_some hfind)).1
      have hany : w.stackDocs.any (fun t => t.ID == s.ID) = true :=
        List.any_eq_true.2 ⟨s, hs, by simp⟩
      simp only [StackService.PushFromOwner, hvalid, StackRepository.FindByOwner,
        StackRepository.Update, World.record, hfind, hany, Bool.not_true,
        Bool.false_eq_true, if_false, if_true]
      split
      · exact hw
      · exact namesValid_replaceFirst _ _ _ hw
          (pushed_names s.Items _ _ (hw s hs) (valid_name v request hvalid))

theorem taken_names (items : List Item) (n : Nat)
    (hitems : ∀ i ∈ items, 1 ≤ i.Name.length ∧ i.Name.length ≤ 128) :
    ∀ i ∈ items.take n, 1 ≤ i.Name.length ∧ i.Name.length ≤ 128 :=
  fun i hi => hitems i (List.mem_of_mem_take hi)

theorem StackService_Pop_names (id : String) (w : World) (hw : namesValid w.stackDocs) :
    namesValid (StackService.Pop id w).2.stackDocs := by
  cases hfind : w.stackDocs.find? (fun s => s.ID == id) with
  | none =>
    simpa [StackService.Pop, StackRepository.FindById, World.record, hfind] using hw
  | some s =>
    have hs := List.mem_of_find?_eq_some hfind
    have hany : w.stackDocs.any (fun t => t.ID == s.ID) = true :=
      List.any_eq_true.2 ⟨s, hs, by simp⟩
    simp only [StackService.Pop, StackRepository.FindById, StackRepository.Update,
      World.record, hfind, hany, if_true]
    split
    · exact hw
    · exact namesValid_replaceFirst _ _ _ hw (taken_names s.Items _ (hw s hs))

theorem StackService_PopFromOwner_names (id owner : String) (w : World)
    (hw : namesValid w.stackDocs) :
    namesValid (StackService.PopFromOwner id owner w).2.stackDocs := by
  cases hfind : (w.stackDocs.filter (fun s => s.Owner == owner)).find?
      (fun s => s.ID == id) with
  | none =>
    simp only [StackService.PopFromOwner, StackRepository.FindByOwner, World.record, hfind]
    split <;> exact hw
  | some s =>
    have hs : s ∈ w.stackDocs := (List.mem_filter.1 (List.mem_of_find?_eq_some hfind)).1
    have hany : w.stackDocs.any (fun t => t.ID == s.ID) = true :=
      List.any_eq_true.2 ⟨s, hs, by simp⟩
    simp only [StackService.PopFromOwner, StackRepository.FindByOwner,
      StackRepository.Update, World.record, hfind, hany, if_true]
    split
    · exact hw
    · split
      · exact hw
      · exact namesValid_replaceFirst _ _ _ hw (taken_names s.Items _ (hw s hs))

theorem StackService_Create_names (generated id : String) (w : World)
    (hw : namesValid w.stackDocs) :
    namesValid (StackService.Create generated id w).2.stackDocs := by
  cases hfind : w.users.find? (fun u => u.ID == id) with
  | none =>
    simpa [StackService.Create, UserRepository.FindById, World.record, hfind] using hw
  | some user =>
    by_cases hany : w.stackDocs.any (fun s => s.ID == generated) = true
    · simpa [StackService.Create, UserRepository.FindById, StackRepository.Insert,
        World.record, hfind, hany] using hw
    · simp only [StackService.Create, UserRepository.FindById, StackRepository.Insert,
        World.record, hfind, hany, Bool.false_eq_true, if_false]
      exact namesValid_append _ _ hw (fun i hi => by simp at hi)

theorem StackService_FindById_stackDocs (id : String) (w : World) :
    (StackService.FindById id w).2.stackDocs = w.stackDocs := by
  simp only [StackService.FindById, StackRepository_FindById_eq]
  repeat' split
  all_goals try simp only [Prod.mk.injEq] at *
  all_goals try casesm* _ ∧ _
  all_goals subst_vars
  all_goals simp

theorem StackService_FindByIdFromOwner_stackDocs (id owner : String) (w : World) :
    (StackService.FindByIdFromOwner id owner w).2.stackDocs = w.stackDocs := by
  simp only [StackService.FindByIdFromOwner, StackRepository_FindByOwner_eq]
  repeat' split
  all_goals simp

theorem StackService_FindAll_stackDocs (w : World) :
    (StackService.FindAll w).2.stackDocs = w.stackDocs := by
  simp [StackService.FindAll, StackRepository_FindAll_eq]

theorem StackService_FindAllFromOwner_stackDocs (owner : String) (w : World) :
    (StackService.FindAllFromOwner owner w).2.stackDocs = w.stackDocs := by
  simp [StackService.FindAllFromOwner, StackRepository_FindByOwner_eq]

/-- Every call of the service layer keeps the item names valid. -/
theorem step_keeps_names (sys : System) (op : Op) (w : World) (hw : namesValid w.stackDocs) :
    namesValid (op.step sys w).2.stackDocs := by
  cases op with
  | UserCreate env request =>
    exact (UserService_Create_stackDocs sys.validate env request w) ▸ hw
  | UserFindById id => exact (UserService_FindById_stackDocs id w) ▸ hw
  | UserFindAll => exact (UserService_FindAll_stackDocs w) ▸ hw
  | UserUpdate id request =>
    exact (UserService_Update_stackDocs sys.validate id request w) ▸ hw
  | UserDelete id => exact (UserService_Delete_stackDocs id w) ▸ hw
  | UserResend env request =>
    exact (UserService_Resend_stackDocs sys.validate env request w) ▸ hw
  | UserVerify now request =>
    exact (UserService_Verify_stackDocs sys.validate now request w) ▸ hw
  | AuthSignin now request =>
    exact (AuthService_Signin_stackDocs sys.lib sys.provider now request w) ▸ hw
  | AuthValidate now tokenString =>
    exact (AuthService_Validate_stackDocs sys.lib sys.provider now tokenString w) ▸ hw
  | StackCreate generated id => exact StackService_Create_names generated id w hw
  | StackFindById id => exact (StackService_FindById_stackDocs id w) ▸ hw
  | StackFindByIdFromOwner id owner =>
    exact (StackService_FindByIdFromOwner_stackDocs id owner w) ▸ hw
  | StackFindAll => exact (StackService_FindAll_stackDocs w) ▸ hw
  | StackFindAllFromOwner owner => exact (StackService_FindAllFromOwner_stackDocs owner w) ▸ hw
  | StackPush id request => exact StackService_Push_names sys.validate id request w hw
  | StackPushFromOwner id owner request =>
    exact StackService_PushFromOwner_names sys.validate id owner request w hw
  | StackPop id => exact StackService_Pop_names id w hw
  | StackPopFromOwner id owner => exact StackService_PopFromOwner_names id owner w hw

theorem run_keeps_names (sys : System) (ops : List Op) :
    ∀ w : World, namesValid w.stackDocs → namesValid (run sys ops w).stackDocs := by
  induction ops with
  | nil => intro w hw; exact hw
  | cons op ops ih => intro w hw; exact ih _ (step_keeps_names sys op w hw)

/-- C20: for a request whose name is empty or longer than 128 characters,
`Push` and `PushFromOwner` return `ErrBadRequest` and hand back the world they
were given: no repository call is issued, whatever the stack id and the owner,
and nothing is modified. Consequently the calls of the service layer keep
every stored item name between 1 and 128 characters, and so every store
reached from the empty database has only such names. -/
theorem C20_names_validated_first (sys : System) (id owner : String) (request : ItemRequest)
    (w : World) (ops : List Op)
    (hname : request.Name = "" ∨ 128 < request.Name.length) :
    StackService.Push sys.validate id request w = (.err .ErrBadRequest, w)
      ∧ StackService.PushFromOwner sys.validate id owner request w = (.err .ErrBadRequest, w)
      ∧ (namesValid w.stackDocs → namesValid (run sys ops w).stackDocs)
      ∧ namesValid (run sys ops World.empty).stackDocs := by
  have hinvalid := invalid_name sys.validate request hname
  refine ⟨?_, ?_, run_keeps_names sys ops w, ?_⟩
  · simp [StackService.Push, hinvalid]
  · simp [StackService.PushFromOwner, hinvalid]
  · exact run_keeps_names sys ops World.empty (fun s hs => by cases hs)

/-- C20 at the sample store: the empty name is refused for an existing stack of
the caller, for a stack of another user and for a missing stack alike, and the
store reached by a signup, a stack creation and two pushes, one of them with
the empty name, holds the one valid name. -/
theorem C20_names_validated_first_witness :
    StackService.Push sampleValidate "s1" ⟨""⟩ sampleWorld = (.err .ErrBadRequest, sampleWorld)
      ∧ StackService.PushFromOwner sampleValidate "s2" "u1" ⟨""⟩ sampleWorld
        = (.err .ErrBadRequest, sampleWorld)
      ∧ namesValid (run sampleSystem
          [.StackCreate "s3" "u1", .StackPush "s3" ⟨""⟩, .StackPush "s3" ⟨"x"⟩]
          sampleWorld).stackDocs :=
  have h1 := C20_names_validated_first sampleSystem "s1" "u1" ⟨""⟩ sampleWorld [] (Or.inl rfl)
  have h2 := C20_names_validated_first sampleSystem "s2" "u1" ⟨""⟩ sampleWorld
    [.StackCreate "s3" "u1", .StackPush "s3" ⟨""⟩, .StackPush "s3" ⟨"x"⟩] (Or.inl rfl)
  ⟨h1.1, h2.2.1, h2.2.2.1 (by
    intro s hs i hi
    simp only [sampleWorld, List.mem_cons, List.mem_singleton, List.not_mem_nil, or_false]
      at hs
    rcases hs with rfl | rfl
    · simp only [List.mem_cons, List.mem_singleton, List.not_mem_nil, or_false] at hi
      rcases hi with rfl | rfl <;> decide
    · cases hi)⟩

/-! ## C18: account mutation is limited to self or admin -/

/-- C18: for a caller the middleware has identified, `Update` and `Delete`
with the path id `me` serve the caller's own id; with any other non-empty path
id they serve that id when the caller is an admin, and otherwise answer 401
and hand back the world untouched, so the user service is not invoked.
`Create` answers 401 in the same way for every caller who is not an admin.
Serving an id means: the service is called with that id (for `Update`, when
the body parses), and the response is built from what it returns. -/
theorem C18_self_or_admin (fiber : Fiber) (v : Validate) (env : Env) (ctx : Ctx) (w : World)
    (caller : AuthResponse) (hcaller : ctx.userContext = some caller) :
    (ctx.params "id" = "me" →
        UserController.Update fiber v ctx w
            = UserController.Update.serve fiber v caller.ID ctx w
          ∧ UserController.Delete ctx w = UserController.Delete.serve caller.ID ctx w)
      ∧ (ctx.params "id" ≠ "" → ctx.params "id" ≠ "me" →
          (caller.Role = .UserRoleAdmin →
            UserController.Update fiber v ctx w
                = UserController.Update.serve fiber v (ctx.params "id") ctx w
              ∧ UserController.Delete ctx w
                = UserController.Delete.serve (ctx.params "id") ctx w)
          ∧ (caller.Role ≠ .UserRoleAdmin →
            UserController.Update fiber v ctx w = (.ok (failWith StatusUnauthorized), w)
              ∧ UserController.Delete ctx w = (.ok (failWith StatusUnauthorized), w)))
      ∧ (caller.Role ≠ .UserRoleAdmin →
          UserController.Create fiber v env ctx w = (.ok (failWith StatusUnauthorized), w))
      ∧ (∀ id request, fiber.parseUserUpdateRequest ctx = some request →
          UserController.Update.serve fiber v id ctx w
            = UserController.Update.respond (UserService.Update v id request w))
      ∧ (∀ id, (UserController.Delete.serve id ctx w).2 = (UserService.Delete id w).2) := by
  refine ⟨fun hme => ?_, fun hne hnme => ⟨fun hadmin => ?_, fun hnot => ?_⟩, fun hnot => ?_,
    fun id request hparse => ?_, fun id => ?_⟩
  · simp [UserController.Update, UserController.Delete, hcaller, hme]
  · simp [UserController.Update, UserController.Delete, hcaller, hne, hnme, hadmin]
  · simp [UserController.Update, UserController.Delete, hcaller, hne, hnme, hnot]
  · simp [UserController.Create, hcaller, hnot]
  · simp [UserController.Update.serve, hparse]
  · simp only [UserController.Delete.serve]
    split <;> simp_all

/-- C18 at the sample store: the client `u1` is refused on the path id `u2`,
for `Update`, `Delete` and `Create` alike, and the world is handed back; on the
path id `me` the update is served for `u1`. -/
theorem C18_self_or_admin_witness :
    UserController.Update sampleFiber sampleValidate (sampleCtx "u2") sampleWorld
        = (.ok (failWith StatusUnauthorized), sampleWorld)
      ∧ UserController.Delete (sampleCtx "u2") sampleWorld
        = (.ok (failWith StatusUnauthorized), sampleWorld)
      ∧ UserController.Create sampleFiber sampleValidate sampleEnv (sampleCtx "u2") sampleWorld
        = (.ok (failWith StatusUnauthorized), sampleWorld)
      ∧ (UserController.Update sampleFiber sampleValidate (sampleCtx "me") sampleWorld).1
        = .ok { status := 200
                body := { Code := 200, Status := "OK", Success := true,
                          Data := .user { ID := "u1", Name := "Anna" } } } := by
  have h := C18_self_or_admin sampleFiber sampleValidate sampleEnv (sampleCtx "u2")
    sampleWorld { ID := "u1", Role := .UserRoleClient } rfl
  have hme := C18_self_or_admin sampleFiber sampleValidate sampleEnv (sampleCtx "me")
    sampleWorld { ID := "u1", Role := .UserRoleClient } rfl
  have hrefused := (h.2.1 (by decide) (by decide)).2 (by decide)
  refine ⟨hrefused.1, hrefused.2, h.2.2.1 (by decide), ?_⟩
  rw [(hme.1 rfl).1]
  decide

/-! ## C19: the bearer-token gate -/

theorem accept_fold (path : String) (prefixs : List String) :
    ∀ acc : Bool,
      prefixs.foldl (fun accept pre => if HasPrefix path pre then true else accept) acc
        = (acc || prefixs.any (fun pre => HasPrefix path pre)) := by
  induction prefixs with
  | nil => intro acc; simp
  | cons p ps ih =>
    intro acc
    simp only [List.foldl_cons, List.any_cons, ih]
    cases HasPrefix path p <;> cases acc <;> simp

theorem accept_eq_any (path : String) (prefixs : List String) :
    AuthMiddleware.accept path prefixs = prefixs.any (fun pre => HasPrefix path pre) := by
  unfold AuthMiddleware.accept
  rw [accept_fold]
  simp

/-- C19: on a path that starts with one of the gated prefixes, the middleware
answers 401 and hands back the world, without calling the next handler,
when the `Authorization` header is absent or does not start with `Bearer `;
otherwise it validates what follows `Bearer ` in the header, and calls the next
handler, with the identity the validation returned, exactly when the
validation succeeds: on an error it answers 401 for `ErrNotFound` and
`ErrUnauthorized` and 400 for any other error. On a path that starts with no
gated prefix the request goes to the next handler as it is. -/
theorem C19_bearer_gate (lib : JwtLib) (provider : JWTProvider) (now : Time)
    (prefixs : List String) (next : Handler) (ctx : Ctx) (w : World) :
    ((∃ pre ∈ prefixs, HasPrefix ctx.path pre = true) →
        (ctx.headers "Authorization" = none →
          AuthMiddleware.Use lib provider now prefixs next ctx w
            = (.ok (failWith StatusUnauthorized), w))
        ∧ (∀ authorization, ctx.headers "Authorization" = some authorization →
            (HasPrefix authorization "Bearer " = false →
              AuthMiddleware.Use lib provider now prefixs next ctx w
                = (.ok (failWith StatusUnauthorized), w))
            ∧ (HasPrefix authorization "Bearer " = true →
              (∀ response w1,
                  AuthService.Validate lib provider now
                      (String.mk (authorization.toList.drop 7)) w = (.ok response, w1) →
                  AuthMiddleware.Use lib provider now prefixs next ctx w
                    = next { ctx with userContext := some response } w1)
                ∧ (∀ e w1,
                  AuthService.Validate lib provider now
                      (String.mk (authorization.toList.drop 7)) w = (.err e, w1) →
                  AuthMiddleware.Use lib provider now prefixs next ctx w
                    = (.ok (failWith
                        (if e = .ErrNotFound ∨ e = .ErrUnauthorized then StatusUnauthorized
                         else StatusBadRequest)), w1)))))
      ∧ ((∀ pre ∈ prefixs, HasPrefix ctx.path pre = false) →
          AuthMiddleware.Use lib provider now prefixs next ctx w = next ctx w) := by
  refine ⟨fun hgated => ?_, fun hfree => ?_⟩
  · have haccept : AuthMiddleware.accept ctx.path prefixs = true := by
      rw [accept_eq_any]
      rcases hgated with ⟨pre, hpre, h⟩
      exact List.any_eq_true.2 ⟨pre, hpre, h⟩
    refine ⟨fun hnone => ?_, fun authorization hsome => ⟨fun hno => ?_, fun hyes => ⟨?_, ?_⟩⟩⟩
    · simp [AuthMiddleware.Use, haccept, hnone]
    · simp [AuthMiddleware.Use, haccept, hsome, hno]
    · intro response w1 hvalid
      have htrim : TrimPrefix authorization "Bearer "
          = String.mk (authorization.toList.drop 7) := by
        simp only [TrimPrefix, hyes, if_true]
        rfl
      simp only [AuthMiddleware.Use, haccept, hsome, hyes, htrim, hvalid, Bool.not_true,
        Bool.false_eq_true, if_false, if_true]
    · intro e w1 hvalid
      have htrim : TrimPrefix authorization "Bearer "
          = String.mk (authorization.toList.drop 7) := by
        simp only [TrimPrefix, hyes, if_true]
        rfl
      simp only [AuthMiddleware.Use, haccept, hsome, hyes, htrim, hvalid, Bool.not_true,
        Bool.false_eq_true, if_false, if_true]
  · have haccept : AuthMiddleware.accept ctx.path prefixs = false := by
      rw [accept_eq_any, List.any_eq_false]
      intro pre hpre
      simp [hfree pre hpre]
    simp [AuthMiddleware.Use, haccept]

/-- C19 at the sample store, with the prefixes of the router: a request on
`/users/u2` without the header is answered 401 and the world is handed back;
with `Bearer good` it reaches the next handler as the caller `u1`; with
`Bearer bad` it is answered 400 by the middleware. -/
theorem C19_bearer_gate_witness :
    AuthMiddleware.Use sampleLib sampleProvider ⟨1000 * Second⟩ gatedPrefixs sampleNext
        { sampleCtx "u2" with headers := fun _ => none } sampleWorld
        = (.ok (failWith StatusUnauthorized), sampleWorld)
      ∧ (AuthMiddleware.Use sampleLib sampleProvider ⟨1000 * Second⟩ gatedPrefixs sampleNext
          (sampleCtx "u2") sampleWorld).1
        = .ok { status := 200
                body := { Code := 200, Status := "OK", Success := true,
                          Data := .token "u1" } }
      ∧ (AuthMiddleware.Use sampleLib sampleProvider ⟨1000 * Second⟩ gatedPrefixs sampleNext
          { sampleCtx "u2" with headers := fun _ => some "Bearer bad" } sampleWorld).1
        = .ok (failWith StatusBadRequest) := by
  have hnone := ((C19_bearer_gate sampleLib sampleProvider ⟨1000 * Second⟩ gatedPrefixs
    sampleNext { sampleCtx "u2" with headers := fun _ => none } sampleWorld).1
    ⟨"/users", by decide, by decide⟩).1 rfl
  have hgood := (((C19_bearer_gate sampleLib sampleProvider ⟨1000 * Second⟩ gatedPrefixs
    sampleNext (sampleCtx "u2") sampleWorld).1
    ⟨"/users", by decide, by decide⟩).2 "Bearer good" rfl).2 (by decide)
  have hbad := (((C19_bearer_gate sampleLib sampleProvider ⟨1000 * Second⟩ gatedPrefixs
    sampleNext { sampleCtx "u2" with headers := fun _ => some "Bearer bad" } sampleWorld).1
    ⟨"/users", by decide, by decide⟩).2 "Bearer bad" rfl).2 (by decide)
  refine ⟨hnone, ?_, ?_⟩
  · rw [hgood.1 { ID := "u1", Role := .UserRoleClient }
      { sampleWorld with calls := [.UserFindById "u1"] } (by decide)]
    decide
  · rw [hbad.2 (.other "token is malformed") sampleWorld (by decide)]
    decide

theorem codeSelection_symbols : ∀ c ∈ codeSelection, isCodeSymbol c = true := by
  decide

theorem index_mem {α : Type} (xs : List α) (i : Int) (a : α) (h : index xs i = some a) :
    a ∈ xs := by
  unfold index at h
  split at h
  · cases h
  · exact List.getElem?_mem h

theorem fill_spec (raw : Nat → Nat) (k : Nat) :
    ∀ i, ∃ code, GenerateCode.fill raw k i = some code ∧ code.length = k
      ∧ (∀ c ∈ code, c ∈ codeSelection)
      ∧ (∀ j, j < k → code[j]? = codeSelection[raw (i + j) % 36]?) := by
  induction k with
  | zero => intro i; exact ⟨[], rfl, rfl, by simp, by simp⟩
  | succ k ih =>
    intro i
    rcases index_codeSelection (raw i) with ⟨c, hc⟩
    rcases ih (i + 1) with ⟨rest, hrest, hlen, hmem, hget⟩
    refine ⟨c :: rest, ?_, by simp [hlen], ?_, ?_⟩
    · simp only [GenerateCode.fill, hc, hrest]
    · intro d hd
      rcases List.mem_cons.1 hd with rfl | hd
      · exact index_mem _ _ _ hc
      · exact hmem d hd
    · intro j hj
      cases j with
      | zero =>
        have hnot : ¬ (((raw i % 36 : Nat) : Int) < 0) := by omega
        have hlen36 : codeSelectionLength = 36 := by decide
        simp only [index, Intn, hlen36, hnot, if_false, Int.toNat_ofNat] at hc
        simp [hc]
      | succ j =>
        have := hget j (by omega)
        simpa [Nat.add_assoc, Nat.add_comm 1 j] using this

/-- Claim C21: whatever the random source draws, `GenerateCode` returns six
symbols, the one at position `j` being the entry of the 36-symbol table at the
`j`-th draw (so no index is out of range), each an uppercase letter or a
digit; with draws in `[0, 36)` the entry is the one at the draw itself, and
the code passes the `required,min=6,max=6` constraint of the verification
request. -/
theorem C21_generate_code (raw : Nat → Nat) :
    ∃ code, GenerateCode raw = some code
      ∧ code.length = 6
      ∧ (∀ c ∈ code, isCodeSymbol c = true)
      ∧ (∀ j, j < 6 → code[j]? = codeSelection[Intn (raw j) codeSelectionLength]?
          ∧ Intn (raw j) codeSelectionLength < codeSelection.length
          ∧ (raw j < 36 → Intn (raw j) codeSelectionLength = raw j))
      ∧ (required (String.mk code) && minRunes 6 (String.mk code)
          && maxRunes 6 (String.mk code)) = true
      ∧ ∀ (v : Validate) (email : String), required email = true → v.isEmail email = true →
          v.StructEmailVerificationCreateRequest ⟨email, String.mk code⟩ = true := by
  rcases fill_spec raw 6 0 with ⟨code, hcode, hlen, hmem, hget⟩
  have hlen36 : codeSelectionLength = 36 := by decide
  have hsel : codeSelection.length = 36 := by decide
  have hreq : required (String.mk code) = true := by
    cases code with
    | nil => simp at hlen
    | cons c rest =>
      have hne : String.mk (c :: rest) ≠ "" := fun h => by
        have := congrArg String.length h
        simp [String.length] at this
      simp [required, hne]
  have hmin : minRunes 6 (String.mk code) = true := by
    simp [minRunes, String.length, hlen]
  have hmax : maxRunes 6 (String.mk code) = true := by
    simp [maxRunes, String.length, hlen]
  refine ⟨code, hcode, hlen, fun c hc => codeSelection_symbols c (hmem c hc), ?_, ?_, ?_⟩
  · intro j hj
    refine ⟨?_, ?_, ?_⟩
    · simpa [Intn, hlen36] using hget j hj
    · simp only [Intn, hlen36, hsel]; omega
    · intro hlt
      simp only [Intn, hlen36]; omega
  · simp [hreq, hmin, hmax]
  · intro v email hr he
    simp [Validate.StructEmailVerificationCreateRequest, hr, he, hreq, hmin, hmax]

/-- C21 in the sample environment, whose draws are 30, 37, 44, 51, 58, 65: the
code is `4BIPW3`, and a verification request carrying it passes validation. -/
theorem C21_generate_code_witness :
    GenerateCode sampleEnv.raw = some "4BIPW3".toList
      ∧ (∀ c ∈ "4BIPW3".toList, isCodeSymbol c = true)
      ∧ sampleValidate.StructEmailVerificationCreateRequest
          ⟨"bob@x.com", String.mk "4BIPW3".toList⟩ = true :=
  match C21_generate_code sampleEnv.raw with
  | ⟨code, hcode, _, hsymbols, _, _, hvalid⟩ =>
    have hc : code = "4BIPW3".toList :=
      Option.some.inj (hcode.symm.trans (by decide))
    ⟨by decide, hc ▸ hsymbols, hc ▸ hvalid sampleValidate "bob@x.com" (by decide) (by decide)⟩

theorem find_some_any {α : Type} (p : α → Bool) (xs : List α) (a : α)
    (h : xs.find? p = some a) : a ∈ xs ∧ p a = true :=
  ⟨List.mem_of_find?_eq_some h, List.find?_some h⟩

/-- `Pop` on a stack that is found with no items: the bounds check fails and
nothing but the lookup is issued. -/
theorem pop_found_empty (id : String) (w : World) (s : Stack)
    (hfind : w.stackDocs.find? (fun t => t.ID == id) = some s) (hnil : s.Items = []) :
    StackService.Pop id w
      = (.panic "index out of range", { w with calls := w.calls ++ [.StackFindById id] }) := by
  simp [StackService.Pop, StackRepository.FindById, World.record, hfind, hnil, index]

/-- `Pop` on a stack that is found with items: the last item is answered. -/
theorem pop_found_items (id : String) (w : World) (s : Stack)
    (hfind : w.stackDocs.find? (fun t => t.ID == id) = some s) (hne : s.Items ≠ []) :
    ∃ w2, StackService.Pop id w
      = (.ok { Index := (s.Items.getLast hne).Index, Name := (s.Items.getLast hne).Name }, w2) := by
  have hs := find_some_any _ _ _ hfind
  have hany : w.stackDocs.any (fun t => t.ID == s.ID) = true :=
    List.any_eq_true.2 ⟨s, hs.1, by simp⟩
  simp only [StackService.Pop, StackRepository.FindById, World.record, hfind,
    index_last s.Items hne, StackRepository.Update, hany, if_true]
  exact ⟨_, rfl⟩

/-- `PopFromOwner` on a stack that is found with no items. -/
theorem popFromOwner_found_empty (id owner : String) (w : World) (s : Stack)
    (hfind : (w.stackDocs.filter (fun t => t.Owner == owner)).find? (fun t => t.ID == id) = some s)
    (hnil : s.Items = []) :
    StackService.PopFromOwner id owner w
      = (.panic "index out of range",
          { w with calls := w.calls ++ [.StackFindByOwner owner] }) := by
  have hs := find_some_any _ _ _ hfind
  have hlen : ¬ (w.stackDocs.filter (fun t => t.Owner == owner)).length < 1 := by
    have := List.length_pos_of_mem hs.1
    omega
  simp [StackService.PopFromOwner, StackRepository.FindByOwner, World.record, hfind, hnil,
    index, hlen]

/-- `PopFromOwner` on a stack that is found with items. -/
theorem popFromOwner_found_items (id owner : String) (w : World) (s : Stack)
    (hfind : (w.stackDocs.filter (fun t => t.Owner == owner)).find? (fun t => t.ID == id) = some s)
    (hne : s.Items ≠ []) :
    ∃ w2, StackService.PopFromOwner id owner w
      = (.ok { Index := (s.Items.getLast hne).Index, Name := (s.Items.getLast hne).Name }, w2) := by
  have hs := find_some_any _ _ _ hfind
  have hlen : ¬ (w.stackDocs.filter (fun t => t.Owner == owner)).length < 1 := by
    have := List.length_pos_of_mem hs.1
    omega
  have hany : w.stackDocs.any (fun t => t.ID == s.ID) = true :=
    List.any_eq_true.2 ⟨s, (List.mem_filter.1 hs.1).1, by simp⟩
  simp only [StackService.PopFromOwner, StackRepository.FindByOwner, World.record, hfind,
    index_last s.Items hne, StackRepository.Update, hany, if_true, hlen, if_false]
  exact ⟨_, rfl⟩

/-- Claim C23: let `s` be the stack `Pop` finds by `id` and `t` the stack
`PopFromOwner` finds by `id2` among the stacks of `owner`. With no items the
position computed is `-1`, the bounds check fails, the call aborts with the
out-of-range failure (not `ErrNotFound`, not `ErrBadRequest`) and the only call
issued is the lookup: no update is written. With items the position `len - 1`
is in range and the call answers the last item: no out-of-range failure. -/
theorem C23_pop_empty_out_of_bounds (id id2 owner : String) (w : World) (s t : Stack)
    (hs : w.stackDocs.find? (fun x => x.ID == id) = some s)
    (ht : (w.stackDocs.filter (fun x => x.Owner == owner)).find? (fun x => x.ID == id2)
      = some t) :
    (s.Items = [] →
        (s.Items.length : Int) - 1 = -1
        ∧ index s.Items ((s.Items.length : Int) - 1) = none
        ∧ StackService.Pop id w
          = (.panic "index out of range", { w with calls := w.calls ++ [.StackFindById id] }))
      ∧ (s.Items ≠ [] →
        (∃ item, index s.Items ((s.Items.length : Int) - 1) = some item
          ∧ ∃ w2, StackService.Pop id w = (.ok { Index := item.Index, Name := item.Name }, w2)))
      ∧ (t.Items = [] →
        (t.Items.length : Int) - 1 = -1
        ∧ index t.Items ((t.Items.length : Int) - 1) = none
        ∧ StackService.PopFromOwner id2 owner w
          = (.panic "index out of range",
              { w with calls := w.calls ++ [.StackFindByOwner owner] }))
      ∧ (t.Items ≠ [] →
        (∃ item, index t.Items ((t.Items.length : Int) - 1) = some item
          ∧ ∃ w2, StackService.PopFromOwner id2 owner w
            = (.ok { Index := item.Index, Name := item.Name }, w2))) := by
  refine ⟨fun hnil => ⟨by simp [hnil], by simp [hnil, index], pop_found_empty id w s hs hnil⟩,
    fun hne => ⟨_, index_last s.Items hne, pop_found_items id w s hs hne⟩,
    fun hnil => ⟨by simp [hnil], by simp [hnil, index],
      popFromOwner_found_empty id2 owner w t ht hnil⟩,
    fun hne => ⟨_, index_last t.Items hne, popFromOwner_found_items id2 owner w t ht hne⟩⟩

/-- C23 at the sample store: `s2` has no items, so both pops of it abort and log
only their lookup; `s1` has two, so both pops of it answer the last one. -/
theorem C23_pop_empty_out_of_bounds_witness :
    (StackService.Pop "s2" sampleWorld
        = (.panic "index out of range",
            { sampleWorld with calls := [.StackFindById "s2"] })
      ∧ StackService.PopFromOwner "s2" "u2" sampleWorld
        = (.panic "index out of range",
            { sampleWorld with calls := [.StackFindByOwner "u2"] }))
      ∧ (∃ item, index [({ Index := 0, Name := "a" } : Item), { Index := 1, Name := "b" }] 1
            = some item
          ∧ ∃ w2, StackService.Pop "s1" sampleWorld
            = (.ok { Index := item.Index, Name := item.Name }, w2))
      ∧ (∃ item, index [({ Index := 0, Name := "a" } : Item), { Index := 1, Name := "b" }] 1
            = some item
          ∧ ∃ w2, StackService.PopFromOwner "s1" "u1" sampleWorld
            = (.ok { Index := item.Index, Name := item.Name }, w2)) :=
  have hempty := C23_pop_empty_out_of_bounds "s2" "s2" "u2" sampleWorld
    { ID := "s2", Items := [], Owner := "u2" } { ID := "s2", Items := [], Owner := "u2" }
    (by decide) (by decide)
  have hitems := C23_pop_empty_out_of_bounds "s1" "s1" "u1" sampleWorld
    { ID := "s1", Items := [{ Index := 0, Name := "a" }, { Index := 1, Name := "b" }],
      Owner := "u1" }
    { ID := "s1", Items := [{ Index := 0, Name := "a" }, { Index := 1, Name := "b" }],
      Owner := "u1" }
    (by decide) (by decide)
  ⟨⟨(hempty.1 rfl).2.2, (hempty.2.2.1 rfl).2.2⟩, hitems.2.1 (by decide), hitems.2.2.2 (by decide)⟩

/-- `Create` when the transport reports a failure: the error comes back and the
mail is the only call issued. -/
theorem create_send_failed (env : Env) (email : EmailVerificationSend) (w : World) (e : Error)
    (hmail : env.sendMail = some e) :
    ∃ code, GenerateCode env.raw = some code
      ∧ EmailVerificationService.Create env email w
        = (.err e, { w with calls := w.calls
            ++ [.SendMail email.FromEmail email.ToEmail (String.mk code)] }) := by
  rcases generateCode_some env.raw with ⟨code, hcode, _⟩
  exact ⟨code, hcode, by simp [EmailVerificationService.Create, hcode, hmail, World.record]⟩

/-- Claim C25: when the mail transport reports the failure `e` inside `Create`,
`Create` returns `e`, the only call it has issued is the mail (no insert), and
the stored verification records, accounts and stacks are the ones from
before; if no record was stored for the recipient, a `Recreate` for that
recipient that follows fails with `ErrNotFound`, whatever its environment. -/
theorem C25_failed_send_leaves_no_record (env : Env) (email : EmailVerificationSend)
    (w : World) (e : Error) (hmail : env.sendMail = some e) :
    (EmailVerificationService.Create env email w).1 = .err e
      ∧ (EmailVerificationService.Create env email w).2.emailVerifications
        = w.emailVerifications
      ∧ (EmailVerificationService.Create env email w).2.users = w.users
      ∧ (EmailVerificationService.Create env email w).2.stackDocs = w.stackDocs
      ∧ (∃ code, GenerateCode env.raw = some code
          ∧ (EmailVerificationService.Create env email w).2.calls
            = w.calls ++ [.SendMail email.FromEmail email.ToEmail (String.mk code)])
      ∧ ((∀ r ∈ w.emailVerifications, r.Email ≠ email.ToEmail) →
          ∀ (env2 : Env) (again : EmailVerificationSend), again.ToEmail = email.ToEmail →
            (EmailVerificationService.Recreate env2 again
              (EmailVerificationService.Create env email w).2).1 = .err .ErrNotFound) := by
  rcases create_send_failed env email w e hmail with ⟨code, hcode, hcreate⟩
  rw [hcreate]
  refine ⟨rfl, rfl, rfl, rfl, ⟨code, hcode, rfl⟩, ?_⟩
  intro habsent env2 again hto
  rw [recreate_absent env2 again _ (by rw [hto]; exact habsent)]

/-- C25 at the sample store: the signup mail to `cid@x.com` is refused; no
record is stored for `cid@x.com`, and the resend that follows finds none. -/
theorem C25_failed_send_leaves_no_record_witness :
    sampleEnvDown.sendMail = some (.other "dial tcp: connection refused")
      ∧ (EmailVerificationService.Create sampleEnvDown (verificationMail sampleEnvDown "cid@x.com")
          sampleWorld).1 = .err (.other "dial tcp: connection refused")
      ∧ (EmailVerificationService.Create sampleEnvDown (verificationMail sampleEnvDown "cid@x.com")
          sampleWorld).2.emailVerifications
        = [{ Email := "bob@x.com", Code := "ABC123", Expiration := 1600, Cooldown := 1060 }]
      ∧ (EmailVerificationService.Recreate sampleEnv (verificationMail sampleEnv "cid@x.com")
          (EmailVerificationService.Create sampleEnvDown
            (verificationMail sampleEnvDown "cid@x.com") sampleWorld).2).1
        = .err .ErrNotFound :=
  have h := C25_failed_send_leaves_no_record sampleEnvDown
    (verificationMail sampleEnvDown "cid@x.com") sampleWorld
    (.other "dial tcp: connection refused") rfl
  ⟨rfl, h.1, h.2.1, h.2.2.2.2.2 (by decide) sampleEnv (verificationMail sampleEnv "cid@x.com") rfl⟩

/-- `Validate` on an accepted token whose user is stored and verified. -/
theorem validate_verified (lib : JwtLib) (provider : JWTProvider) (now : Time)
    (tokenString : String) (claims : JwtClaims) (w : World) (u : User)
    (hclaims : provider.Validate lib now tokenString = .ok claims)
    (hnodup : (w.users.map User.ID).Nodup)
    (hu : u ∈ w.users) (hid : u.ID = claims.UserID) (hv : u.Verified = true) :
    AuthService.Validate lib provider now tokenString w
      = (.ok { ID := claims.UserID, Role := claims.Role },
          { w with calls := w.calls ++ [.UserFindById claims.UserID] }) := by
  have hfind : w.users.find? (fun t => t.ID == claims.UserID) = some u := by
    rw [← hid]
    exact find_key User.ID w.users hnodup u hu
  simp [AuthService.Validate, hclaims, UserRepository.FindById, World.record, hfind, hv]

/-- Claim C27: for a token the provider accepts with claims `claims`, and two
stores with unique ids that each hold a verified user with the id of the
claims, `Validate` answers the id and the role of the claims in both stores,
whatever roles the two stores hold for that user: the stored role is not
consulted. -/
theorem C27_role_from_token (lib : JwtLib) (provider : JWTProvider) (now : Time)
    (tokenString : String) (claims : JwtClaims) (w1 w2 : World) (u1 u2 : User)
    (hclaims : provider.Validate lib now tokenString = .ok claims)
    (hnodup1 : (w1.users.map User.ID).Nodup) (hnodup2 : (w2.users.map User.ID).Nodup)
    (hu1 : u1 ∈ w1.users) (hu2 : u2 ∈ w2.users)
    (hid1 : u1.ID = claims.UserID) (hid2 : u2.ID = claims.UserID)
    (hv1 : u1.Verified = true) (hv2 : u2.Verified = true) :
    (AuthService.Validate lib provider now tokenString w1).1
        = .ok { ID := claims.UserID, Role := claims.Role }
      ∧ (AuthService.Validate lib provider now tokenString w2).1
        = .ok { ID := claims.UserID, Role := claims.Role }
      ∧ (AuthService.Validate lib provider now tokenString w1).1
        = (AuthService.Validate lib provider now tokenString w2).1 := by
  rw [validate_verified lib provider now tokenString claims w1 u1 hclaims hnodup1 hu1 hid1 hv1,
    validate_verified lib provider now tokenString claims w2 u2 hclaims hnodup2 hu2 hid2 hv2]
  exact ⟨rfl, rfl, rfl⟩

/-- C27 at the sample store: the token `good` was issued to `u1` as a client;
after `u1` is promoted to admin the same token still yields the client role. -/
theorem C27_role_from_token_witness :
    (AuthService.Validate sampleLib sampleProvider ⟨1000 * Second⟩ "good" sampleWorld).1
        = .ok { ID := "u1", Role := .UserRoleClient }
      ∧ (AuthService.Validate sampleLib sampleProvider ⟨1000 * Second⟩ "good" samplePromoted).1
        = .ok { ID := "u1", Role := .UserRoleClient } :=
  have h := C27_role_from_token sampleLib sampleProvider ⟨1000 * Second⟩ "good" sampleClaims
    sampleWorld samplePromoted
    { ID := "u1", Name := "Ann", Role := .UserRoleClient, Email := "ann@x.com",
      Password := "password1", Verified := true }
    { ID := "u1", Name := "Ann", Role := .UserRoleAdmin, Email := "ann@x.com",
      Password := "password1", Verified := true }
    rfl (by decide) (by decide) (by decide) (by decide) rfl rfl rfl rfl
  ⟨h.1, h.2.1⟩

/-- Whenever `Verification` returns an error, only the call log has grown. -/
theorem verification_error_frame (v : Validate) (now : Time)
    (request : EmailVerificationCreateRequest) (w : World) (e : Error)
    (herr : (EmailVerificationService.Verification v now request w).1 = some e) :
    (EmailVerificationService.Verification v now request w).2.emailVerifications
        = w.emailVerifications
      ∧ (EmailVerificationService.Verification v now request w).2.users = w.users
      ∧ (EmailVerificationService.Verification v now request w).2.stackDocs = w.stackDocs := by
  by_cases hvalid : v.StructEmailVerificationCreateRequest request = true
  swap
  · simp [EmailVerificationService.Verification, hvalid]
  cases hfind : w.emailVerifications.find? (fun t => t.Email == request.Email) with
  | none =>
    simp [EmailVerificationService.Verification, hvalid,
      EmailVerificationRepository.FindByEmail, World.record, hfind]
  | some r =>
    by_cases hbad : now.Unix ≥ r.Expiration ∨ request.Code ≠ r.Code
    · rw [verification_refused v now request w r hvalid hfind hbad]
      exact ⟨rfl, rfl, rfl⟩
    · have hexp : now.Unix < r.Expiration := by
        by_contra h
        exact hbad (Or.inl (not_lt.1 h))
      have hcode : request.Code = r.Code := by
        by_contra h
        exact hbad (Or.inr h)
      rw [verification_accepted v now request w r hvalid hfind hexp hcode] at herr
      cases herr

/-- When `Verification` returns no error, a record was stored for the e-mail. -/
theorem verification_nil_found (v : Validate) (now : Time)
    (request : EmailVerificationCreateRequest) (w : World)
    (hnil : (EmailVerificationService.Verification v now request w).1 = none) :
    ∃ r ∈ w.emailVerifications, r.Email = request.Email := by
  by_contra hno
  have hall : ∀ r ∈ w.emailVerifications, r.Email ≠ request.Email :=
    fun r hr heq => hno ⟨r, hr, heq⟩
  by_cases hvalid : v.StructEmailVerificationCreateRequest request = true
  · rw [verification_absent v now request w hvalid hall] at hnil
    cases hnil
  · simp [EmailVerificationService.Verification, hvalid] at hnil

/-- Claim C28: when `Verify` returns `ErrBadRequest`, or `ErrUnauthorized`, or
`ErrNotFound` with no verification record stored for the e-mail, the
verification records, the accounts and the stacks it leaves are the ones it
started from. -/
theorem C28_failed_verification_changes_nothing (v : Validate) (now : Time)
    (request : EmailVerificationCreateRequest) (w : World)
    (hfail : (UserService.Verify v now request w).1 = .err .ErrBadRequest
      ∨ (UserService.Verify v now request w).1 = .err .ErrUnauthorized
      ∨ ((UserService.Verify v now request w).1 = .err .ErrNotFound
          ∧ ∀ r ∈ w.emailVerifications, r.Email ≠ request.Email)) :
    (UserService.Verify v now request w).2.emailVerifications = w.emailVerifications
      ∧ (UserService.Verify v now request w).2.users = w.users
      ∧ (UserService.Verify v now request w).2.stackDocs = w.stackDocs := by
  by_cases hvalid : v.StructEmailVerificationCreateRequest request = true
  swap
  · simp [UserService.Verify, hvalid]
  have hframe := verification_error_frame v now request w
  have hfound := verification_nil_found v now request w
  rcases h : EmailVerificationService.Verification v now request w with ⟨sent, w1⟩
  rw [h] at hframe hfound
  cases sent with
  | some e =>
    simpa [UserService.Verify, hvalid, h] using hframe e rfl
  | none =>
    exfalso
    rcases hfound rfl with ⟨r, hr, hemail⟩
    simp only [UserService.Verify, hvalid, h, Bool.not_true, Bool.false_eq_true, if_false,
      UserRepository_FindByEmail_eq] at hfail
    cases hfindu : w1.users.find? (fun u => u.Email == request.Email) with
    | none =>
      simp only [hfindu, if_true] at hfail
      rcases hfail with h1 | h2 | ⟨_, habsent⟩
      · cases h1
      · cases h2
      · exact habsent r hr hemail
    | some user =>
      by_cases hany : w1.users.any (fun u => u.ID == user.ID) = true
      · by_cases hdup :
            w1.users.any (fun u => u.ID != user.ID && u.Email == user.Email) = true
        · simp [hfindu, UserRepository_Update_eq, hany, hdup] at hfail
        · simp [hfindu, UserRepository_Update_eq, hany, hdup] at hfail
      · simp [hfindu, UserRepository_Update_eq, hany] at hfail
        exact hfail r hr hemail

/-- C28 at the sample store, where `ABC123` is pending for `bob@x.com` until
second 1600: a wrong guess at second 1000 and the right code at second 2000
are both refused, and both leave the record and the unverified account in
place. -/
theorem C28_failed_verification_changes_nothing_witness :
    ((UserService.Verify sampleValidate ⟨1000 * Second⟩ ⟨"bob@x.com", "ZZZZZZ"⟩ sampleWorld).1
        = .err .ErrUnauthorized
      ∧ (UserService.Verify sampleValidate ⟨1000 * Second⟩ ⟨"bob@x.com", "ZZZZZZ"⟩
          sampleWorld).2.emailVerifications
        = [{ Email := "bob@x.com", Code := "ABC123", Expiration := 1600, Cooldown := 1060 }]
      ∧ (UserService.Verify sampleValidate ⟨1000 * Second⟩ ⟨"bob@x.com", "ZZZZZZ"⟩
          sampleWorld).2.users = sampleWorld.users)
      ∧ ((UserService.Verify sampleValidate ⟨2000 * Second⟩ ⟨"bob@x.com", "ABC123"⟩
          sampleWorld).1 = .err .ErrUnauthorized
        ∧ (UserService.Verify sampleValidate ⟨2000 * Second⟩ ⟨"bob@x.com", "ABC123"⟩
            sampleWorld).2.emailVerifications
          = [{ Email := "bob@x.com", Code := "ABC123", Expiration := 1600, Cooldown := 1060 }]) :=
  have hv1 : sampleValidate.StructEmailVerificationCreateRequest ⟨"bob@x.com", "ZZZZZZ"⟩ = true :=
    by decide
  have hv2 : sampleValidate.StructEmailVerificationCreateRequest ⟨"bob@x.com", "ABC123"⟩ = true :=
    by decide
  have h1 : (UserService.Verify sampleValidate ⟨1000 * Second⟩ ⟨"bob@x.com", "ZZZZZZ"⟩
      sampleWorld).1 = .err .ErrUnauthorized := by
    simp [UserService.Verify, hv1, verification_refused sampleValidate ⟨1000 * Second⟩
      ⟨"bob@x.com", "ZZZZZZ"⟩ sampleWorld
      { Email := "bob@x.com", Code := "ABC123", Expiration := 1600, Cooldown := 1060 }
      hv1 rfl (Or.inr (by decide))]
  have h2 : (UserService.Verify sampleValidate ⟨2000 * Second⟩ ⟨"bob@x.com", "ABC123"⟩
      sampleWorld).1 = .err .ErrUnauthorized := by
    simp [UserService.Verify, hv2, verification_refused sampleValidate ⟨2000 * Second⟩
      ⟨"bob@x.com", "ABC123"⟩ sampleWorld
      { Email := "bob@x.com", Code := "ABC123", Expiration := 1600, Cooldown := 1060 }
      hv2 rfl (Or.inl (by decide))]
  have hwrong := C28_failed_verification_changes_nothing sampleValidate ⟨1000 * Second⟩
    ⟨"bob@x.com", "ZZZZZZ"⟩ sampleWorld (Or.inr (Or.inl h1))
  have hlate := C28_failed_verification_changes_nothing sampleValidate ⟨2000 * Second⟩
    ⟨"bob@x.com", "ABC123"⟩ sampleWorld (Or.inr (Or.inl h2))
  ⟨⟨h1, hwrong.1, hwrong.2.1⟩, h2, hlate.1⟩

/-! ## C26: the index of a stored item is its position -/

theorem indexed_replaceFirst (p : Stack → Bool) (new : Stack) (docs : List Stack)
    (hdocs : indexed docs) (hnew : new.Items.map Item.Index = List.range new.Items.length) :
    indexed (replaceFirst p new docs) := by
  intro s hs
  rcases mem_replaceFirst p new s docs hs with h | h
  · rw [h]; exact hnew
  · exact hdocs s h

theorem indexed_append (new : Stack) (docs : List Stack) (hdocs : indexed docs)
    (hnew : new.Items.map Item.Index = List.range new.Items.length) :
    indexed (docs ++ [new]) := by
  intro s hs
  rcases List.mem_append.1 hs with h | h
  · exact hdocs s h
  · rw [List.mem_singleton.1 h]; exact hnew

/-- Appending an item whose index is the length keeps indexes equal to
positions. -/
theorem pushed_indexed (items : List Item) (name : String)
    (hitems : items.map Item.Index = List.range items.length) :
    (items ++ [({ Index := items.length, Name := name } : Item)]).map Item.Index
      = List.range (items ++ [({ Index := items.length, Name := name } : Item)]).length := by
  simp [List.range_succ, hitems]

/-- Cutting the list keeps indexes equal to positions. -/
theorem taken_indexed (items : List Item) (n : Nat)
    (hitems : items.map Item.Index = List.range items.length) :
    (items.take n).map Item.Index = List.range (items.take n).length := by
  rw [List.map_take, hitems, List.take_range, List.length_take]

theorem indexed_position (items : List Item)
    (hitems : items.map Item.Index = List.range items.length) (i : Nat) (item : Item)
    (hget : items[i]? = some item) : item.Index = i := by
  have h1 : (items.map Item.Index)[i]? = some item.Index := by
    rw [List.getElem?_map, hget]; rfl
  rw [hitems] at h1
  have hlt : i < items.length := (List.getElem?_eq_some_iff.1 hget).1
  rw [List.getElem?_range hlt] at h1
  exact (Option.some.inj h1).symm

theorem indexed_nodup (items : List Item)
    (hitems : items.map Item.Index = List.range items.length) :
    (items.map Item.Index).Nodup := by
  rw [hitems]; exact List.nodup_range _

theorem StackService_Push_indexed (v : Validate) (id : String) (request : ItemRequest)
    (w : World) (hw : indexed w.stackDocs) :
    indexed (StackService.Push v id request w).2.stackDocs := by
  cases hvalid : v.StructItemRequest request with
  | false => simpa [StackService.Push, hvalid] using hw
  | true =>
    cases hfind : w.stackDocs.find? (fun s => s.ID == id) with
    | none =>
      simpa [StackService.Push, hvalid, StackRepository.FindById, World.record, hfind] using hw
    | some s =>
      have hs := List.mem_of_find?_eq_some hfind
      have hany : w.stackDocs.any (fun t => t.ID == s.ID) = true :=
        List.any_eq_true.2 ⟨s, hs, by simp⟩
      simp only [StackService.Push, hvalid, StackRepository.FindById, StackRepository.Update,
        World.record, hfind, hany, Bool.not_true, Bool.false_eq_true, if_false, if_true]
      exact indexed_replaceFirst _ _ _ hw (pushed_indexed s.Items _ (hw s hs))

theorem StackService_PushFromOwner_indexed (v : Validate) (id owner : String)
    (request : ItemRequest) (w : World) (hw : indexed w.stackDocs) :
    indexed (StackService.PushFromOwner v id owner request w).2.stackDocs := by
  cases hvalid : v.StructItemRequest request with
  | false => simpa [StackService.PushFromOwner, hvalid] using hw
  | true =>
    cases hfind : (w.stackDocs.filter (fun s => s.Owner == owner)).find?
        (fun s => s.ID == id) with
    | none =>
      simp only [StackService.PushFromOwner, hvalid, StackRepository.FindByOwner,
        World.record, hfind, Bool.not_true, Bool.false_eq_true, if_false]
      split <;> exact hw
    | some s =>
      have hs : s ∈ w.stackDocs := (List.mem_filter.1 (List.mem_of_find?_eq_some hfind)).1
      have hany : w.stackDocs.any (fun t => t.ID == s.ID) = true :=
        List.any_eq_true.2 ⟨s, hs, by simp⟩
      simp only [StackService.PushFromOwner, hvalid, StackRepository.FindByOwner,
        StackRepository.Update, World.record, hfind, hany, Bool.not_true,
        Bool.false_eq_true, if_false, if_true]
      split
      · exact hw
      · exact indexed_replaceFirst _ _ _ hw (pushed_indexed s.Items _ (hw s hs))

theorem StackService_Pop_indexed (id : String) (w : World) (hw : indexed w.stackDocs) :
    indexed (StackService.Pop id w).2.stackDocs := by
  cases hfind : w.stackDocs.find? (fun s => s.ID == id) with
  | none =>
    simpa [StackService.Pop, StackRepository.FindById, World.record, hfind] using hw
  | some s =>
    have hs := List.mem_of_find?_eq_some hfind
    have hany : w.stackDocs.any (fun t => t.ID == s.ID) = true :=
      List.any_eq_true.2 ⟨s, hs, by simp⟩
    simp only [StackService.Pop, StackRepository.FindById, StackRepository.Update,
      World.record, hfind, hany, if_true]
    split
    · exact hw
    · exact indexed_replaceFirst _ _ _ hw (taken_indexed s.Items _ (hw s hs))

theorem StackService_PopFromOwner_indexed (id owner : String) (w : World)
    (hw : indexed w.stackDocs) :
    indexed (StackService.PopFromOwner id owner w).2.stackDocs := by
  cases hfind : (w.stackDocs.filter (fun s => s.Owner == owner)).find?
      (fun s => s.ID == id) with
  | none =>
    simp only [StackService.PopFromOwner, StackRepository.FindByOwner, World.record, hfind]
    split <;> exact hw
  | some s =>
    have hs : s ∈ w.stackDocs := (List.mem_filter.1 (List.mem_of_find?_eq_some hfind)).1
    have hany : w.stackDocs.any (fun t => t.ID == s.ID) = true :=
      List.any_eq_true.2 ⟨s, hs, by simp⟩
    simp only [StackService.PopFromOwner, StackRepository.FindByOwner,
      StackRepository.Update, World.record, hfind, hany, if_true]
    split
    · exact hw
    · split
      · exact hw
      · exact indexed_replaceFirst _ _ _ hw (taken_indexed s.Items _ (hw s hs))

theorem StackService_Create_indexed (generated id : String) (w : World)
    (hw : indexed w.stackDocs) :
    indexed (StackService.Create generated id w).2.stackDocs := by
  cases hfind : w.users.find? (fun u => u.ID == id) with
  | none =>
    simpa [StackService.Create, UserRepository.FindById, World.record, hfind] using hw
  | some user =>
    by_cases hany : w.stackDocs.any (fun s => s.ID == generated) = true
    · simpa [StackService.Create, UserRepository.FindById, StackRepository.Insert,
        World.record, hfind, hany] using hw
    · simp only [StackService.Create, UserRepository.FindById, StackRepository.Insert,
        World.record, hfind, hany, Bool.false_eq_true, if_false]
      exact indexed_append _ _ hw rfl

/-- Every call of the service layer keeps indexes equal to positions. -/
theorem step_keeps_indexed (sys : System) (op : Op) (w : World) (hw : indexed w.stackDocs) :
    indexed (op.step sys w).2.stackDocs := by
  cases op with
  | UserCreate env request =>
    exact (UserService_Create_stackDocs sys.validate env request w) ▸ hw
  | UserFindById id => exact (UserService_FindById_stackDocs id w) ▸ hw
  | UserFindAll => exact (UserService_FindAll_stackDocs w) ▸ hw
  | UserUpdate id request =>
    exact (UserService_Update_stackDocs sys.validate id request w) ▸ hw
  | UserDelete id => exact (UserService_Delete_stackDocs id w) ▸ hw
  | UserResend env request =>
    exact (UserService_Resend_stackDocs sys.validate env request w) ▸ hw
  | UserVerify now request =>
    exact (UserService_Verify_stackDocs sys.validate now request w) ▸ hw
  | AuthSignin now request =>
    exact (AuthService_Signin_stackDocs sys.lib sys.provider now request w) ▸ hw
  | AuthValidate now tokenString =>
    exact (AuthService_Validate_stackDocs sys.lib sys.provider now tokenString w) ▸ hw
  | StackCreate generated id => exact StackService_Create_indexed generated id w hw
  | StackFindById id => exact (StackService_FindById_stackDocs id w) ▸ hw
  | StackFindByIdFromOwner id owner =>
    exact (StackService_FindByIdFromOwner_stackDocs id owner w) ▸ hw
  | StackFindAll => exact (StackService_FindAll_stackDocs w) ▸ hw
  | StackFindAllFromOwner owner => exact (StackService_FindAllFromOwner_stackDocs owner w) ▸ hw
  | StackPush id request => exact StackService_Push_indexed sys.validate id request w hw
  | StackPushFromOwner id owner request =>
    exact StackService_PushFromOwner_indexed sys.validate id owner request w hw
  | StackPop id => exact StackService_Pop_indexed id w hw
  | StackPopFromOwner id owner => exact StackService_PopFromOwner_indexed id owner w hw

theorem run_keeps_indexed (sys : System) (ops : List Op) :
    ∀ w : World, indexed w.stackDocs → indexed (run sys ops w).stackDocs := by
  induction ops with
  | nil => intro w hw; exact hw
  | cons op ops ih => intro w hw; exact ih _ (step_keeps_indexed sys op w hw)

theorem indexed_last (items : List Item)
    (hitems : items.map Item.Index = List.range items.length) (hne : items ≠ []) :
    (items.getLast hne).Index = items.length - 1 := by
  apply indexed_position items hitems
  rw [List.getLast_eq_getElem]
  exact List.getElem?_eq_getElem _

/-- A push that follows a pop of the same stack is assigned the index of the
item the pop has removed from the end: the length less one. -/
theorem pop_then_push (v : Validate) (id owner : String) (request : ItemRequest) (w : World)
    (s : Stack) (hvalid : v.StructItemRequest request = true)
    (hnodup : (w.stackDocs.map Stack.ID).Nodup)
    (hs : s ∈ w.stackDocs) (hid : s.ID = id) (ho : s.Owner = owner) (hne : s.Items ≠ []) :
    (StackService.PushFromOwner v id owner request (StackService.PopFromOwner id owner w).2).1
      = .ok { Index := s.Items.length - 1, Name := request.Name } := by
  have hdocs : (StackService.PopFromOwner id owner w).2.stackDocs
      = withItems id s.Items.dropLast w.stackDocs := by
    rw [pop_owned id owner w s hnodup hs hid ho hne]; rfl
  rw [push_owned v id owner request (StackService.PopFromOwner id owner w).2
    { s with Items := s.Items.dropLast } hvalid
    (by rw [hdocs, withItems_ids]; exact hnodup)
    (by rw [hdocs]; exact mem_withItems id _ w.stackDocs s hs hid) hid ho]
  simp

/-- Claim C26: start from a store with unique keys in which every item has its
position as its index (the empty database; any store in which stacks have only
just been created). After any sequence of service calls, every stored stack
has at each position `i` an item with `Index = i`, so no two of its items share
an index; and when its list is not empty, a pop by the owner answers the index
`len - 1` and the push by the owner that follows is assigned that same index
again. -/
theorem C26_index_equals_position (sys : System) (ops : List Op) (w : World)
    (hwf : w.WellFormed) (hw : indexed w.stackDocs) :
    ∀ s ∈ (run sys ops w).stackDocs,
      (∀ (i : Nat) (item : Item), s.Items[i]? = some item → item.Index = i)
        ∧ (s.Items.map Item.Index).Nodup
        ∧ ∀ (hne : s.Items ≠ []) (v : Validate) (request : ItemRequest),
            v.StructItemRequest request = true →
            (StackService.PopFromOwner s.ID s.Owner (run sys ops w)).1
                = .ok { Index := s.Items.length - 1, Name := (s.Items.getLast hne).Name }
              ∧ (StackService.PushFromOwner v s.ID s.Owner request
                  (StackService.PopFromOwner s.ID s.Owner (run sys ops w)).2).1
                = .ok { Index := s.Items.length - 1, Name := request.Name } := by
  intro s hs
  have hindexed := run_keeps_indexed sys ops w hw s hs
  have hnodup := (run_wellFormed sys ops w hwf).2.2.1
  refine ⟨indexed_position s.Items hindexed, indexed_nodup s.Items hindexed, ?_⟩
  intro hne v request hvalid
  refine ⟨?_, pop_then_push v s.ID s.Owner request _ s hvalid hnodup hs rfl rfl hne⟩
  rw [pop_owned s.ID s.Owner _ s hnodup hs rfl rfl hne, indexed_last s.Items hindexed hne]

/-- C26 at the sample store: `u1` creates `s3`, pushes `x` and `y`, pops, and
pushes `z`, which gets the index 1 that the pop of `y` has freed; a further pop
and push use index 1 once more. -/
theorem C26_index_equals_position_witness :
    (run sampleSystem
        [.StackCreate "s3" "u1", .StackPushFromOwner "s3" "u1" ⟨"x"⟩,
          .StackPushFromOwner "s3" "u1" ⟨"y"⟩, .StackPopFromOwner "s3" "u1",
          .StackPushFromOwner "s3" "u1" ⟨"z"⟩] sampleWorld).stackDocs
        = [{ ID := "s1", Items := [{ Index := 0, Name := "a" }, { Index := 1, Name := "b" }],
             Owner := "u1" },
           { ID := "s2", Items := [], Owner := "u2" },
           { ID := "s3", Items := [{ Index := 0, Name := "x" }, { Index := 1, Name := "z" }],
             Owner := "u1" }]
      ∧ ([({ Index := 0, Name := "x" } : Item), { Index := 1, Name := "z" }].map
          Item.Index).Nodup
      ∧ (StackService.PopFromOwner "s3" "u1" (run sampleSystem
          [.StackCreate "s3" "u1", .StackPushFromOwner "s3" "u1" ⟨"x"⟩,
            .StackPushFromOwner "s3" "u1" ⟨"y"⟩, .StackPopFromOwner "s3" "u1",
            .StackPushFromOwner "s3" "u1" ⟨"z"⟩] sampleWorld)).1
        = .ok { Index := 1, Name := "z" }
      ∧ (StackService.PushFromOwner sampleValidate "s3" "u1" ⟨"w"⟩
          (StackService.PopFromOwner "s3" "u1" (run sampleSystem
            [.StackCreate "s3" "u1", .StackPushFromOwner "s3" "u1" ⟨"x"⟩,
              .StackPushFromOwner "s3" "u1" ⟨"y"⟩, .StackPopFromOwner "s3" "u1",
              .StackPushFromOwner "s3" "u1" ⟨"z"⟩] sampleWorld)).2).1
        = .ok { Index := 1, Name := "w" } :=
  have h := C26_index_equals_position sampleSystem
    [.StackCreate "s3" "u1", .StackPushFromOwner "s3" "u1" ⟨"x"⟩,
      .StackPushFromOwner "s3" "u1" ⟨"y"⟩, .StackPopFromOwner "s3" "u1",
      .StackPushFromOwner "s3" "u1" ⟨"z"⟩] sampleWorld
    ⟨by decide, by decide, by decide, by decide⟩
    (by unfold indexed; decide)
    { ID := "s3", Items := [{ Index := 0, Name := "x" }, { Index := 1, Name := "z" }],
      Owner := "u1" } (by decide)
  have h2 := h.2.2 (by decide) sampleValidate ⟨"w"⟩ (by decide)
  ⟨by decide, h.2.1, h2.1, h2.2⟩

/-! ## C22: which index a push is assigned -/

theorem depth_append (a b : List StackCall) : ∀ k, depth k (a ++ b) = depth (depth k a) b := by
  induction a with
  | nil => intro k; rfl
  | cons c a ih =>
    intro k
    cases c with
    | push name => exact ih (k + 1)
    | pop => exact ih (k - 1)

/-- `PopFromOwner` on a stack of the owner that has no items. -/
theorem pop_owned_empty (id owner : String) (w : World) (s : Stack)
    (hnodup : (w.stackDocs.map Stack.ID).Nodup)
    (hs : s ∈ w.stackDocs) (hid : s.ID = id) (ho : s.Owner = owner) (hnil : s.Items = []) :
    StackService.PopFromOwner id owner w
      = (.panic "index out of range",
          { w with calls := w.calls ++ [.StackFindByOwner owner] }) := by
  subst hid
  exact popFromOwner_found_empty s.ID owner w s (owned_find w.stackDocs hnodup s hs owner ho) hnil

/-- After a history on the stack `s`, the stack holds `depth` items and every
other stack is as before. -/
theorem history_spec (v : Validate) (id owner : String) (calls : List StackCall) :
    ∀ (w : World) (s : Stack),
      (∀ n, StackCall.push n ∈ calls → 1 ≤ n.length ∧ n.length ≤ 128) →
      (w.stackDocs.map Stack.ID).Nodup → s ∈ w.stackDocs → s.ID = id → s.Owner = owner →
      ∃ items : List Item, items.length = depth s.Items.length calls
        ∧ (history v id owner calls w).2.stackDocs = withItems id items w.stackDocs := by
  induction calls with
  | nil =>
    intro w s _ hnodup hs hid _
    exact ⟨s.Items, rfl, by simp [history, withItems_self id w.stackDocs hnodup s hs hid]⟩
  | cons c calls ih =>
    intro w s hnames hnodup hs hid ho
    have hrest : ∀ n, StackCall.push n ∈ calls → 1 ≤ n.length ∧ n.length ≤ 128 :=
      fun n hn => hnames n (List.mem_cons_of_mem _ hn)
    cases c with
    | push n =>
      have hn := hnames n (List.mem_cons_self _ _)
      have hpush := push_owned v id owner ⟨n⟩ w s (name_valid v ⟨n⟩ hn.1 hn.2) hnodup hs hid ho
      have hdocs : (StackService.PushFromOwner v id owner ⟨n⟩ w).2.stackDocs
          = withItems id (s.Items ++ [{ Index := s.Items.length, Name := n }]) w.stackDocs := by
        rw [hpush]; rfl
      rcases ih (StackService.PushFromOwner v id owner ⟨n⟩ w).2
        { s with Items := s.Items ++ [{ Index := s.Items.length, Name := n }] } hrest
        (by rw [hdocs, withItems_ids]; exact hnodup)
        (by rw [hdocs]; exact mem_withItems id _ w.stackDocs s hs hid) hid ho
        with ⟨items, hlen, hitems⟩
      refine ⟨items, ?_, ?_⟩
      · simpa [depth] using hlen
      · simp only [history]
        rw [hitems, hdocs, withItems_withItems]
    | pop =>
      by_cases hnil : s.Items = []
      · have hpop := pop_owned_empty id owner w s hnodup hs hid ho hnil
        have hdocs : (StackService.PopFromOwner id owner w).2.stackDocs = w.stackDocs := by
          rw [hpop]
        rcases ih (StackService.PopFromOwner id owner w).2 s hrest
          (by rw [hdocs]; exact hnodup) (by rw [hdocs]; exact hs) hid ho
          with ⟨items, hlen, hitems⟩
        refine ⟨items, ?_, ?_⟩
        · simpa [depth, hnil] using hlen
        · simp only [history]
          rw [hitems, hdocs]
      · have hpop := pop_owned id owner w s hnodup hs hid ho hnil
        have hdocs : (StackService.PopFromOwner id owner w).2.stackDocs
            = withItems id s.Items.dropLast w.stackDocs := by
          rw [hpop]; rfl
        rcases ih (StackService.PopFromOwner id owner w).2
          { s with Items := s.Items.dropLast } hrest
          (by rw [hdocs, withItems_ids]; exact hnodup)
          (by rw [hdocs]; exact mem_withItems id _ w.stackDocs s hs hid) hid ho
          with ⟨items, hlen, hitems⟩
        refine ⟨items, ?_, ?_⟩
        · simpa [depth] using hlen
        · simp only [history]
          rw [hitems, hdocs, withItems_withItems]

/-- The claim C22 as the specification words it fails on a stack that has just
been created: `u1` creates `s3` and pushes `x`, pushes `y`, pops twice and
pushes `z`; the three pushes are assigned 0, 1 and 0, so the index assigned
last is below the one assigned before it. -/
theorem C22_indexes_not_monotone_counterexample :
    (StackService.Create "s3" "u1" sampleWorld).1
        = .ok { ID := "s3", Owner := "u1", Items := [] }
      ∧ (history sampleValidate "s3" "u1"
          [.push "x", .push "y", .pop, .pop, .push "z"]
          (StackService.Create "s3" "u1" sampleWorld).2).1
        = [.ok { Index := 0, Name := "x" }, .ok { Index := 1, Name := "y" },
           .ok { Index := 1, Name := "y" }, .ok { Index := 0, Name := "x" },
           .ok { Index := 0, Name := "z" }]
      ∧ pushIndexes [.push "x", .push "y", .pop, .pop, .push "z"]
          (history sampleValidate "s3" "u1"
            [.push "x", .push "y", .pop, .pop, .push "z"]
            (StackService.Create "s3" "u1" sampleWorld).2).1 = [0, 1, 0]
      ∧ ¬ (pushIndexes [.push "x", .push "y", .pop, .pop, .push "z"]
          (history sampleValidate "s3" "u1"
            [.push "x", .push "y", .pop, .pop, .push "z"]
            (StackService.Create "s3" "u1" sampleWorld).2).1).Pairwise (fun a b => a ≤ b) := by
  decide

/-- Claim C22, amended: on a stack `s` of `owner` holding `k` items (`k = 0`
for a stack that has just been created), after any pushes of valid names and
pops by the owner the next push is assigned the number of items then stored,
`depth k calls`: `k` when nothing was called before (so 0 as the first push
after creation), one more than the push before it when no pop lies between
them, and one less for every pop of a non-empty list in between. -/
theorem C22_index_is_current_length (v : Validate) (id owner : String) (w : World) (s : Stack)
    (calls : List StackCall) (name : String)
    (hnames : ∀ n, StackCall.push n ∈ calls → 1 ≤ n.length ∧ n.length ≤ 128)
    (hname : 1 ≤ name.length ∧ name.length ≤ 128)
    (hnodup : (w.stackDocs.map Stack.ID).Nodup)
    (hs : s ∈ w.stackDocs) (hid : s.ID = id) (ho : s.Owner = owner) :
    (StackService.PushFromOwner v id owner ⟨name⟩ (history v id owner calls w).2).1
        = .ok { Index := depth s.Items.length calls, Name := name }
      ∧ depth s.Items.length [] = s.Items.length
      ∧ depth s.Items.length (calls ++ [.push name]) = depth s.Items.length calls + 1
      ∧ depth s.Items.length (calls ++ [.pop]) = depth s.Items.length calls - 1 := by
  refine ⟨?_, rfl, by rw [depth_append]; rfl, by rw [depth_append]; rfl⟩
  rcases history_spec v id owner calls w s hnames hnodup hs hid ho with ⟨items, hlen, hdocs⟩
  rw [push_owned v id owner ⟨name⟩ (history v id owner calls w).2 { s with Items := items }
    (name_valid v ⟨name⟩ hname.1 hname.2)
    (by rw [hdocs, withItems_ids]; exact hnodup)
    (by rw [hdocs]; exact mem_withItems id _ w.stackDocs s hs hid) hid ho]
  simp [hlen]

/-- C22 at the sample store, on the stack `s3` that `u1` has just created: the
first push is assigned 0, and so is the push after two pushes and two pops. -/
theorem C22_index_is_current_length_witness :
    (StackService.PushFromOwner sampleValidate "s3" "u1" ⟨"x"⟩
        (history sampleValidate "s3" "u1" [] (StackService.Create "s3" "u1" sampleWorld).2).2).1
        = .ok { Index := 0, Name := "x" }
      ∧ (StackService.PushFromOwner sampleValidate "s3" "u1" ⟨"z"⟩
        (history sampleValidate "s3" "u1" [.push "x", .push "y", .pop, .pop]
          (StackService.Create "s3" "u1" sampleWorld).2).2).1
        = .ok { Index := 0, Name := "z" } :=
  ⟨(C22_index_is_current_length sampleValidate "s3" "u1"
      (StackService.Create "s3" "u1" sampleWorld).2 { ID := "s3", Items := [], Owner := "u1" }
      [] "x" (by intro n hn; cases hn) (by decide) (by decide) (by decide) rfl rfl).1,
    (C22_index_is_current_length sampleValidate "s3" "u1"
      (StackService.Create "s3" "u1" sampleWorld).2 { ID := "s3", Items := [], Owner := "u1" }
      [.push "x", .push "y", .pop, .pop] "z"
      (by
        intro n hn
        simp only [List.mem_cons, StackCall.push.injEq, List.mem_singleton, List.not_mem_nil,
          or_false, reduceCtorEq, false_or] at hn
        rcases hn with rfl | rfl <;> decide)
      (by decide) (by decide) (by decide) rfl rfl).1⟩

/-! ## C24: lost updates -/

/-- `PushFromOwner` is its lookup followed by its update. -/
theorem PushFromOwner_read_finish (v : Validate) (id owner : String) (request : ItemRequest)
    (w : World) :
    StackService.PushFromOwner v id owner request w
      = StackService.finish (StackService.PushFromOwner.read v id owner request w).1
          (StackService.PushFromOwner.read v id owner request w).2 := by
  simp only [StackService.PushFromOwner, StackService.PushFromOwner.read,
    StackRepository_FindByOwner_eq]
  repeat' split
  all_goals first | rfl | simp_all [StackService.finish]

/-- `PopFromOwner` is its lookup followed by its update. -/
theorem PopFromOwner_read_finish (id owner : String) (w : World) :
    StackService.PopFromOwner id owner w
      = StackService.finish (StackService.PopFromOwner.read id owner w).1
          (StackService.PopFromOwner.read id owner w).2 := by
  simp only [StackService.PopFromOwner, StackService.PopFromOwner.read,
    StackRepository_FindByOwner_eq]
  repeat' split
  all_goals first | rfl | simp_all [StackService.finish]

/-- The lookup of a push on a stack of the owner. -/
theorem push_read_owned (v : Validate) (id owner : String) (request : ItemRequest) (w : World)
    (s : Stack) (hvalid : v.StructItemRequest request = true)
    (hnodup : (w.stackDocs.map Stack.ID).Nodup)
    (hs : s ∈ w.stackDocs) (hid : s.ID = id) (ho : s.Owner = owner) :
    StackService.PushFromOwner.read v id owner request w
      = (.ok { stack := { s with Items := s.Items
                  ++ [{ Index := s.Items.length, Name := request.Name }] }
               item := { Index := s.Items.length, Name := request.Name } },
          { w with calls := w.calls ++ [.StackFindByOwner owner] }) := by
  subst hid
  have hfind := owned_find w.stackDocs hnodup s hs owner ho
  have hmem : s ∈ w.stackDocs.filter (fun t => t.Owner == owner) :=
    List.mem_filter.2 ⟨hs, by simp [ho]⟩
  have hlen : ¬ (w.stackDocs.filter (fun t => t.Owner == owner)).length < 1 := by
    have := List.length_pos_of_mem hmem
    omega
  simp only [StackService.PushFromOwner.read, hvalid, StackRepository.FindByOwner,
    World.record, hlen, hfind, Bool.not_true, Bool.false_eq_true, if_false]

/-- The lookup of a pop on a stack of the owner that has items. -/
theorem pop_read_owned (id owner : String) (w : World) (s : Stack)
    (hnodup : (w.stackDocs.map Stack.ID).Nodup)
    (hs : s ∈ w.stackDocs) (hid : s.ID = id) (ho : s.Owner = owner) (hne : s.Items ≠ []) :
    StackService.PopFromOwner.read id owner w
      = (.ok { stack := { s with Items := s.Items.dropLast }, item := s.Items.getLast hne },
          { w with calls := w.calls ++ [.StackFindByOwner owner] }) := by
  subst hid
  have hfind := owned_find w.stackDocs hnodup s hs owner ho
  have hmem : s ∈ w.stackDocs.filter (fun t => t.Owner == owner) :=
    List.mem_filter.2 ⟨hs, by simp [ho]⟩
  have hlen : ¬ (w.stackDocs.filter (fun t => t.Owner == owner)).length < 1 := by
    have := List.length_pos_of_mem hmem
    omega
  simp only [StackService.PopFromOwner.read, StackRepository.FindByOwner, World.record,
    hlen, hfind, index_last s.Items hne, take_pred_length, if_false]

/-- The update of a pending call on a stored stack: the whole item list is
replaced by the one held in memory. -/
theorem finish_owned (id : String) (w : World) (s : Stack) (items : List Item) (item : Item)
    (hnodup : (w.stackDocs.map Stack.ID).Nodup) (hs : s ∈ w.stackDocs) (hid : s.ID = id) :
    StackService.finish (.ok { stack := { s with Items := items }, item := item }) w
      = (.ok { Index := item.Index, Name := item.Name },
          { w with
            stackDocs := withItems id items w.stackDocs
            calls := w.calls ++ [.StackUpdate { s with Items := items }] }) := by
  subst hid
  have hany : w.stackDocs.any (fun t => t.ID == s.ID) = true :=
    List.any_eq_true.2 ⟨s, hs, by simp⟩
  simp only [StackService.finish, StackRepository.Update, World.record, hany, if_true]
  rw [replaceFirst_eq_map Stack.ID s.ID _ w.stackDocs hnodup, map_owned w.stackDocs hnodup s hs]
  simp [withItems]

/-- Two calls on the stored stack `s` that have both looked it up before either
updates it: both answer their own item, and the list the later update holds in
memory is what ends up stored. -/
theorem raced_owned (a b : World → Outcome Pending × World) (id : String) (w : World)
    (s : Stack) (itemsA itemsB : List Item) (itemA itemB : Item)
    (hnodup : (w.stackDocs.map Stack.ID).Nodup) (hs : s ∈ w.stackDocs) (hid : s.ID = id)
    (ha : (a w).1 = .ok { stack := { s with Items := itemsA }, item := itemA })
    (hb : (b (a w).2).1 = .ok { stack := { s with Items := itemsB }, item := itemB })
    (hwb : (b (a w).2).2.stackDocs = w.stackDocs) :
    (raced a b w).1 = (.ok itemA.toResponse, .ok itemB.toResponse)
      ∧ (raced a b w).2.stackDocs = withItems id itemsB w.stackDocs := by
  have h1 := finish_owned id (b (a w).2).2 s itemsA itemA
    (by rw [hwb]; exact hnodup) (by rw [hwb]; exact hs) hid
  have h2 : StackService.finish (.ok { stack := { s with Items := itemsB }, item := itemB })
      { (b (a w).2).2 with
        stackDocs := withItems id itemsA (b (a w).2).2.stackDocs
        calls := (b (a w).2).2.calls ++ [.StackUpdate { s with Items := itemsA }] }
      = (.ok { Index := itemB.Index, Name := itemB.Name },
          { (b (a w).2).2 with
            stackDocs := withItems id itemsB (withItems id itemsA (b (a w).2).2.stackDocs)
            calls := (b (a w).2).2.calls ++ [.StackUpdate { s with Items := itemsA }]
              ++ [.StackUpdate { s with Items := itemsB }] }) :=
    finish_owned id _ { s with Items := itemsA } itemsB itemB
      (by rw [withItems_ids, hwb]; exact hnodup)
      (by rw [hwb]; exact mem_withItems id _ w.stackDocs s hs hid) hid
  simp only [raced]
  rw [ha, hb, h1, h2, withItems_withItems, hwb]
  exact ⟨rfl, rfl⟩

/-- Claim C24: on a stack `s` of `owner` with the stored list `L`, let two
`PushFromOwner` calls with valid names both look the stack up before either
writes it back. Both succeed and both answer the index `len L`; after both
updates the stored list is `L` followed by the item of the later update only.
Likewise for a push racing a pop on a non-empty `L`, both succeed and the
stored list is the one of the later update: `L` without its last item when the
pop writes last (the pushed item is lost), `L` with the pushed item when the
push writes last (the popped item is still stored). Each method is its lookup
followed by its update. -/
theorem C24_lost_update (v : Validate) (id owner : String) (first second : ItemRequest)
    (w : World) (s : Stack)
    (hfirst : v.StructItemRequest first = true) (hsecond : v.StructItemRequest second = true)
    (hnodup : (w.stackDocs.map Stack.ID).Nodup)
    (hs : s ∈ w.stackDocs) (hid : s.ID = id) (ho : s.Owner = owner) :
    ((raced (StackService.PushFromOwner.read v id owner first)
          (StackService.PushFromOwner.read v id owner second) w).1
        = (.ok { Index := s.Items.length, Name := first.Name },
           .ok { Index := s.Items.length, Name := second.Name })
      ∧ (raced (StackService.PushFromOwner.read v id owner first)
          (StackService.PushFromOwner.read v id owner second) w).2.stackDocs
        = withItems id (s.Items ++ [{ Index := s.Items.length, Name := second.Name }])
            w.stackDocs)
      ∧ (∀ hne : s.Items ≠ [],
          ((raced (StackService.PushFromOwner.read v id owner first)
                (StackService.PopFromOwner.read id owner) w).1
              = (.ok { Index := s.Items.length, Name := first.Name },
                 .ok (s.Items.getLast hne).toResponse)
            ∧ (raced (StackService.PushFromOwner.read v id owner first)
                (StackService.PopFromOwner.read id owner) w).2.stackDocs
              = withItems id s.Items.dropLast w.stackDocs)
          ∧ ((raced (StackService.PopFromOwner.read id owner)
                (StackService.PushFromOwner.read v id owner first) w).1
              = (.ok (s.Items.getLast hne).toResponse,
                 .ok { Index := s.Items.length, Name := first.Name })
            ∧ (raced (StackService.PopFromOwner.read id owner)
                (StackService.PushFromOwner.read v id owner first) w).2.stackDocs
              = withItems id (s.Items ++ [{ Index := s.Items.length, Name := first.Name }])
                  w.stackDocs))
      ∧ (∀ (request : ItemRequest) (u : World),
          StackService.PushFromOwner v id owner request u
            = StackService.finish (StackService.PushFromOwner.read v id owner request u).1
                (StackService.PushFromOwner.read v id owner request u).2)
      ∧ (∀ u : World,
          StackService.PopFromOwner id owner u
            = StackService.finish (StackService.PopFromOwner.read id owner u).1
                (StackService.PopFromOwner.read id owner u).2) := by
  have push1 := push_read_owned v id owner first w s hfirst hnodup hs hid ho
  have push2 : ∀ u : World, u.stackDocs = w.stackDocs →
      StackService.PushFromOwner.read v id owner second u
        = (.ok { stack := { s with Items := s.Items
                    ++ [{ Index := s.Items.length, Name := second.Name }] }
                 item := { Index := s.Items.length, Name := second.Name } },
            { u with calls := u.calls ++ [.StackFindByOwner owner] }) :=
    fun u hu => push_read_owned v id owner second u s hsecond (by rw [hu]; exact hnodup)
      (by rw [hu]; exact hs) hid ho
  have push1b : ∀ u : World, u.stackDocs = w.stackDocs →
      StackService.PushFromOwner.read v id owner first u
        = (.ok { stack := { s with Items := s.Items
                    ++ [{ Index := s.Items.length, Name := first.Name }] }
                 item := { Index := s.Items.length, Name := first.Name } },
            { u with calls := u.calls ++ [.StackFindByOwner owner] }) :=
    fun u hu => push_read_owned v id owner first u s hfirst (by rw [hu]; exact hnodup)
      (by rw [hu]; exact hs) hid ho
  refine ⟨?_, ?_, fun request u => PushFromOwner_read_finish v id owner request u,
    fun u => PopFromOwner_read_finish id owner u⟩
  · exact raced_owned (StackService.PushFromOwner.read v id owner first)
      (StackService.PushFromOwner.read v id owner second) id w s
      (s.Items ++ [{ Index := s.Items.length, Name := first.Name }])
      (s.Items ++ [{ Index := s.Items.length, Name := second.Name }])
      { Index := s.Items.length, Name := first.Name }
      { Index := s.Items.length, Name := second.Name } hnodup hs hid (by rw [push1])
      (by rw [push2 _ (by rw [push1])]) (by rw [push2 _ (by rw [push1]), push1])
  · intro hne
    have pop1 : ∀ u : World, u.stackDocs = w.stackDocs →
        StackService.PopFromOwner.read id owner u
          = (.ok { stack := { s with Items := s.Items.dropLast },
                   item := s.Items.getLast hne },
              { u with calls := u.calls ++ [.StackFindByOwner owner] }) :=
      fun u hu => pop_read_owned id owner u s (by rw [hu]; exact hnodup)
        (by rw [hu]; exact hs) hid ho hne
    refine ⟨?_, ?_⟩
    · exact raced_owned (StackService.PushFromOwner.read v id owner first)
        (StackService.PopFromOwner.read id owner) id w s
        (s.Items ++ [{ Index := s.Items.length, Name := first.Name }]) s.Items.dropLast
        { Index := s.Items.length, Name := first.Name } (s.Items.getLast hne)
        hnodup hs hid (by rw [push1])
        (by rw [pop1 _ (by rw [push1])]) (by rw [pop1 _ (by rw [push1]), push1])
    · exact raced_owned (StackService.PopFromOwner.read id owner)
        (StackService.PushFromOwner.read v id owner first) id w s
        s.Items.dropLast (s.Items ++ [{ Index := s.Items.length, Name := first.Name }])
        (s.Items.getLast hne) { Index := s.Items.length, Name := first.Name }
        hnodup hs hid (by rw [pop1 w rfl])
        (by rw [push1b _ (by rw [pop1 w rfl])])
        (by rw [push1b _ (by rw [pop1 w rfl]), pop1 w rfl])

/-- C24 at the sample store, on `s1` of `u1` holding `a` and `b`: the racing
pushes of `c` and `d` both answer index 2 and only `d` is stored; when the push
of `c` races a pop that writes last, both succeed and `c` is not stored. -/
theorem C24_lost_update_witness :
    ((raced (StackService.PushFromOwner.read sampleValidate "s1" "u1" ⟨"c"⟩)
          (StackService.PushFromOwner.read sampleValidate "s1" "u1" ⟨"d"⟩) sampleWorld).1
        = (.ok { Index := 2, Name := "c" }, .ok { Index := 2, Name := "d" })
      ∧ (raced (StackService.PushFromOwner.read sampleValidate "s1" "u1" ⟨"c"⟩)
          (StackService.PushFromOwner.read sampleValidate "s1" "u1" ⟨"d"⟩)
          sampleWorld).2.stackDocs
        = [{ ID := "s1",
             Items := [{ Index := 0, Name := "a" }, { Index := 1, Name := "b" },
               { Index := 2, Name := "d" }],
             Owner := "u1" },
           { ID := "s2", Items := [], Owner := "u2" }])
      ∧ ((raced (StackService.PushFromOwner.read sampleValidate "s1" "u1" ⟨"c"⟩)
          (StackService.PopFromOwner.read "s1" "u1") sampleWorld).1
        = (.ok { Index := 2, Name := "c" }, .ok { Index := 1, Name := "b" })
      ∧ (raced (StackService.PushFromOwner.read sampleValidate "s1" "u1" ⟨"c"⟩)
          (StackService.PopFromOwner.read "s1" "u1") sampleWorld).2.stackDocs
        = [{ ID := "s1", Items := [{ Index := 0, Name := "a" }], Owner := "u1" },
           { ID := "s2", Items := [], Owner := "u2" }]) :=
  have h := C24_lost_update sampleValidate "s1" "u1" ⟨"c"⟩ ⟨"d"⟩ sampleWorld
    { ID := "s1", Items := [{ Index := 0, Name := "a" }, { Index := 1, Name := "b" }],
      Owner := "u1" }
    (by decide) (by decide) (by decide) (by decide) rfl rfl
  have hpop := (h.2.1 (by decide)).1
  ⟨⟨h.1.1, h.1.2.trans (by decide)⟩, hpop.1, hpop.2.trans (by decide)⟩

end Godas
